import Mathlib

/-!
BOOM linear algebra: the `Selector` type.

A shallow embedding of `src/src/LinAlg/Selector.cpp`.  A `Selector` is a
`std::vector<bool>` (the mask) together with the cached index list
`included_positions_` and the flag `include_all_`.  Vectors of doubles are
lists over an arbitrary element type: the operations studied here only move
elements around and write the constants 0 and 1.  Positions and sizes are
natural numbers (the source uses 32 bit unsigned integers; no operation below
leaves that range for containers that fit in memory, except the `n - 1` of
`add_all`, which is reduced modulo 2^32).

Every operation that can call `report_error`, or that reads or erases outside
a container, returns in `Except Fault`.
-/

namespace BOOM

/-- How an operation can fail: `reported` is a call of `report_error` (an
exception carrying a message), `out_of_range` is an access outside the bounds
of a container, which the C++ code does not check. -/
inductive Fault where
  | reported (msg : String)
  | out_of_range
  deriving DecidableEq, Repr

/-- The class `Selector`: the `std::vector<bool>` base object and the two data
members. -/
structure Selector where
  mask : List Bool
  included_positions_ : List Nat
  include_all_ : Bool
  deriving DecidableEq, Repr

/-- The loop of `std::lower_bound` (binary search): `first` is the start of the
remaining range, `len` its length; the first argument bounds the number of
iterations, and `len` iterations always suffice since `len` strictly decreases. -/
def lower_bound_loop (xs : List Nat) (p : Nat) : Nat → Nat → Nat → Nat
  | 0, first, _ => first
  | fuel + 1, first, len =>
    if len = 0 then first
    else
      let half := len / 2
      let middle := first + half
      if xs.getD middle 0 < p then
        lower_bound_loop xs p fuel (middle + 1) (len - half - 1)
      else
        lower_bound_loop xs p fuel first half

/-- The call `std::lower_bound(xs.begin(), xs.end(), p)`, as an index into `xs`. -/
def lower_bound (xs : List Nat) (p : Nat) : Nat :=
  lower_bound_loop xs p xs.length 0 xs.length

/-- The call `v.insert(it, p)` of `std::vector`, with `it` an index. -/
def vector_insert (xs : List Nat) (it : Nat) (p : Nat) : List Nat :=
  xs.take it ++ p :: xs.drop it

namespace Selector

/-- The member `Selector::nvars_possible`. -/
def nvars_possible (s : Selector) : Nat := s.mask.length

/-- The member `Selector::nvars`. -/
def nvars (s : Selector) : Nat :=
  if s.include_all_ then s.nvars_possible else s.included_positions_.length

/-- The member `Selector::nvars_excluded`. -/
def nvars_excluded (s : Selector) : Nat := s.nvars_possible - s.nvars

/-- The member `Selector::inc`, an unchecked read of the mask. -/
def inc (s : Selector) (i : Nat) : Except Fault Bool :=
  match s.mask[i]? with
  | some b => .ok b
  | none => .error .out_of_range

/-- The member `Selector::indx`. -/
def indx (s : Selector) (i : Nat) : Except Fault Nat :=
  if s.include_all_ then .ok i
  else
    match s.included_positions_[i]? with
    | some I => .ok I
    | none => .error .out_of_range

/-- The member `Selector::reset_included_positions`: the positions `i` below
`nvars_possible()` with `inc(i)`, in increasing order. -/
def reset_included_positions (s : Selector) : Selector :=
  { s with included_positions_ :=
      (List.range s.nvars_possible).filter (fun i => s.mask.getD i false) }

/-- The member `Selector::check_size_eq`. -/
def check_size_eq (s : Selector) (p : Nat) (fn : String) : Except Fault Unit :=
  if p = s.nvars_possible then .ok ()
  else .error (.reported ("error in function Selector::" ++ fn))

/-- The member `Selector::check_size_gt`. -/
def check_size_gt (s : Selector) (p : Nat) (fn : String) : Except Fault Unit :=
  if p < s.nvars_possible then .ok ()
  else .error (.reported ("error in function Selector::" ++ fn))

/-- The member `Selector::add`. -/
def add (s : Selector) (p : Nat) : Except Fault Selector :=
  match s.check_size_gt p "add" with
  | .error e => .error e
  | .ok _ =>
    if s.include_all_ then .ok s
    else
      match s.inc p with
      | .error e => .error e
      | .ok true => .ok s
      | .ok false =>
        let it := lower_bound s.included_positions_ p
        .ok { s with mask := s.mask.set p true,
                     included_positions_ := vector_insert s.included_positions_ it p }

/-- The member `Selector::drop_all`. -/
def drop_all (s : Selector) : Selector :=
  { mask := List.replicate s.mask.length false,
    included_positions_ := [],
    include_all_ := false }

/-- The member `Selector::add_all`.  The helper `seq<uint>(from, to)` of
`cpputil/seq.hpp` is not among the sources and is taken as a parameter; its
second argument is `n - 1` in 32 bit unsigned arithmetic. -/
def add_all (seq : Nat → Nat → List Nat) (s : Selector) : Selector :=
  let n := s.nvars_possible
  { mask := List.replicate n true,
    included_positions_ := seq 0 ((n + 4294967295) % 4294967296),
    include_all_ := true }

/-- The member `Selector::drop`.  Erasing at the end iterator is outside the
bounds of the index list. -/
def drop (s : Selector) (p : Nat) : Except Fault Selector :=
  match s.check_size_gt p "drop" with
  | .error e => .error e
  | .ok _ =>
    let s1 : Selector :=
      if s.include_all_ then { s.reset_included_positions with include_all_ := false }
      else s
    match s1.inc p with
    | .error e => .error e
    | .ok false => .ok s1
    | .ok true =>
      let it := lower_bound s1.included_positions_ p
      if it < s1.included_positions_.length then
        .ok { s1 with mask := s1.mask.set p false,
                      included_positions_ := s1.included_positions_.eraseIdx it }
      else .error .out_of_range

/-- The member `Selector::flip`. -/
def flip (s : Selector) (p : Nat) : Except Fault Selector :=
  match s.inc p with
  | .error e => .error e
  | .ok true => s.drop p
  | .ok false => s.add p

/-- The loop of `Selector::complement`: `ans.flip(i)` for the given values of
`i`, in order. -/
def complement_loop : List Nat → Selector → Except Fault Selector
  | [], ans => .ok ans
  | i :: rest, ans =>
    match ans.flip i with
    | .error e => .error e
    | .ok ans1 => complement_loop rest ans1

/-- The member `Selector::complement`. -/
def complement (s : Selector) : Except Fault Selector :=
  complement_loop (List.range s.nvars_possible) s

/-- The member `Selector::operator==`: equality of the masks. -/
def eq (s rhs : Selector) : Bool := decide (s.mask = rhs.mask)

/-- The member `Selector::push_back`. -/
def push_back (s : Selector) (element : Bool) : Selector :=
  let s1 : Selector := { s with mask := s.mask ++ [element] }
  if element then
    { s1 with included_positions_ := s1.included_positions_ ++ [s1.mask.length - 1] }
  else
    { s1 with include_all_ := false }

/-- The member `Selector::append(bool)`.  The unqualified call `push_back` in
its body is `Selector::push_back`, which hides the member of the base class. -/
def append_bool (s : Selector) (new_last_element : Bool) : Selector :=
  let s1 := s.push_back new_last_element
  let s2 : Selector :=
    if new_last_element then
      { s1 with included_positions_ := s1.included_positions_ ++ [s1.mask.length - 1] }
    else s1
  { s2 with include_all_ := s2.include_all_ && new_last_element }

/-- The loop of `Selector::append(const Selector &)`: `add(q + n0)` for the
given entries `q` of `rhs.included_positions_`, in order. -/
def append_loop (n0 : Nat) : List Nat → Selector → Except Fault Selector
  | [], s => .ok s
  | q :: rest, s =>
    match s.add (q + n0) with
    | .error e => .error e
    | .ok s1 => append_loop n0 rest s1

/-- The member `Selector::append(const Selector &)`. -/
def append (s rhs : Selector) : Except Fault Selector :=
  let n0 := s.nvars_possible
  let s1 : Selector := { s with mask := s.mask ++ List.replicate rhs.mask.length false }
  match append_loop n0 rhs.included_positions_ s1 with
  | .error e => .error e
  | .ok s2 => .ok { s2 with include_all_ := s2.include_all_ && rhs.include_all_ }

/-- The member `Selector::erase`.  The read `inc(which_element)` and the
dereference `*it` are unchecked. -/
def erase (s : Selector) (which_element : Nat) : Except Fault Selector :=
  match s.inc which_element with
  | .error e => .error e
  | .ok included =>
    let s1 : Selector := { s with mask := s.mask.eraseIdx which_element }
    if included then
      let it := lower_bound s1.included_positions_ which_element
      match s1.included_positions_[it]? with
      | none => .error .out_of_range
      | some v =>
        if v ≠ which_element then
          .error (.reported "Error erasing element from selector.")
        else
          .ok { s1 with included_positions_ := s1.included_positions_.eraseIdx it }
    else if s1.nvars = s1.nvars_possible then
      .ok { s1 with include_all_ := true }
    else .ok s1

end Selector

/-- The loop of `to_vector_bool`, over the characters of the string from left
to right; the first character other than 0 and 1 reports an error. -/
def to_vector_bool_loop : List Char → Except Fault (List Bool)
  | [] => .ok []
  | c :: cs =>
    if c = '1' then
      match to_vector_bool_loop cs with
      | .error e => .error e
      | .ok ans => .ok (true :: ans)
    else if c = '0' then
      match to_vector_bool_loop cs with
      | .error e => .error e
      | .ok ans => .ok (false :: ans)
    else
      .error (.reported "only 0 and 1 are allowed in the Selector string constructor")

/-- The function `to_vector_bool` of the anonymous namespace. -/
def to_vector_bool (s : String) : Except Fault (List Bool) :=
  to_vector_bool_loop s.toList

/-- The constructor `Selector::Selector(uint p, bool all)`. -/
def Selector_size (p : Nat) (all : Bool) : Selector :=
  Selector.reset_included_positions
    { mask := List.replicate p all, included_positions_ := [], include_all_ := all }

/-- The constructor `Selector::Selector(const std::string &)`. -/
def Selector_string (str : String) : Except Fault Selector :=
  match to_vector_bool str with
  | .error e => .error e
  | .ok m =>
    let s := Selector.reset_included_positions
      { mask := m, included_positions_ := [], include_all_ := false }
    if s.nvars = s.nvars_possible then .ok { s with include_all_ := true }
    else .ok s

/-- The constructor `Selector::Selector(const std::vector<bool> &)`. -/
def Selector_bools (v : List Bool) : Selector :=
  Selector.reset_included_positions
    { mask := v, included_positions_ := [], include_all_ := false }

/-- The loop of `Selector::Selector(const std::vector<uint> &pos, uint n)`:
`add(pos[i])` for each entry in order. -/
def Selector_positions_loop : List Nat → Selector → Except Fault Selector
  | [], s => .ok s
  | p :: rest, s =>
    match s.add p with
    | .error e => .error e
    | .ok s1 => Selector_positions_loop rest s1

/-- The constructor `Selector::Selector(const std::vector<uint> &pos, uint n)`. -/
def Selector_positions (pos : List Nat) (n : Nat) : Except Fault Selector :=
  Selector_positions_loop pos
    { mask := List.replicate n false, included_positions_ := [], include_all_ := false }

/-- The loop of `inc_select`: `ans[i] = x[inc.indx(i)]` for the given values of
`i`, in order; the read of `x` is unchecked. -/
def inc_select_loop {α : Type} (x : List α) (inc : Selector) :
    List Nat → Except Fault (List α)
  | [] => .ok []
  | i :: rest =>
    match inc.indx i with
    | .error e => .error e
    | .ok I =>
      match x[I]? with
      | none => .error .out_of_range
      | some v =>
        match inc_select_loop x inc rest with
        | .error e => .error e
        | .ok ans => .ok (v :: ans)

/-- The function template `inc_select`, which implements `Selector::select`. -/
def inc_select {α : Type} (x : List α) (inc : Selector) : Except Fault (List α) :=
  let nx := x.length
  let N := inc.nvars_possible
  if nx ≠ N then .error (.reported "Selector::select... x.size() differs from nvars_possible()")
  else
    let n := inc.nvars
    if n = N then .ok x
    else inc_select_loop x inc (List.range n)

/-- The loop of `inc_expand`: `ans[inc.indx(i)] = x[i]` for the given values of
`i`, in order; both accesses are unchecked. -/
def inc_expand_loop {α : Type} (x : List α) (inc : Selector) :
    List Nat → List α → Except Fault (List α)
  | [], ans => .ok ans
  | i :: rest, ans =>
    match inc.indx i with
    | .error e => .error e
    | .ok I =>
      match x[i]? with
      | none => .error .out_of_range
      | some v =>
        if I < ans.length then inc_expand_loop x inc rest (ans.set I v)
        else .error .out_of_range

/-- The function template `inc_expand`, which implements `Selector::expand`. -/
def inc_expand {α : Type} [Zero α] (x : List α) (inc : Selector) : Except Fault (List α) :=
  let n := inc.nvars
  let nx := x.length
  if nx ≠ n then .error (.reported "Selector::expand... x.size() differs from nvars()")
  else
    let N := inc.nvars_possible
    if n = N then .ok x
    else inc_expand_loop x inc (List.range n) (List.replicate N 0)

namespace Selector

/-- The member `Selector::select(const Vector &)`. -/
def select {α : Type} (s : Selector) (x : List α) : Except Fault (List α) :=
  inc_select x s

/-- The member `Selector::expand(const Vector &)`. -/
def expand {α : Type} [Zero α] (s : Selector) (x : List α) : Except Fault (List α) :=
  inc_expand x s

/-- The loop of `Selector::to_Vector`: `ans[indx(i)] = 1` for the given values
of `i`, in order; the write is unchecked. -/
def to_Vector_loop {α : Type} [One α] (s : Selector) :
    List Nat → List α → Except Fault (List α)
  | [], ans => .ok ans
  | i :: rest, ans =>
    match s.indx i with
    | .error e => .error e
    | .ok I =>
      if I < ans.length then to_Vector_loop s rest (ans.set I 1)
      else .error .out_of_range

/-- The member `Selector::to_Vector`. -/
def to_Vector {α : Type} [Zero α] [One α] (s : Selector) : Except Fault (List α) :=
  to_Vector_loop s (List.range s.nvars) (List.replicate s.nvars_possible 0)

/-- The consistency of a selector: `included_positions_` is strictly
increasing, it holds exactly the positions where the mask is true, and
`include_all_` implies that every bit of the mask is true. -/
def Consistent (s : Selector) : Prop :=
  s.included_positions_.Pairwise (fun a b => a < b) ∧
  (∀ i ∈ s.included_positions_, s.mask[i]? = some true) ∧
  (∀ i < s.mask.length, s.mask[i]? = some true → i ∈ s.included_positions_) ∧
  (s.include_all_ = true → ∀ b ∈ s.mask, b = true)

instance (s : Selector) : Decidable (Consistent s) := by
  unfold Consistent; infer_instance

end Selector

/-- The selectors that the four constructors with arguments produce: from a
size and a fill flag, from a string, from a boolean sequence, and from a list
of included positions. -/
def BuiltByConstructor (s : Selector) : Prop :=
  (∃ p all, s = Selector_size p all) ∨
  (∃ str, Selector_string str = .ok s) ∨
  (∃ v, s = Selector_bools v) ∨
  (∃ pos n, Selector_positions pos n = .ok s)

/-- A call of one of the mutators of `Selector`. -/
inductive Mutation where
  | add (p : Nat)
  | drop (p : Nat)
  | flip (p : Nat)
  | append_bool (b : Bool)
  | append (rhs : Selector)
  | erase (k : Nat)
  | add_all
  | drop_all
  deriving DecidableEq, Repr

namespace Mutation

/-- The argument of the call is a position of a selector of size `n`. -/
def in_range (n : Nat) : Mutation → Bool
  | add p => decide (p < n)
  | drop p => decide (p < n)
  | flip p => decide (p < n)
  | erase k => decide (k < n)
  | _ => true

/-- The call is one of `add`, `drop`, `flip`, `add_all`, `drop_all`. -/
def keeps_size : Mutation → Bool
  | add _ => true
  | drop _ => true
  | flip _ => true
  | add_all => true
  | drop_all => true
  | _ => false

/-- The effect of the call on a selector. -/
def apply (seq : Nat → Nat → List Nat) (s : Selector) : Mutation → Except Fault Selector
  | add p => s.add p
  | drop p => s.drop p
  | flip p => s.flip p
  | append_bool b => .ok (s.append_bool b)
  | append rhs => s.append rhs
  | erase k => s.erase k
  | add_all => .ok (s.add_all seq)
  | drop_all => .ok s.drop_all

end Mutation

/-- A sequence of mutator calls, made in order; it stops at the first call
that fails. -/
def run_mutations (seq : Nat → Nat → List Nat) : List Mutation → Selector → Except Fault Selector
  | [], s => .ok s
  | m :: rest, s =>
    match m.apply seq s with
    | .error e => .error e
    | .ok s1 => run_mutations seq rest s1

/-- The increasing run `from, from + 1, ..., to`, one possible value of the
parameter of `add_all`. -/
def seq_up (lo hi : Nat) : List Nat := List.range' lo (hi + 1 - lo)

namespace Mutation

/-- The call is one of the two overloads of `append`. -/
def is_append : Mutation → Bool
  | append_bool _ => true
  | append _ => true
  | _ => false

end Mutation

/-- The flag and the length of the index list agree with the mask:
`include_all_` implies that every bit is true, and when `include_all_` is
false the index list has as many entries as the mask has true bits. -/
def Selector.FlagSound (s : Selector) : Prop :=
  (s.include_all_ = true → ∀ b ∈ s.mask, b = true) ∧
  (s.include_all_ = false → s.included_positions_.length = s.mask.count true)

/-! The remaining members of `Selector`: set operations, sparse products and
random positions. -/

namespace Selector

/-- The loop of `Selector::exclusive_or`: `ans[i] = (*this)[i] != that[i]` for
the given values of `i`, in order.  The assignment goes through `operator[]` of
the `std::vector<bool>` base, so it writes the mask only. -/
def exclusive_or_loop (s that : Selector) : List Nat → Selector → Except Fault Selector
  | [], ans => .ok ans
  | i :: rest, ans =>
    match s.mask[i]?, that.mask[i]? with
    | some a, some b =>
      if i < ans.mask.length then
        exclusive_or_loop s that rest { ans with mask := ans.mask.set i (a != b) }
      else .error .out_of_range
    | _, _ => .error .out_of_range

/-- The member `Selector::exclusive_or`. -/
def exclusive_or (s that : Selector) : Except Fault Selector :=
  let n := s.nvars_possible
  match s.check_size_eq that.nvars_possible "exclusive_or" with
  | .error e => .error e
  | .ok _ => exclusive_or_loop s that (List.range n) (Selector_size n false)

end Selector

/-- The loop of `do_sparse_dot_product`: `ans += sparse[i] * full[inc.indx(i)]`
for the given values of `i`, in order; both reads are unchecked. -/
def do_sparse_dot_product_loop {α : Type} [Add α] [Mul α] (inc : Selector)
    (full sparse : List α) : List Nat → α → Except Fault α
  | [], ans => .ok ans
  | i :: rest, ans =>
    match sparse[i]? with
    | none => .error .out_of_range
    | some a =>
      match inc.indx i with
      | .error e => .error e
      | .ok I =>
        match full[I]? with
        | none => .error .out_of_range
        | some b => do_sparse_dot_product_loop inc full sparse rest (ans + a * b)

/-- The function template `do_sparse_dot_product`, which implements the nine
overloads of `Selector::sparse_dot_product`. -/
def do_sparse_dot_product {α : Type} [Add α] [Mul α] [Zero α] (inc : Selector)
    (full sparse : List α) : Except Fault α :=
  let n := inc.nvars_possible
  if full.length ≠ n ∨ sparse.length > n then
    .error (.reported "Vector sizes incompatible in sparse dot product.")
  else
    do_sparse_dot_product_loop inc full sparse (List.range inc.nvars) 0

/-- The member `Selector::sparse_dot_product`. -/
def Selector.sparse_dot_product {α : Type} [Add α] [Mul α] [Zero α] (s : Selector)
    (full sparse : List α) : Except Fault α :=
  do_sparse_dot_product s full sparse

/-- Modelled from the spec: `random_int_mt(rng, lo, hi)` of `distributions.hpp`,
which is not among the sources, returns an integer between `lo` and `hi`
inclusive, each with the same probability.  The state of the generator enters
as the natural number `raw`, which is folded into that range, so that every
value of the range arises from some `raw`. -/
def random_int_mt (raw : Nat) (lo hi : Int) : Int :=
  lo + (raw : Int) % (hi - lo + 1)

namespace Selector

/-- The rejection loop of `Selector::random_excluded_position`, run on the
successive outcomes of the generator.  The result `none` says that the given
outcomes are used up and the loop has not returned. -/
def rejection_loop (s : Selector) (N : Int) : List Nat → Option (Except Fault Int)
  | [] => none
  | raw :: rest =>
    let j := random_int_mt raw 1 (N - 1)
    match s.inc j.toNat with
    | .error e => some (.error e)
    | .ok false => some (.ok j)
    | .ok true => rejection_loop s N rest

/-- The counting loop of `Selector::random_excluded_position` over the given
positions `i`: it returns the position at which the count of excluded
positions reaches `which_excluded_variable`; `none` says the positions are
used up. -/
def counting_loop (s : Selector) (which_excluded_variable : Int) :
    List Nat → Int → Option (Except Fault Int)
  | [], _ => none
  | i :: rest, number_excluded_so_far =>
    match s.inc i with
    | .error e => some (.error e)
    | .ok true => counting_loop s which_excluded_variable rest number_excluded_so_far
    | .ok false =>
      if number_excluded_so_far + 1 = which_excluded_variable then some (.ok (i : Int))
      else counting_loop s which_excluded_variable rest (number_excluded_so_far + 1)

/-- The member `Selector::random_excluded_position`, run on the successive
outcomes of the generator.  The test `number_excluded / N >= .5` on doubles is
exact for 32 bit operands and is written `N <= 2 * number_excluded`.  The
result `none` says that the outcomes given are used up before the function
returns. -/
def random_excluded_position (s : Selector) (raws : List Nat) : Option (Except Fault Int) :=
  let N : Int := s.nvars_possible
  let n : Int := s.nvars
  let number_excluded := N - n
  if number_excluded = 0 then some (.ok (-1))
  else if N ≤ 2 * number_excluded then rejection_loop s N raws
  else
    match raws with
    | [] => none
    | raw :: _ =>
      let which_excluded_variable := random_int_mt raw 1 number_excluded
      match counting_loop s which_excluded_variable (List.range s.nvars_possible) 0 with
      | none => some (.ok (-1))
      | some r => some r

end Selector

/-! `Matrix`, `SubMatrix` and `ConstSubMatrix`.  Addresses of storage cells are
offsets, counted in elements from `data()` of the matrix that owns the
storage.  Products of two `uint` values are reduced modulo 2^32. -/

/-- The class `Matrix` of `LinAlg/Matrix.hpp`: the storage vector `V` (column
major) and the two dimensions. -/
structure Matrix (α : Type) where
  V : List α
  nr_ : Nat
  nc_ : Nat
  deriving DecidableEq, Repr

namespace Matrix

/-- The member `Matrix::nrow`. -/
def nrow {α : Type} (m : Matrix α) : Nat := m.nr_

/-- The member `Matrix::ncol`. -/
def ncol {α : Type} (m : Matrix α) : Nat := m.nc_

/-- The inline member `Matrix::INDX` of `Matrix.hpp`, in `uint` arithmetic. -/
def INDX {α : Type} (m : Matrix α) (i j : Nat) : Nat :=
  (j * m.nr_ + i) % 4294967296

/-- The inline member `Matrix::inrange` of `Matrix.hpp`. -/
def inrange {α : Type} (m : Matrix α) (i j : Nat) : Bool :=
  decide (i < m.nr_) && decide (j < m.nc_)

end Matrix

/-- The data members of the class `SubMatrix`: `start_` is the offset of the
first cell of the window. -/
structure SubMatrix where
  start_ : Nat
  nr_ : Nat
  nc_ : Nat
  stride : Nat
  deriving DecidableEq, Repr

/-- The data members of the class `ConstSubMatrix`. -/
structure ConstSubMatrix where
  start_ : Nat
  nr_ : Nat
  nc_ : Nat
  stride : Nat
  deriving DecidableEq, Repr

/-- The constructor `SubMatrix::SubMatrix(Matrix &m, uint rlo, uint rhi, uint
clo, uint chi)`; its assertions are `rhi < m.nrow()` and `chi < m.ncol()`. -/
def SubMatrix_of_Matrix {α : Type} (m : Matrix α) (rlo rhi clo chi : Nat) : SubMatrix :=
  { start_ := rlo + (clo * m.nrow) % 4294967296,
    nr_ := (rhi + 4294967296 - rlo + 1) % 4294967296,
    nc_ := (chi + 4294967296 - clo + 1) % 4294967296,
    stride := m.nrow }

/-- The constructor `SubMatrix::SubMatrix(SubMatrix &m, uint rlo, uint rhi,
uint clo, uint chi)`. -/
def SubMatrix_of_SubMatrix (m : SubMatrix) (rlo rhi clo chi : Nat) : SubMatrix :=
  { start_ := m.start_ + rlo + (clo * m.stride) % 4294967296,
    nr_ := (rhi + 4294967296 - rlo + 1) % 4294967296,
    nc_ := (chi + 4294967296 - clo + 1) % 4294967296,
    stride := m.stride }

/-- The constructor `ConstSubMatrix::ConstSubMatrix(const Matrix &m, uint rlo,
uint rhi, uint clo, uint chi)`; its assertions are `rhi >= rlo`, `chi >= clo`,
`rhi < m.nrow()` and `chi < m.ncol()`. -/
def ConstSubMatrix_of_Matrix {α : Type} (m : Matrix α) (rlo rhi clo chi : Nat) :
    ConstSubMatrix :=
  { start_ := (clo * m.nrow) % 4294967296 + rlo,
    nr_ := (rhi + 4294967296 - rlo + 1) % 4294967296,
    nc_ := (chi + 4294967296 - clo + 1) % 4294967296,
    stride := m.nrow }

namespace SubMatrix

/-- The member `SubMatrix::nrow`. -/
def nrow (m : SubMatrix) : Nat := m.nr_

/-- The member `SubMatrix::ncol`. -/
def ncol (m : SubMatrix) : Nat := m.nc_

/-- Modelled from the spec: the private helper `cols(j)` of `SubMatrix.hpp`,
which is not among the sources, is the address of the first cell of column
`j` of the window; consecutive columns lie `stride` cells apart, where
`stride` is the row count of the parent. -/
def cols (m : SubMatrix) (j : Nat) : Nat := m.start_ + (j * m.stride) % 4294967296

/-- The member `SubMatrix::operator()(uint i, uint j)`: the address of the cell
`cols(j)[i]`, behind the assertion `i < nr_ && j < nc_`. -/
def cell (m : SubMatrix) (i j : Nat) : Except Fault Nat :=
  if i < m.nr_ ∧ j < m.nc_ then .ok (m.cols j + i) else .error .out_of_range

end SubMatrix

namespace ConstSubMatrix

/-- The member `ConstSubMatrix::nrow`. -/
def nrow (m : ConstSubMatrix) : Nat := m.nr_

/-- The member `ConstSubMatrix::ncol`. -/
def ncol (m : ConstSubMatrix) : Nat := m.nc_

/-- Modelled from the spec: the private helper `cols(j)` of `SubMatrix.hpp`,
which is not among the sources, is the address of the first cell of column
`j` of the window; consecutive columns lie `stride` cells apart. -/
def cols (m : ConstSubMatrix) (j : Nat) : Nat := m.start_ + (j * m.stride) % 4294967296

/-- The member `ConstSubMatrix::operator()(uint i, uint j)`: the address of the
cell `cols(j)[i]`, behind the assertion `i < nr_ && j < nc_`. -/
def cell (m : ConstSubMatrix) (i j : Nat) : Except Fault Nat :=
  if i < m.nr_ ∧ j < m.nc_ then .ok (m.cols j + i) else .error .out_of_range

end ConstSubMatrix

/-! The sampler `TIM` of `src/src/Samplers/TIM.cpp`.  Its collaborators that
are not among the sources (the optimiser `max_nd2_careful`, the target
`d2f_`, the base class `MetropolisHastings` and the proposal class) enter
through `TIMEnv`, and every call of a collaborator is recorded. -/

/-- Modelled from the spec: the class `MvtIndepProposal` of
`Samplers/MH_Proposals.hpp`, which is not among the sources, is a multivariate
t independence proposal with a location (`set_mu`), a precision (`set_ivar`)
and `nu` degrees of freedom. -/
structure MvtIndepProposal (α : Type) where
  mu : List α
  ivar : Matrix α
  nu : α
  deriving DecidableEq, Repr

/-- What a call of `max_nd2_careful(cand_, g_, H_, ...)` leaves behind: its
return value and the three output parameters. -/
structure SearchResult (α : Type) where
  ok : Bool
  cand : List α
  g : List α
  H : Matrix α
  deriving DecidableEq, Repr

/-- The collaborators of `TIM` that are not among the sources:
`max_nd2_careful` started at `cand_ = old` (with `g_` and `H_` as outputs),
the gradient and Hessian that `d2f_(old, g_, H_)` writes, and the step
`MetropolisHastings::draw(old)` made with the proposal installed by
`set_proposal`. -/
structure TIMEnv (α : Type) where
  max_nd2_careful : List α → SearchResult α
  d2f_ : List α → List α × Matrix α
  mh_draw : MvtIndepProposal α → List α → List α

/-- A recorded call of a collaborator. -/
inductive TIMCall (α : Type) where
  | max_nd2_careful (old : List α)
  | mh_draw (prop : MvtIndepProposal α) (old : List α)
  deriving DecidableEq, Repr

/-- The recorded call is a mode search. -/
def TIMCall.is_search {α : Type} : TIMCall α → Bool
  | .max_nd2_careful _ => true
  | .mh_draw _ _ => false

/-- The data members of the class `TIM`; `prop_` is a pointer, null until
`check_proposal` creates the proposal. -/
structure TIM (α : Type) where
  prop_ : Option (MvtIndepProposal α)
  nu_ : α
  cand_ : List α
  g_ : List α
  H_ : Matrix α
  mode_is_fixed_ : Bool
  mode_has_been_found_ : Bool
  deriving DecidableEq, Repr

/-- What a call of `TIM::draw` leaves behind: the sampler, the calls of
collaborators it made, and the vector it returns or the error it reports. -/
structure TIMStep (α : Type) where
  tim : TIM α
  calls : List (TIMCall α)
  result : Except Fault (List α)

/-- Modelled from the spec: `Matrix::operator*=(double)` of `Matrix.cpp`, which
is not among the sources, multiplies every element by the scalar. -/
def Matrix.scale {α : Type} [Mul α] (m : Matrix α) (x : α) : Matrix α :=
  { m with V := m.V.map (fun v => v * x) }

/-- Modelled from the spec: the identity matrix that `SpdMatrix Sigma(dim)`
followed by `Sigma.set_diag(1.0)` builds (`SpdMatrix.cpp` is not among the
sources). -/
def Matrix.identity {α : Type} [Zero α] [One α] (dim : Nat) : Matrix α :=
  { V := (List.range (dim * dim)).map (fun k => if k % dim = k / dim then 1 else 0),
    nr_ := dim, nc_ := dim }

/-- The constructor `TIM::TIM(logf, dlogf, d2logf, nu, rng)`. -/
def TIM_new {α : Type} [Zero α] (nu : α) : TIM α :=
  { prop_ := none, nu_ := nu, cand_ := [0], g_ := [0], H_ := ⟨[0], 1, 1⟩,
    mode_is_fixed_ := false, mode_has_been_found_ := false }

namespace TIM

/-- The member `TIM::create_proposal`: location zero and the identity as
variance, hence as precision. -/
def create_proposal {α : Type} [Zero α] [One α] (dim : Nat) (nu : α) : MvtIndepProposal α :=
  { mu := List.replicate dim 0, ivar := Matrix.identity dim, nu := nu }

/-- The member `TIM::check_proposal`. -/
def check_proposal {α : Type} [Zero α] [One α] (t : TIM α) (dim : Nat) : TIM α :=
  match t.prop_ with
  | some _ => t
  | none => { t with prop_ := some (create_proposal dim t.nu_) }

/-- The member `TIM::fix_mode`. -/
def fix_mode {α : Type} (t : TIM α) (yn : Bool) : TIM α :=
  { t with mode_is_fixed_ := yn }

/-- The member `TIM::locate_mode`: the sampler afterwards and the value
returned.  The assignments to `cand_`, `g_` and `H_` before the search are
overwritten by its outputs. -/
def locate_mode {α : Type} [Ring α] (env : TIMEnv α) (t : TIM α) (old : List α) :
    TIM α × Bool :=
  let r := env.max_nd2_careful old
  let t1 : TIM α := { t with cand_ := r.cand, g_ := r.g, H_ := r.H }
  if !r.ok then
    ({ t1 with mode_has_been_found_ := false }, false)
  else
    let t2 : TIM α := { t1 with H_ := t1.H_.scale (-1), mode_has_been_found_ := true }
    let t3 := t2.check_proposal old.length
    match t3.prop_ with
    | none => (t3, true)
    | some p => ({ t3 with prop_ := some { p with mu := t3.cand_, ivar := t3.H_ } }, true)

/-- The member `TIM::report_failure`: `d2f_(old, g_, H_)` overwrites the
gradient and the Hessian, then the error is reported. -/
def report_failure {α : Type} (env : TIMEnv α) (t : TIM α) (old : List α) : TIM α × Fault :=
  ({ t with g_ := (env.d2f_ old).1, H_ := (env.d2f_ old).2 },
    .reported "failed attempt to find mode in BOOM::TIM")

/-- The member `TIM::draw`. -/
def draw {α : Type} [Ring α] (env : TIMEnv α) (t : TIM α) (old : List α) : TIMStep α :=
  let t1 := t.check_proposal old.length
  if !t1.mode_has_been_found_ || !t1.mode_is_fixed_ then
    let located := t1.locate_mode env old
    if !located.2 then
      let failed := located.1.report_failure env old
      { tim := failed.1, calls := [.max_nd2_careful old], result := .error failed.2 }
    else
      match located.1.prop_ with
      | none =>
        { tim := located.1, calls := [.max_nd2_careful old], result := .error .out_of_range }
      | some p =>
        { tim := located.1, calls := [.max_nd2_careful old, .mh_draw p old],
          result := .ok (env.mh_draw p old) }
  else
    match t1.prop_ with
    | none => { tim := t1, calls := [], result := .error .out_of_range }
    | some p => { tim := t1, calls := [.mh_draw p old], result := .ok (env.mh_draw p old) }

/-- The member `TIM::set_mode`; it dereferences `prop_` unchecked. -/
def set_mode {α : Type} (t : TIM α) (mode_location : List α) (precision : Matrix α) :
    Except Fault (TIM α) :=
  match t.prop_ with
  | none => .error .out_of_range
  | some p =>
    .ok { t with prop_ := some { p with mu := mode_location, ivar := precision },
                 mode_has_been_found_ := true, mode_is_fixed_ := true }

end TIM

/-- A call of a public member of `TIM`. -/
inductive TIMEvent (α : Type) where
  | draw (old : List α)
  | fix_mode (yn : Bool)
  | set_mode (mode_location : List α) (precision : Matrix α)
  | locate_mode (old : List α)
  deriving DecidableEq, Repr

/-- The effect of one call on the sampler, and for a call of `draw` whether it
invoked the mode search.  An error reported by `draw` is caught by the caller,
who goes on using the sampler; a null dereference ends the run. -/
def TIM.step {α : Type} [Ring α] (env : TIMEnv α) (t : TIM α) :
    TIMEvent α → Except Fault (TIM α × Option Bool)
  | .draw old =>
    let s := t.draw env old
    match s.result with
    | .error .out_of_range => .error .out_of_range
    | _ => .ok (s.tim, some (s.calls.any TIMCall.is_search))
  | .fix_mode yn => .ok (t.fix_mode yn, none)
  | .set_mode mode_location precision =>
    match t.set_mode mode_location precision with
    | .error e => .error e
    | .ok t1 => .ok (t1, none)
  | .locate_mode old => .ok ((t.locate_mode env old).1, none)

/-- A sequence of calls made in order: the sampler afterwards and, for each
call of `draw` in order, whether it invoked the mode search. -/
def TIM.run {α : Type} [Ring α] (env : TIMEnv α) :
    TIM α → List (TIMEvent α) → Except Fault (TIM α × List Bool)
  | t, [] => .ok (t, [])
  | t, e :: rest =>
    match t.step env e with
    | .error f => .error f
    | .ok (t1, flag) =>
      match TIM.run env t1 rest with
      | .error f => .error f
      | .ok (t2, flags) => .ok (t2, flag.toList ++ flags)

/-- The call neither unpins the mode nor is a direct mode search that fails. -/
def TIMEvent.keeps_mode {α : Type} (env : TIMEnv α) : TIMEvent α → Bool
  | .fix_mode yn => yn
  | .locate_mode old => (env.max_nd2_careful old).ok
  | _ => true

/-- A test double for the collaborators of `TIM` over the integers: the mode
search started at `old` succeeds exactly when `old` is the vector (0), and then
reports the mode (7) with Hessian (-2); the step of the Metropolis-Hastings
base class returns the location of the proposal. -/
def TIM_test_env : TIMEnv Int :=
  { max_nd2_careful := fun old =>
      { ok := decide (old = [0]), cand := [7], g := [0], H := ⟨[-2], 1, 1⟩ },
    d2f_ := fun _ => ([1], ⟨[-2], 1, 1⟩),
    mh_draw := fun p _ => p.mu }

/-! Columns of a `Matrix`, `select_cols` and `sparse_multiply`. -/

/-- Modelled from the spec: `Matrix::col(j)` of `Matrix.cpp`, which is not among
the sources, is the view of column `j`: the `nrow()` cells that start at
`INDX(0, j)` in the column-major storage.  A column outside the matrix is an
access out of range. -/
def Matrix.col {α : Type} (m : Matrix α) (j : Nat) : Except Fault (List α) :=
  if j < m.nc_ then .ok ((m.V.drop (m.INDX 0 j)).take m.nr_) else .error .out_of_range

/-- Modelled from the spec: the copy `std::copy(col_begin(I), col_end(I),
ans.col_begin(i))` writes the cells of a column over column `i` of `ans`, that
is over the `nrow()` cells that start at `INDX(0, i)` (`col_begin` and
`col_end` of `Matrix.cpp` are not among the sources). -/
def Matrix.copy_to_col {α : Type} (ans : Matrix α) (i : Nat) (c : List α) :
    Except Fault (Matrix α) :=
  if i < ans.nc_ ∧ c.length = ans.nr_ then
    .ok { ans with V := ans.V.take (ans.INDX 0 i) ++ c ++ ans.V.drop (ans.INDX 0 i + ans.nr_) }
  else .error .out_of_range

/-- Modelled from the spec: `VectorView::axpy(y, a)` of `VectorView.cpp`, which
is not among the sources, computes `this += a*y` in one pass; operands of
different lengths are a contract violation, reported as an error. -/
def VectorView_axpy {α : Type} [Add α] [Mul α] (x y : List α) (a : α) :
    Except Fault (List α) :=
  if x.length ≠ y.length then .error (.reported "DimensionMismatch")
  else .ok (List.zipWith (fun xi yi => xi + a * yi) x y)

namespace Selector

/-- The loop of `Selector::select_cols`: column `indx(i)` of `m` is copied to
column `i` of `ans`, for the given values of `i` in order. -/
def select_cols_loop {α : Type} (s : Selector) (m : Matrix α) :
    List Nat → Matrix α → Except Fault (Matrix α)
  | [], ans => .ok ans
  | i :: rest, ans =>
    match s.indx i with
    | .error e => .error e
    | .ok I =>
      match m.col I with
      | .error e => .error e
      | .ok c =>
        match ans.copy_to_col i c with
        | .error e => .error e
        | .ok ans1 => select_cols_loop s m rest ans1

/-- The member `Selector::select_cols`. -/
def select_cols {α : Type} [Zero α] (s : Selector) (m : Matrix α) : Except Fault (Matrix α) :=
  if s.include_all_ then .ok m
  else
    select_cols_loop s m (List.range s.nvars)
      { V := List.replicate (m.nrow * s.nvars) 0, nr_ := m.nrow, nc_ := s.nvars }

/-- The loop of `Selector::sparse_multiply`:
`ans.axpy(m.col(m_already_sparse ? i : I), v[v_already_sparse ? i : I])` with
`I = included_positions_[i]`, for the given values of `i` in order. -/
def sparse_multiply_loop {α : Type} [Add α] [Mul α] (s : Selector) (m : Matrix α) (v : List α)
    (m_already_sparse v_already_sparse : Bool) : List Nat → List α → Except Fault (List α)
  | [], ans => .ok ans
  | i :: rest, ans =>
    match s.included_positions_[i]? with
    | none => .error .out_of_range
    | some I =>
      match m.col (if m_already_sparse then i else I) with
      | .error e => .error e
      | .ok c =>
        match v[if v_already_sparse then i else I]? with
        | none => .error .out_of_range
        | some a =>
          match VectorView_axpy ans c a with
          | .error e => .error e
          | .ok ans1 =>
            sparse_multiply_loop s m v m_already_sparse v_already_sparse rest ans1

/-- The member `Selector::sparse_multiply(const Matrix &, const Vector &)`,
which runs the overload that writes into a view of a zero vector of length
`m.nrow()`. -/
def sparse_multiply {α : Type} [Add α] [Mul α] [Zero α] (s : Selector) (m : Matrix α)
    (v : List α) : Except Fault (List α) :=
  let m_already_sparse := decide (m.ncol = s.nvars)
  match (if m_already_sparse then .ok () else s.check_size_eq m.ncol "sparse_multiply") with
  | .error e => .error e
  | .ok _ =>
    let v_already_sparse := decide (v.length = s.nvars)
    match (if v_already_sparse then .ok () else s.check_size_eq v.length "sparse_multiply") with
    | .error e => .error e
    | .ok _ =>
      sparse_multiply_loop s m v m_already_sparse v_already_sparse
        (List.range s.included_positions_.length) (List.replicate m.nrow 0)

/-- The product that the spec ascribes to `sparse_multiply`: entry `r` is the
sum over the included positions `I` of `v[I]` times the entry of row `r` in
column `I` of `m`. -/
def sparse_multiply_spec {α : Type} [Add α] [Mul α] [Zero α] (s : Selector) (m : Matrix α)
    (v : List α) : List α :=
  (List.range m.nr_).map (fun r =>
    (((List.range s.nvars_possible).filter (fun I => s.mask.getD I false)).map
      (fun I => v.getD I 0 * m.V.getD (I * m.nr_ + r) 0)).sum)

end Selector

/-- A matrix whose storage has `nrow() * ncol()` cells, a count that fits the
`uint` type that `Matrix::size` returns. -/
def Matrix.WellFormed {α : Type} (m : Matrix α) : Prop :=
  m.V.length = m.nr_ * m.nc_ ∧ m.nr_ * m.nc_ < 4294967296

instance {α : Type} (m : Matrix α) : Decidable m.WellFormed := by
  unfold Matrix.WellFormed; infer_instance

/-! `SpdMatrix` and `WeightedRegSuf`.  An iterator into a `Vector` is the list
of the elements from its position to the end of the vector. -/

/-- The class `SpdMatrix` of `LinAlg/SpdMatrix.hpp`: a `Matrix` with square
storage, in which the cells of both triangles are stored. -/
abbrev SpdMatrix (α : Type) : Type := Matrix α

/-- Modelled from the spec: `SpdMatrix::reflect()`, declared in `SpdMatrix.hpp`
with the comment "copies upper triangle into lower triangle" (`SpdMatrix.cpp`
is not among the sources).  Cell `k` of the storage is row `k % nrow()` of
column `k / nrow()`; a cell below the diagonal takes the value of its mirror
image, every other cell is kept. -/
def SpdMatrix.reflect {α : Type} (m : SpdMatrix α) : SpdMatrix α :=
  { m with
    V := List.zipWith
            (fun k a =>
              if k / m.nr_ < k % m.nr_ then (m.V[(k % m.nr_) * m.nr_ + k / m.nr_]?).getD a
              else a)
            (List.range m.V.length) m.V }

/-- Modelled from the spec: `SpdMatrix::vectorize(minimal)`, declared in
`SpdMatrix.hpp` (`SpdMatrix.cpp` is not among the sources).  The columns are
written one after the other; the minimal (non-redundant) form of column `i` is
its cells in rows `0` to `i`, the upper triangle, and the other form is the
whole column. -/
def SpdMatrix.vectorize {α : Type} (m : SpdMatrix α) (minimal : Bool) : List α :=
  (List.range m.ncol).flatMap
    (fun i => (m.V.drop (i * m.nr_)).take (if minimal then i + 1 else m.ncol))

/-- The loop of `SpdMatrix::unvectorize`: column `i` takes its cells from the
iterator `b`, which moves past them.  A read past the end of the vector or a
write past the end of the storage is undefined behaviour. -/
def SpdMatrix.unvectorize_loop {α : Type} (minimal : Bool) :
    List Nat → SpdMatrix α → List α → Except Fault (SpdMatrix α × List α)
  | [], m, b => .ok (m, b)
  | i :: rest, m, b =>
    if b.length < (if minimal then i + 1 else m.ncol)
        ∨ m.V.length < i * m.nr_ + (if minimal then i + 1 else m.ncol) then
      .error .out_of_range
    else
      SpdMatrix.unvectorize_loop minimal rest
        { m with V := m.V.take (i * m.nr_) ++ b.take (if minimal then i + 1 else m.ncol)
                        ++ m.V.drop (i * m.nr_ + (if minimal then i + 1 else m.ncol)) }
        (b.drop (if minimal then i + 1 else m.ncol))

/-- Modelled from the spec: `SpdMatrix::unvectorize(Vector::const_iterator &b,
bool minimal)`, declared in `SpdMatrix.hpp` (`SpdMatrix.cpp` is not among the
sources), the inverse of `vectorize`: it reads the columns in the layout that
`vectorize(minimal)` writes, copies the upper triangle into the lower one and
returns the iterator past the last element read. -/
def SpdMatrix.unvectorize {α : Type} (m : SpdMatrix α) (b : List α) (minimal : Bool) :
    Except Fault (SpdMatrix α × List α) :=
  match SpdMatrix.unvectorize_loop minimal (List.range m.ncol) m b with
  | .ok (m1, b1) => .ok (SpdMatrix.reflect m1, b1)
  | .error e => .error e

/-- The data members of the class `WeightedRegSuf` that
`WeightedRegressionModel.cpp` reads and writes. -/
structure WeightedRegSuf (α : Type) where
  xtwx_ : SpdMatrix α
  xtwy_ : List α
  n_ : α
  yt_w_y_ : α
  sumlogw_ : α
  sym_ : Bool
  deriving DecidableEq, Repr

namespace WeightedRegSuf

/-- The member `WeightedRegSuf::vectorize(bool minimal)`. -/
def vectorize {α : Type} (x : WeightedRegSuf α) (minimal : Bool) : List α :=
  SpdMatrix.vectorize x.xtwx_ minimal ++ x.xtwy_ ++ [x.n_] ++ [x.yt_w_y_] ++ [x.sumlogw_]

/-- The member `WeightedRegSuf::unvectorize(Vector::const_iterator &v, bool)`.
The `bool` has no name and is not passed on, so that `xtwx_.unvectorize(v)`
runs with the default `minimal = true` of `SpdMatrix.hpp`.  The result is the
new state and the returned iterator. -/
def unvectorize_iterator {α : Type} (z : WeightedRegSuf α) (v : List α) (_minimal : Bool) :
    Except Fault (WeightedRegSuf α × List α) :=
  match SpdMatrix.unvectorize z.xtwx_ v true with
  | .error e => .error e
  | .ok (xtwx, v1) =>
    let dim := z.xtwy_.length % 4294967296
    if v1.length < dim then .error .out_of_range
    else
      match v1.drop dim with
      | n :: yty :: slw :: v2 =>
        .ok ({ xtwx_ := xtwx, xtwy_ := v1.take dim, n_ := n, yt_w_y_ := yty, sumlogw_ := slw,
               sym_ := z.sym_ }, v2)
      | _ => .error .out_of_range

/-- The member `WeightedRegSuf::unvectorize(const Vector &v, bool minimal)`. -/
def unvectorize {α : Type} (z : WeightedRegSuf α) (v : List α) (minimal : Bool) :
    Except Fault (WeightedRegSuf α × List α) :=
  z.unvectorize_iterator v minimal

/-- The member `WeightedRegSuf::make_symmetric`, which writes the `mutable`
members `xtwx_` and `sym_`. -/
def make_symmetric {α : Type} (x : WeightedRegSuf α) : WeightedRegSuf α :=
  { x with xtwx_ := SpdMatrix.reflect x.xtwx_, sym_ := true }

/-- The member `WeightedRegSuf::xtx()`: the matrix returned and the state
after the call. -/
def xtx {α : Type} (x : WeightedRegSuf α) : SpdMatrix α × WeightedRegSuf α :=
  if !x.sym_ then (x.make_symmetric.xtwx_, x.make_symmetric) else (x.xtwx_, x)

/-- The member `WeightedRegSuf::xty()`. -/
def xty {α : Type} (x : WeightedRegSuf α) : List α := x.xtwy_

/-- The member `WeightedRegSuf::n`. -/
def n {α : Type} (x : WeightedRegSuf α) : α := x.n_

/-- The member `WeightedRegSuf::yty`. -/
def yty {α : Type} (x : WeightedRegSuf α) : α := x.yt_w_y_

/-- The member `WeightedRegSuf::sumlogw`. -/
def sumlogw {α : Type} (x : WeightedRegSuf α) : α := x.sumlogw_

/-- The member `WeightedRegSuf::size`. -/
def size {α : Type} (x : WeightedRegSuf α) : Nat := x.xtwx_.nrow

/-- A `WeightedRegSuf` of dimension `p`, as the constructors and `setup_mat`
make it: `xtwx_` is a `p` by `p` matrix whose storage fits the `uint` type and
`xtwy_` has `p` elements. -/
def HasDim {α : Type} (x : WeightedRegSuf α) (p : Nat) : Prop :=
  x.xtwx_.nr_ = p ∧ x.xtwx_.nc_ = p ∧ x.xtwx_.WellFormed ∧ x.xtwy_.length = p

instance {α : Type} (x : WeightedRegSuf α) (p : Nat) : Decidable (x.HasDim p) := by
  unfold HasDim; infer_instance

/-- The meaning of the flag `sym_`: when it is set the lower triangle of
`xtwx_` is up to date.  The constructors, `setup_mat`, `clear` and `add_data`
clear the flag, and `make_symmetric` sets it after `reflect()`. -/
def SymSound {α : Type} (x : WeightedRegSuf α) : Prop :=
  x.sym_ = true → (SpdMatrix.reflect x.xtwx_).V = x.xtwx_.V

instance {α : Type} [DecidableEq α] (x : WeightedRegSuf α) : Decidable x.SymSound := by
  unfold SymSound; infer_instance

end WeightedRegSuf

/-! `Selector::intersection` and `Selector::operator*=`.  Each of the two calls
the other, so the embedding counts the calls that may still be entered:
`fuel` is the depth of the call stack that is left, and `none` says that it is
used up before any call has returned. -/

mutual
/-- The member `Selector::intersection`: `Selector ans(*this); ans *= rhs;
return ans;`. -/
def Selector.intersection (fuel : Nat) (s rhs : Selector) : Option Selector :=
  match fuel with
  | 0 => none
  | fuel + 1 => Selector.operator_mul_assign fuel s rhs
/-- The member `Selector::operator*=`: `Selector tmp = intersection(rhs);
this->swap(tmp); return *this;`. -/
def Selector.operator_mul_assign (fuel : Nat) (s rhs : Selector) : Option Selector :=
  match fuel with
  | 0 => none
  | fuel + 1 => Selector.intersection fuel s rhs
end

/-! `VectorView` and `ConstVectorView` of `LinAlg/VectorView.hpp`, and the
members of `SubMatrix` that return them.  A pointer to a storage cell is the
offset of the cell, as for `SubMatrix`. -/

/-- The conversion of an `int` to `uint`. -/
def uint_of_int (z : Int) : Nat := (z % 4294967296).toNat

/-- The conversion of a `uint` to `int`. -/
def int_of_uint (u : Nat) : Int :=
  if u % 4294967296 < 2147483648 then ((u % 4294967296 : Nat) : Int)
  else ((u % 4294967296 : Nat) : Int) - 4294967296

/-- The data members of the class `VectorView`, set by the constructor
`VectorView(double *first_elem, uint Nelem, int Stride)`. -/
structure VectorView where
  V : Int
  nelem_ : Nat
  stride_ : Int
  deriving DecidableEq, Repr

/-- The data members of the class `ConstVectorView`, set by the constructor
`ConstVectorView(const double *first_elem, uint Nelem, int Stride)`. -/
structure ConstVectorView where
  V : Int
  nelem_ : Nat
  stride_ : Int
  deriving DecidableEq, Repr

namespace VectorView

/-- The inline member `VectorView::data`. -/
def data (v : VectorView) : Int := v.V

/-- The inline member `VectorView::stride`. -/
def stride (v : VectorView) : Int := v.stride_

/-- The inline member `VectorView::size`. -/
def size (v : VectorView) : Nat := v.nelem_

/-- The inline member `VectorView::operator[](int n)`: the address
`V + n*stride_` of element `n`, behind the assertion `n >= 0 && n < nelem_`. -/
def elem (v : VectorView) (n : Int) : Except Fault Int :=
  if 0 ≤ n ∧ n < (v.nelem_ : Int) then .ok (v.V + n * v.stride_) else .error .out_of_range

end VectorView

namespace ConstVectorView

/-- The inline member `ConstVectorView::data`. -/
def data (v : ConstVectorView) : Int := v.V

/-- The inline member `ConstVectorView::stride`. -/
def stride (v : ConstVectorView) : Int := v.stride_

/-- The inline member `ConstVectorView::size`. -/
def size (v : ConstVectorView) : Nat := v.nelem_

/-- The inline member `ConstVectorView::operator[](int n)`: the address
`V + n*stride_` of element `n`, behind the assertion `n >= 0 && n < nelem_`. -/
def elem (v : ConstVectorView) (n : Int) : Except Fault Int :=
  if 0 ≤ n ∧ n < (v.nelem_ : Int) then .ok (v.V + n * v.stride_) else .error .out_of_range

end ConstVectorView

/-- The template `VectorView subvector(VEC &v, uint start)` of
`VectorView.hpp`, at a `VectorView`; its assertion is `start < v.size()`. -/
def subvector (v : VectorView) (start : Nat) : Except Fault VectorView :=
  if start < v.size then
    .ok ⟨v.data + start, (v.size + 4294967296 - start) % 4294967296, v.stride⟩
  else .error .out_of_range

/-- The template `VectorView subvector(VEC &v, uint start, uint stop)`; its
assertion is `start <= stop && start < v.size()`. -/
def subvector_stop (v : VectorView) (start stop : Nat) : Except Fault VectorView :=
  if start ≤ stop ∧ start < v.size then
    .ok ⟨v.data + start, (1 + stop + 4294967296 - start) % 4294967296, v.stride⟩
  else .error .out_of_range

/-- The template `ConstVectorView subvector(const VEC &v, uint start)`, at a
`ConstVectorView`; it has no assertion. -/
def const_subvector (v : ConstVectorView) (start : Nat) : ConstVectorView :=
  ⟨v.data + start, (v.size + 4294967296 - start) % 4294967296, v.stride⟩

/-- The template `ConstVectorView subvector(const VEC &v, uint start, uint
stop)`; its assertion is `start <= stop && start < v.size()`. -/
def const_subvector_stop (v : ConstVectorView) (start stop : Nat) :
    Except Fault ConstVectorView :=
  if start ≤ stop ∧ start < v.size then
    .ok ⟨v.data + start, (1 + stop + 4294967296 - start) % 4294967296, v.stride⟩
  else .error .out_of_range

/-- The member `SubMatrix::row(uint i)`. -/
def SubMatrix.row (m : SubMatrix) (i : Nat) : VectorView :=
  ⟨m.cols 0 + i, m.nc_, int_of_uint m.stride⟩

/-- The member `ConstSubMatrix::row(uint i)`. -/
def ConstSubMatrix.row (m : ConstSubMatrix) (i : Nat) : ConstVectorView :=
  ⟨m.cols 0 + i, m.nc_, int_of_uint m.stride⟩

mutual
/-- The member `SubMatrix::subdiag(int i)`. -/
def SubMatrix.subdiag (m : SubMatrix) (i : Int) : VectorView :=
  if i < 0 then SubMatrix.superdiag m (-i)
  else
    ⟨m.cols 0 + i, uint_of_int (int_of_uint (min m.nr_ m.nc_) - i), int_of_uint (m.stride + 1)⟩
termination_by if i < 0 then 1 else 0
decreasing_by
  simp_wf
  split <;> omega
/-- The member `SubMatrix::superdiag(int i)`; for a negative `i` it returns
`subdiag(-1)`. -/
def SubMatrix.superdiag (m : SubMatrix) (i : Int) : VectorView :=
  if i < 0 then SubMatrix.subdiag m (-1)
  else
    ⟨m.cols (uint_of_int i), uint_of_int (int_of_uint (min m.nr_ m.nc_) - i),
      int_of_uint (m.stride + 1)⟩
termination_by if i < 0 then 2 else 0
decreasing_by
  simp_wf
  split <;> omega
end

mutual
/-- The member `ConstSubMatrix::subdiag(int i)`. -/
def ConstSubMatrix.subdiag (m : ConstSubMatrix) (i : Int) : ConstVectorView :=
  if i < 0 then ConstSubMatrix.superdiag m (-i)
  else
    ⟨m.cols 0 + i, uint_of_int (int_of_uint (min m.nr_ m.nc_) - i), int_of_uint (m.stride + 1)⟩
termination_by if i < 0 then 1 else 0
decreasing_by
  simp_wf
  split <;> omega
/-- The member `ConstSubMatrix::superdiag(int i)`; for a negative `i` it
returns `subdiag(-1)`. -/
def ConstSubMatrix.superdiag (m : ConstSubMatrix) (i : Int) : ConstVectorView :=
  if i < 0 then ConstSubMatrix.subdiag m (-1)
  else
    ⟨m.cols (uint_of_int i), uint_of_int (int_of_uint (min m.nr_ m.nc_) - i),
      int_of_uint (m.stride + 1)⟩
termination_by if i < 0 then 2 else 0
decreasing_by
  simp_wf
  split <;> omega
end

/-! The functions `digamma`, `trigamma`, `tetragamma` and `pentagamma` of
`src/src/Bmath/polygamma.cpp`, with the global `errno` as explicit state. -/

/-- A value of the type `double`: a NaN, an infinity, or the finite value
`(-1)^neg * m * 2^e`. -/
inductive Double where
  | nan
  | inf (neg : Bool)
  | finite (neg : Bool) (m : Nat) (e : Int)
  deriving DecidableEq, Repr

namespace Double

/-- The macro `ISNAN` of `nmath.hpp`. -/
def ISNAN : Double → Bool
  | nan => true
  | _ => false

/-- The comparison `x <= 0.0`, which is false for a NaN and true for both
zeros. -/
def le_zero : Double → Bool
  | nan => false
  | inf neg => neg
  | finite neg m _ => neg || m == 0

/-- The unary minus of `double`. -/
def neg : Double → Double
  | nan => nan
  | inf neg => inf (!neg)
  | finite neg m e => finite (!neg) m e

/-- The value of `numeric_limits<double>::max()`, which is
`(2^53 - 1) * 2^971`. -/
def numeric_limits_max : Double := finite false 9007199254740991 971

end Double

/-- The value of the macro `EDOM` of `<cerrno>`. -/
def EDOM : Int := 33

/-- The output parameters of `dpsifn` after a call. -/
structure dpsifn_out where
  ans : Double
  nz : Int
  ierr : Int
  deriving DecidableEq, Repr

/-- What the functions of `polygamma.cpp` take from outside: `body` is the
computation of `dpsifn` past its guard (the asymptotic expansion and the
recursions, in floating point), `mul` is the product of two `double` values,
and `ans0`, `nz0` are the indeterminate values of the uninitialised locals
`ans` and `nz` of the callers. -/
structure PolygammaEnv where
  body : Double → Int → Int → Int → dpsifn_out
  mul : Double → Double → Double
  ans0 : Double
  nz0 : Int

/-- The function `dpsifn`: `*ierr = 0`, then the guard, which sets `*ierr = 1`
and returns without writing `ans` or `nz`. -/
def dpsifn (env : PolygammaEnv) (x : Double) (n kode m : Int) : dpsifn_out :=
  if x.le_zero || decide (n < 0) || decide (kode < 1) || decide (kode > 2) || decide (m < 1) then
    { ans := env.ans0, nz := env.nz0, ierr := 1 }
  else env.body x n kode m

/-- The function `digamma`: the value returned and `errno` afterwards. -/
def digamma (env : PolygammaEnv) (x : Double) (errno : Int) : Double × Int :=
  if x.ISNAN then (x, errno)
  else if (dpsifn env x 0 1 1).ierr ≠ 0 then (Double.numeric_limits_max.neg, EDOM)
  else ((dpsifn env x 0 1 1).ans.neg, errno)

/-- The function `trigamma`. -/
def trigamma (env : PolygammaEnv) (x : Double) (errno : Int) : Double × Int :=
  if x.ISNAN then (x, errno)
  else if (dpsifn env x 1 1 1).ierr ≠ 0 then (Double.numeric_limits_max.neg, EDOM)
  else ((dpsifn env x 1 1 1).ans, errno)

/-- The function `tetragamma`, which returns `-2.0 * ans`. -/
def tetragamma (env : PolygammaEnv) (x : Double) (errno : Int) : Double × Int :=
  if x.ISNAN then (x, errno)
  else if (dpsifn env x 2 1 1).ierr ≠ 0 then (Double.numeric_limits_max.neg, EDOM)
  else (env.mul (Double.finite true 1 1) (dpsifn env x 2 1 1).ans, errno)

/-- The function `pentagamma`, which returns `6.0 * ans`. -/
def pentagamma (env : PolygammaEnv) (x : Double) (errno : Int) : Double × Int :=
  if x.ISNAN then (x, errno)
  else if (dpsifn env x 3 1 1).ierr ≠ 0 then (Double.numeric_limits_max.neg, EDOM)
  else (env.mul (Double.finite false 3 1) (dpsifn env x 3 1 1).ans, errno)

/-- A stand-in for what `PolygammaEnv` takes from outside: the computation
past the guard reports a normal return with the answer 1, and the product
returns its second factor.  The guard keeps every `x <= 0` away from it. -/
def polygamma_test_env : PolygammaEnv :=
  { body := fun _ _ _ _ => { ans := Double.finite false 1 0, nz := 0, ierr := 0 },
    mul := fun _ b => b,
    ans0 := Double.nan,
    nz0 := 0 }

/-! `PoissonPrior` of `src/src/prior_specification.cpp`.  The arithmetic of
`double` and the functions of Bmath that it calls enter through `PoissonEnv`. -/

/-- The data members of the class `PoissonPrior` of
`r_interface/prior_specification.hpp`. -/
structure PoissonPrior (D : Type) where
  lambda_ : D
  lo_ : D
  hi_ : D
  log_normalizing_constant_ : D
  deriving DecidableEq, Repr

/-- What `PoissonPrior` takes from outside, over a type `D` of numbers: the
constants 0 and 1, the comparisons `<=` and `<`, the difference, `log`, and
the functions `ppois(x, lambda)` and `dpois(x, lambda, give_log)` of Bmath,
which are not among the sources; `dpois` is taken at an argument `x` that is
converted from an `int`, as in `logp`. -/
structure PoissonEnv (D : Type) where
  zero : D
  one : D
  le : D → D → Bool
  lt : D → D → Bool
  sub : D → D → D
  log : D → D
  ppois : D → D → D
  dpois : Int → D → Bool → D

/-- The constructor `PoissonPrior::PoissonPrior(SEXP prior)`, given the
elements `mean`, `lower.limit` and `upper.limit` of the list as numbers. -/
def PoissonPrior_new {D : Type} (env : PoissonEnv D) (mean lower_limit upper_limit : D) :
    Except Fault (PoissonPrior D) :=
  if env.le mean env.zero then .error (.reported "lambda must be positive in PoissonPrior")
  else if env.lt upper_limit lower_limit then
    .error (.reported "upper.limit < lower.limit in PoissonPrior.")
  else
    .ok { lambda_ := mean, lo_ := lower_limit, hi_ := upper_limit,
          log_normalizing_constant_ :=
            env.log (env.sub (env.ppois upper_limit mean)
              (env.ppois (env.sub lower_limit env.one) mean)) }

/-- The member `PoissonPrior::logp(int value)`. -/
def PoissonPrior.logp {D : Type} (env : PoissonEnv D) (p : PoissonPrior D) (value : Int) : D :=
  env.sub (env.dpois value p.lambda_ true) p.log_normalizing_constant_

/-- The member `DiscreteUniformPrior::logp(int value)` of the same file, given
the members `lo_`, `hi_` and `log_normalizing_constant_`; `negative_infinity`
is the value it returns outside the limits. -/
def DiscreteUniformPrior_logp {D : Type} (negative_infinity : D) (lo_ hi_ : Int)
    (log_normalizing_constant_ : D) (value : Int) : D :=
  if value < lo_ ∨ value > hi_ then negative_infinity else log_normalizing_constant_

/-- Numbers in exact arithmetic: `scaled q r` is `q * exp(r)` (a rational `q`
itself when `r = 0`), `logof q r` is `ln(q) + r` for `q > 0`, `neg_inf` is minus
infinity, and `other` is a value outside these forms. -/
inductive Exact where
  | scaled (q r : ℚ)
  | logof (q r : ℚ)
  | neg_inf
  | other
  deriving DecidableEq, Repr

namespace Exact

/-- The comparison `a <= b` of two rationals. -/
def le : Exact → Exact → Bool
  | scaled q1 r1, scaled q2 r2 => decide (r1 = 0 ∧ r2 = 0 ∧ q1 ≤ q2)
  | _, _ => false

/-- The comparison `a < b` of two rationals. -/
def lt : Exact → Exact → Bool
  | scaled q1 r1, scaled q2 r2 => decide (r1 = 0 ∧ r2 = 0 ∧ q1 < q2)
  | _, _ => false

/-- The difference: of two multiples of the same `exp(r)`, and of two
logarithms; minus infinity less a logarithm is minus infinity. -/
def sub : Exact → Exact → Exact
  | scaled q1 r1, scaled q2 r2 =>
    if r1 = r2 then scaled (q1 - q2) r1
    else if q2 = 0 then scaled q1 r1
    else if q1 = 0 then scaled (-q2) r2
    else other
  | logof q1 r1, logof q2 r2 => logof (q1 / q2) (r1 - r2)
  | neg_inf, logof _ _ => neg_inf
  | _, _ => other

/-- The natural logarithm: `ln(q * exp(r)) = ln(q) + r`, and `ln(0)` is minus
infinity. -/
def log : Exact → Exact
  | scaled q r => if 0 < q then logof q r else if q = 0 then neg_inf else other
  | _ => other

/-- The sum of `lambda^k / k!` over `k = 0, ..., n`. -/
def poisson_sum (lambda : ℚ) : Nat → ℚ
  | 0 => 1
  | n + 1 => poisson_sum lambda n + lambda ^ (n + 1) / (Nat.factorial (n + 1) : ℚ)

/-- Modelled from the spec: `ppois(x, lambda)` of Bmath, which is not among the
sources, is the distribution function of the Poisson distribution with mean
`lambda`: zero for `x < 0`, else `exp(-lambda)` times the sum of `lambda^k / k!`
over `k <= x`. -/
def ppois : Exact → Exact → Exact
  | scaled x rx, scaled lambda rl =>
    if rx ≠ 0 ∨ rl ≠ 0 ∨ lambda ≤ 0 then other
    else if x < 0 then scaled 0 (-lambda)
    else scaled (poisson_sum lambda (Int.toNat (Int.floor x))) (-lambda)
  | _, _ => other

/-- Modelled from the spec: `dpois(x, lambda, give_log)` of Bmath, which is not
among the sources, is the density of the Poisson distribution with mean
`lambda`, here at an integer `x`: `exp(-lambda) * lambda^x / x!` for `x >= 0`
and zero for `x < 0`, or its logarithm when `give_log` is set. -/
def dpois : Int → Exact → Bool → Exact
  | x, scaled lambda rl, give_log =>
    if rl ≠ 0 ∨ lambda ≤ 0 then other
    else if x < 0 then (if give_log then neg_inf else scaled 0 (-lambda))
    else if give_log then logof (lambda ^ x.toNat / (Nat.factorial x.toNat : ℚ)) (-lambda)
    else scaled (lambda ^ x.toNat / (Nat.factorial x.toNat : ℚ)) (-lambda)
  | _, _, _ => other

end Exact

/-- The arithmetic and the Poisson functions in exact arithmetic. -/
def exact_env : PoissonEnv Exact :=
  { zero := Exact.scaled 0 0,
    one := Exact.scaled 1 0,
    le := Exact.le,
    lt := Exact.lt,
    sub := Exact.sub,
    log := Exact.log,
    ppois := Exact.ppois,
    dpois := Exact.dpois }

/-! The constructors of `WeightedRegSuf` from a design matrix, with `setup_mat`,
`reweight`, `clear` and `add_data`. -/

/-- Modelled from the spec: `add_intercept(X)`, which is not among the sources,
returns `X` with a column of ones put in front of its columns: as many rows as
`X` and one column more. -/
def add_intercept {α : Type} [One α] (X : Matrix α) : Matrix α :=
  { V := List.replicate X.nr_ 1 ++ X.V, nr_ := X.nr_, nc_ := X.nc_ + 1 }

/-- Modelled from the spec: `Matrix::row(i)` of `Matrix.cpp`, which is not among
the sources, is the view of row `i`: the cells `INDX(i, j)` for the columns
`j` in order.  A row outside the matrix is an access out of range. -/
def Matrix.row {α : Type} (m : Matrix α) (i : Nat) : Except Fault (List α) :=
  if i < m.nr_ then
    match (List.range m.nc_).mapM (fun j => m.V[m.INDX i j]?) with
    | some r => .ok r
    | none => .error .out_of_range
  else .error .out_of_range

/-- Modelled from the spec: `SpdMatrix::add_outer(x, w, force_sym)` of
`SpdMatrix.cpp`, which is not among the sources, is the rank one update
`this += w*x*x^T`, made on the upper triangle, with the pass that copies it into
the lower triangle only when `force_sym` is set; an `x` whose length is not the
dimension of the matrix is a contract violation, reported as an error. -/
def SpdMatrix.add_outer {α : Type} [Add α] [Mul α] (m : SpdMatrix α) (x : List α) (w : α)
    (force_sym : Bool) : Except Fault (SpdMatrix α) :=
  if x.length ≠ m.nrow then .error (.reported "DimensionMismatch")
  else
    let upper : SpdMatrix α :=
      { m with
        V := List.zipWith
                (fun k a =>
                  match x[k % m.nr_]?, x[k / m.nr_]? with
                  | some xi, some xj => if k % m.nr_ ≤ k / m.nr_ then a + w * xi * xj else a
                  | _, _ => a)
                (List.range m.V.length) m.V }
    .ok (if force_sym then SpdMatrix.reflect upper else upper)

namespace WeightedRegSuf

/-- The member `WeightedRegSuf::setup_mat(uint p)`: `SpdMatrix(p, 0.0)` is the
`p` by `p` matrix of zeros and `Vector(p, 0.0)` the vector of `p` zeros. -/
def setup_mat {α : Type} [Zero α] (s : WeightedRegSuf α) (p : Nat) : WeightedRegSuf α :=
  { s with
    xtwx_ := { V := List.replicate (p * p) 0, nr_ := p, nc_ := p },
    xtwy_ := List.replicate p 0,
    sym_ := false }

/-- The member `WeightedRegSuf::clear`: the assignment of `0.0` to a matrix or
a vector sets every element and keeps the size. -/
def clear {α : Type} [Zero α] (s : WeightedRegSuf α) : WeightedRegSuf α :=
  { xtwx_ := { s.xtwx_ with V := s.xtwx_.V.map (fun _ => 0) },
    xtwy_ := s.xtwy_.map (fun _ => 0),
    n_ := 0, yt_w_y_ := 0, sumlogw_ := 0, sym_ := false }

/-- The member `WeightedRegSuf::add_data(x, y, w)`; `log` is the logarithm of
`<cmath>`, and `xtwy_.axpy(x, w*y)` follows the contract of `axpy`. -/
def add_data {α : Type} [Ring α] (log : α → α) (s : WeightedRegSuf α) (x : List α) (y w : α) :
    Except Fault (WeightedRegSuf α) :=
  match SpdMatrix.add_outer s.xtwx_ x w false with
  | .error e => .error e
  | .ok xtwx =>
    match VectorView_axpy s.xtwy_ x (w * y) with
    | .error e => .error e
    | .ok xtwy =>
      .ok { xtwx_ := xtwx, xtwy_ := xtwy, n_ := s.n_ + 1, yt_w_y_ := s.yt_w_y_ + w * y * y,
            sumlogw_ := s.sumlogw_ + log w, sym_ := false }

/-- The loop of `WeightedRegSuf::reweight(X, y, w)` over the observations
`i`; `y[i]` and `w[i]` are unchecked accesses. -/
def reweight_loop {α : Type} [Ring α] (log : α → α) (X : Matrix α) (y w : List α) :
    List Nat → WeightedRegSuf α → Except Fault (WeightedRegSuf α)
  | [], s => .ok s
  | i :: rest, s =>
    match X.row i, y[i]?, w[i]? with
    | .ok x, some yi, some wi =>
      match add_data log s x yi wi with
      | .error e => .error e
      | .ok s1 => reweight_loop log X y w rest s1
    | .error e, _, _ => .error e
    | _, _, _ => .error .out_of_range

/-- The member `WeightedRegSuf::reweight(const Matrix &X, const Vector &y, const
Vector &w)`, behind its assertion `y.size() == n && X.nrow() == n`. -/
def reweight {α : Type} [Ring α] (log : α → α) (s : WeightedRegSuf α) (X : Matrix α)
    (y w : List α) : Except Fault (WeightedRegSuf α) :=
  if y.length % 4294967296 = w.length % 4294967296 ∧ X.nrow = w.length % 4294967296 then
    reweight_loop log X y w (List.range (w.length % 4294967296)) s.clear
  else .error .out_of_range

end WeightedRegSuf

/-- The constructor `WeightedRegSuf::WeightedRegSuf(const Matrix &X, const
Vector &y, const Vector &w)`; `raw` is the object before the body of the
constructor runs, with its members not yet set. -/
def WeightedRegSuf_of_X_y_w {α : Type} [Ring α] (log : α → α) (raw : WeightedRegSuf α)
    (X : Matrix α) (y w : List α) : Except Fault (WeightedRegSuf α) :=
  (raw.setup_mat (add_intercept X).nrow).reweight log (add_intercept X) y w

/-- The constructor `WeightedRegSuf::WeightedRegSuf(const Matrix &X, const
Vector &y)`, which takes every weight to be 1. -/
def WeightedRegSuf_of_X_y {α : Type} [Ring α] (log : α → α) (raw : WeightedRegSuf α)
    (X : Matrix α) (y : List α) : Except Fault (WeightedRegSuf α) :=
  (raw.setup_mat (add_intercept X).nrow).reweight log (add_intercept X) y
    (List.replicate (y.length % 4294967296) 1)

end BOOM

/-! Theorems about the embedding of `Selector`. -/

namespace BOOM

/-! ## The binary search -/

theorem lower_bound_loop_spec (xs : List Nat) (p : Nat)
    (hs : ∀ i j, i ≤ j → j < xs.length → xs.getD i 0 ≤ xs.getD j 0) :
    ∀ fuel first len, len ≤ fuel → first + len ≤ xs.length →
      (∀ i, i < first → xs.getD i 0 < p) →
      (∀ i, first + len ≤ i → i < xs.length → p ≤ xs.getD i 0) →
      lower_bound_loop xs p fuel first len ≤ xs.length ∧
      (∀ i, i < lower_bound_loop xs p fuel first len → xs.getD i 0 < p) ∧
      (∀ i, lower_bound_loop xs p fuel first len ≤ i → i < xs.length → p ≤ xs.getD i 0) := by
  intro fuel
  induction fuel with
  | zero =>
    intro first len hl hb hlo hhi
    have h0 : len = 0 := by omega
    subst h0
    simp only [lower_bound_loop]
    exact ⟨by omega, hlo, fun i hi hn => hhi i (by omega) hn⟩
  | succ fuel ih =>
    intro first len hl hb hlo hhi
    simp only [lower_bound_loop]
    by_cases h0 : len = 0
    · subst h0
      simp only [if_true]
      exact ⟨by omega, hlo, fun i hi hn => hhi i (by omega) hn⟩
    · simp only [h0, if_false]
      have hmid : first + len / 2 < xs.length := by
        have : len / 2 < len := Nat.div_lt_self (by omega) (by decide)
        omega
      by_cases hc : xs.getD (first + len / 2) 0 < p
      · simp only [hc, if_true]
        have hlt : len / 2 < len := Nat.div_lt_self (by omega) (by decide)
        apply ih
        · omega
        · omega
        · intro i hi
          have := hs i (first + len / 2) (by omega) hmid
          omega
        · intro i hi hn
          exact hhi i (by omega) hn
      · simp only [hc, if_false]
        have hlt : len / 2 < len := Nat.div_lt_self (by omega) (by decide)
        apply ih
        · omega
        · omega
        · exact hlo
        · intro i hi hn
          have := hs (first + len / 2) i hi hn
          omega

theorem sorted_getD_le (xs : List Nat) (h : xs.Pairwise (fun a b => a < b)) :
    ∀ i j, i ≤ j → j < xs.length → xs.getD i 0 ≤ xs.getD j 0 := by
  intro i j hij hj
  rcases Nat.eq_or_lt_of_le hij with h1 | h1
  · subst h1; exact Nat.le_refl _
  · have hi : i < xs.length := by omega
    have := (List.pairwise_iff_getElem.mp h) i j hi hj h1
    rw [List.getD_eq_getElem _ _ hi, List.getD_eq_getElem _ _ hj]
    omega

/-- On a strictly increasing list the binary search returns the index that
separates the entries below `p` from the entries that are at least `p`. -/
theorem lower_bound_spec (xs : List Nat) (p : Nat) (h : xs.Pairwise (fun a b => a < b)) :
    lower_bound xs p ≤ xs.length ∧
    (∀ i (hi : i < xs.length), i < lower_bound xs p → xs[i] < p) ∧
    (∀ i (hi : i < xs.length), lower_bound xs p ≤ i → p ≤ xs[i]) := by
  have := lower_bound_loop_spec xs p (sorted_getD_le xs h) xs.length 0 xs.length
    (Nat.le_refl _) (by omega) (by intro i hi; omega) (by intro i hi hn; omega)
  refine ⟨this.1, ?_, ?_⟩
  · intro i hi hlt
    have := this.2.1 i hlt
    rwa [List.getD_eq_getElem _ _ hi] at this
  · intro i hi hle
    have := this.2.2 i hle hi
    rwa [List.getD_eq_getElem _ _ hi] at this

theorem vector_insert_mem (xs : List Nat) (it p a : Nat) :
    a ∈ vector_insert xs it p ↔ a = p ∨ a ∈ xs := by
  unfold vector_insert
  rw [List.mem_append, List.mem_cons]
  constructor
  · rintro (h | h | h)
    · exact Or.inr (List.mem_of_mem_take h)
    · exact Or.inl h
    · exact Or.inr (List.mem_of_mem_drop h)
  · rintro (h | h)
    · exact Or.inr (Or.inl h)
    · rw [← List.take_append_drop it xs, List.mem_append] at h
      rcases h with h | h
      · exact Or.inl h
      · exact Or.inr (Or.inr h)

/-- Inserting an absent value at the position found by the binary search keeps
a strictly increasing list strictly increasing. -/
theorem vector_insert_sorted (xs : List Nat) (p : Nat)
    (h : xs.Pairwise (fun a b => a < b)) (hp : p ∉ xs) :
    (vector_insert xs (lower_bound xs p) p).Pairwise (fun a b => a < b) := by
  obtain ⟨_, hlo, hhi⟩ := lower_bound_spec xs p h
  have htake : ∀ a ∈ xs.take (lower_bound xs p), a < p := by
    intro a ha
    obtain ⟨i, hi, rfl⟩ := List.mem_take_iff_getElem.mp ha
    exact hlo i (by omega) (by omega)
  have hdrop : ∀ b ∈ xs.drop (lower_bound xs p), p < b := by
    intro b hb
    have hbx : b ∈ xs := List.mem_of_mem_drop hb
    obtain ⟨i, hi, rfl⟩ := List.mem_drop_iff_getElem.mp hb
    have := hhi (lower_bound xs p + i) (by omega) (by omega)
    rcases Nat.eq_or_lt_of_le this with h1 | h1
    · exact absurd (h1 ▸ hbx) hp
    · exact h1
  unfold vector_insert
  rw [List.pairwise_append, List.pairwise_cons]
  refine ⟨h.sublist (List.take_sublist _ _), ⟨hdrop, h.sublist (List.drop_sublist _ _)⟩, ?_⟩
  intro a ha b hb
  rcases List.mem_cons.mp hb with rfl | hb
  · exact htake a ha
  · exact Nat.lt_trans (htake a ha) (hdrop b hb)

/-- On a strictly increasing list the binary search finds a value that is
present. -/
theorem lower_bound_found (xs : List Nat) (p : Nat)
    (h : xs.Pairwise (fun a b => a < b)) (hp : p ∈ xs) :
    ∃ hlt : lower_bound xs p < xs.length, xs[lower_bound xs p] = p := by
  obtain ⟨_, hlo, hhi⟩ := lower_bound_spec xs p h
  obtain ⟨j, hj, hjp⟩ := List.mem_iff_getElem.mp hp
  have hle : lower_bound xs p ≤ j := by
    by_contra hc
    have := hlo j hj (by omega)
    omega
  have hlt : lower_bound xs p < xs.length := by omega
  refine ⟨hlt, ?_⟩
  have h1 := hhi (lower_bound xs p) hlt (Nat.le_refl _)
  rcases Nat.eq_or_lt_of_le hle with h2 | h2
  · simp only [h2]; exact hjp
  · have := (List.pairwise_iff_getElem.mp h) (lower_bound xs p) j hlt hj h2
    omega

theorem sorted_getElem_inj (xs : List Nat) (h : xs.Pairwise (fun a b => a < b))
    (i j : Nat) (hi : i < xs.length) (hj : j < xs.length) (he : xs[i] = xs[j]) : i = j := by
  rcases Nat.lt_trichotomy i j with h1 | h1 | h1
  · have := (List.pairwise_iff_getElem.mp h) i j hi hj h1; omega
  · exact h1
  · have := (List.pairwise_iff_getElem.mp h) j i hj hi h1; omega

/-- Erasing at the position found by the binary search removes exactly the
value searched for. -/
theorem eraseIdx_lower_bound_mem (xs : List Nat) (p : Nat)
    (h : xs.Pairwise (fun a b => a < b)) (hp : p ∈ xs) (a : Nat) :
    a ∈ xs.eraseIdx (lower_bound xs p) ↔ a ∈ xs ∧ a ≠ p := by
  obtain ⟨hlt, hval⟩ := lower_bound_found xs p h hp
  rw [List.mem_eraseIdx_iff_getElem]
  constructor
  · rintro ⟨i, hi, hne, rfl⟩
    refine ⟨List.getElem_mem _, ?_⟩
    intro he
    exact hne (sorted_getElem_inj xs h i _ hi hlt (he.trans hval.symm))
  · rintro ⟨ha, hne⟩
    obtain ⟨i, hi, rfl⟩ := List.mem_iff_getElem.mp ha
    refine ⟨i, hi, ?_, rfl⟩
    intro he
    subst he
    exact hne hval

/-! ## The mutators `add`, `drop` and `flip` -/

theorem set_eq_self_of_getElem? {α : Type} (l : List α) (p : Nat) (a : α)
    (h : l[p]? = some a) : l.set p a = l := by
  apply List.ext_getElem?
  intro n
  rw [List.getElem?_set]
  by_cases hn : p = n
  · subst hn
    obtain ⟨hlt, _⟩ := List.getElem?_eq_some_iff.mp h
    simp [hlt, h]
  · simp [hn]

theorem all_true_getElem? (l : List Bool) (h : ∀ b ∈ l, b = true) (p : Nat)
    (hp : p < l.length) : l[p]? = some true := by
  rw [List.getElem?_eq_getElem hp]
  exact congrArg some (h _ (List.getElem_mem _))

/-- The index list computed by `reset_included_positions` is consistent with
the mask, whatever flag it is paired with that is sound for the mask. -/
theorem Selector.reset_spec (s : Selector) (flag : Bool)
    (hf : flag = true → ∀ b ∈ s.mask, b = true) :
    Selector.Consistent { s.reset_included_positions with include_all_ := flag } := by
  refine ⟨?_, ?_, ?_, ?_⟩
  · exact (List.pairwise_lt_range _).filter _
  · intro i hi
    simp only [Selector.reset_included_positions, Selector.nvars_possible, List.mem_filter,
      List.mem_range] at hi
    obtain ⟨hlt, hb⟩ := hi
    rw [List.getD_eq_getElem _ _ hlt] at hb
    simp [Selector.reset_included_positions, hlt, hb]
  · intro i hi hm
    simp only [Selector.reset_included_positions] at hm hi
    simp only [Selector.reset_included_positions, Selector.nvars_possible, List.mem_filter,
      List.mem_range]
    refine ⟨hi, ?_⟩
    simp [List.getD_eq_getElem?_getD, hm]
  · exact hf

theorem Selector.reset_consistent (s : Selector) :
    Selector.Consistent { s.reset_included_positions with include_all_ := false } :=
  Selector.reset_spec s false (fun h => by cases h)

/-- On a consistent selector `add(p)` with `p` in range succeeds, keeps the
selector consistent and sets bit `p` of the mask, changing no other bit. -/
theorem Selector.add_spec (s : Selector) (p : Nat) (hs : s.Consistent)
    (hp : p < s.nvars_possible) :
    ∃ t, s.add p = .ok t ∧ t.Consistent ∧ t.mask = s.mask.set p true := by
  obtain ⟨h1, h2, h3, h4⟩ := hs
  have hp1 : p < s.mask.length := hp
  unfold Selector.add Selector.check_size_gt
  simp only [hp, if_true]
  by_cases ha : s.include_all_ = true
  · simp only [ha, if_true]
    refine ⟨s, rfl, ⟨h1, h2, h3, h4⟩, ?_⟩
    exact (set_eq_self_of_getElem? _ _ _ (all_true_getElem? _ (h4 ha) p hp1)).symm
  · simp only [ha]
    unfold Selector.inc
    rw [List.getElem?_eq_getElem hp1]
    cases hb : s.mask[p] with
    | true =>
      refine ⟨s, rfl, ⟨h1, h2, h3, h4⟩, ?_⟩
      refine (set_eq_self_of_getElem? _ _ _ ?_).symm
      rw [List.getElem?_eq_getElem hp1, hb]
    | false =>
      have hmp : s.mask[p]? = some false := by rw [List.getElem?_eq_getElem hp1, hb]
      have hnot : p ∉ s.included_positions_ := by
        intro hin
        have := h2 p hin
        rw [hmp] at this
        cases this
      refine ⟨_, rfl, ⟨?_, ?_, ?_, ?_⟩, rfl⟩
      · exact vector_insert_sorted _ _ h1 hnot
      · intro i hi
        rcases (vector_insert_mem _ _ _ _).mp hi with rfl | hi
        · exact List.getElem?_set_self hp1
        · by_cases he : p = i
          · subst he; exact List.getElem?_set_self hp1
          · show (s.mask.set p true)[i]? = some true
            rw [List.getElem?_set_ne he]; exact h2 i hi
      · intro i hi hm
        apply (vector_insert_mem _ _ _ _).mpr
        by_cases he : p = i
        · exact Or.inl he.symm
        · right
          have hm1 : (s.mask.set p true)[i]? = some true := hm
          rw [List.getElem?_set_ne he] at hm1
          have hi1 : i < (s.mask.set p true).length := hi
          rw [List.length_set] at hi1
          exact h3 i hi1 hm1
      · intro h; cases h

/-- On a consistent selector `drop(p)` with `p` in range succeeds, keeps the
selector consistent and clears bit `p` of the mask, changing no other bit. -/
theorem Selector.drop_spec (s : Selector) (p : Nat) (hs : s.Consistent)
    (hp : p < s.nvars_possible) :
    ∃ t, s.drop p = .ok t ∧ t.Consistent ∧ t.mask = s.mask.set p false := by
  have hp1 : p < s.mask.length := hp
  unfold Selector.drop Selector.check_size_gt
  simp only [hp, if_true]
  generalize hs1 : (if s.include_all_ = true then
      ({ s.reset_included_positions with include_all_ := false } : Selector) else s) = s1
  have hc1 : s1.Consistent := by
    subst hs1
    split
    · exact Selector.reset_consistent s
    · exact hs
  have hm1 : s1.mask = s.mask := by
    subst hs1
    split <;> rfl
  have hf1 : s1.include_all_ = false := by
    subst hs1
    split
    · rfl
    · rename_i h; simpa using h
  obtain ⟨h1, h2, h3, h4⟩ := hc1
  have hp2 : p < s1.mask.length := by rw [hm1]; exact hp1
  unfold Selector.inc
  rw [List.getElem?_eq_getElem hp2]
  cases hb : s1.mask[p] with
  | false =>
    refine ⟨s1, rfl, ⟨h1, h2, h3, h4⟩, ?_⟩
    rw [← hm1]
    refine (set_eq_self_of_getElem? _ _ _ ?_).symm
    rw [List.getElem?_eq_getElem hp2, hb]
  | true =>
    have hmp : s1.mask[p]? = some true := by rw [List.getElem?_eq_getElem hp2, hb]
    have hin : p ∈ s1.included_positions_ := h3 p hp2 hmp
    obtain ⟨hlt, _⟩ := lower_bound_found _ _ h1 hin
    simp only [hlt, if_true]
    refine ⟨_, rfl, ⟨?_, ?_, ?_, ?_⟩, ?_⟩
    · exact h1.sublist (List.eraseIdx_sublist _ _)
    · intro i hi
      obtain ⟨hi1, hne⟩ := (eraseIdx_lower_bound_mem _ _ h1 hin i).mp hi
      show (s1.mask.set p false)[i]? = some true
      rw [List.getElem?_set_ne (Ne.symm hne)]
      exact h2 i hi1
    · intro i hi hm
      have hm2 : (s1.mask.set p false)[i]? = some true := hm
      have hi1 : i < (s1.mask.set p false).length := hi
      rw [List.length_set] at hi1
      have hne : p ≠ i := by
        intro he
        subst he
        rw [List.getElem?_set_self hp2] at hm2
        cases hm2
      rw [List.getElem?_set_ne hne] at hm2
      exact (eraseIdx_lower_bound_mem _ _ h1 hin i).mpr ⟨h3 i hi1 hm2, Ne.symm hne⟩
    · intro h
      have h5 : s1.include_all_ = true := h
      rw [hf1] at h5
      cases h5
    · show s1.mask.set p false = s.mask.set p false
      rw [hm1]

/-- On a consistent selector `flip(p)` with `p` in range succeeds, keeps the
selector consistent and negates bit `p` of the mask, changing no other bit. -/
theorem Selector.flip_spec (s : Selector) (p : Nat) (hs : s.Consistent)
    (hp : p < s.nvars_possible) :
    ∃ t, s.flip p = .ok t ∧ t.Consistent ∧ t.mask = s.mask.set p (!s.mask.getD p false) := by
  have hp1 : p < s.mask.length := hp
  unfold Selector.flip Selector.inc
  rw [List.getD_eq_getElem _ _ hp1, List.getElem?_eq_getElem hp1]
  cases hb : s.mask[p] with
  | true => exact Selector.drop_spec s p hs hp
  | false => exact Selector.add_spec s p hs hp

/-- C1: for every consistent Selector and every position p below
nvars_possible(), each of add(p), drop(p) and flip(p) succeeds and leaves the
Selector consistent, with the mask changed only at position p: add sets the
bit, drop clears it, flip negates it. -/
theorem Selector.mutators_keep_consistent (s : Selector) (p : Nat)
    (hs : s.Consistent) (hp : p < s.nvars_possible) :
    (∃ t, s.add p = .ok t ∧ t.Consistent ∧ t.mask = s.mask.set p true) ∧
    (∃ t, s.drop p = .ok t ∧ t.Consistent ∧ t.mask = s.mask.set p false) ∧
    (∃ t, s.flip p = .ok t ∧ t.Consistent ∧
      t.mask = s.mask.set p (!s.mask.getD p false)) :=
  ⟨Selector.add_spec s p hs hp, Selector.drop_spec s p hs hp, Selector.flip_spec s p hs hp⟩

theorem Selector.mutators_keep_consistent_witness :
    (Selector.mk [true, false, true] [0, 2] false).Consistent ∧
    1 < (Selector.mk [true, false, true] [0, 2] false).nvars_possible ∧
    ((∃ t, (Selector.mk [true, false, true] [0, 2] false).add 1 = .ok t ∧ t.Consistent ∧
        t.mask = [true, false, true].set 1 true) ∧
     (∃ t, (Selector.mk [true, false, true] [0, 2] false).drop 1 = .ok t ∧ t.Consistent ∧
        t.mask = [true, false, true].set 1 false) ∧
     (∃ t, (Selector.mk [true, false, true] [0, 2] false).flip 1 = .ok t ∧ t.Consistent ∧
        t.mask = [true, false, true].set 1 (!(List.getD [true, false, true] 1 false)))) :=
  ⟨by decide, by decide,
    Selector.mutators_keep_consistent (Selector.mk [true, false, true] [0, 2] false) 1
      (by decide) (by decide)⟩

/-! ## The constructors -/

theorem Selector.add_ok_consistent (s t : Selector) (p : Nat) (hs : s.Consistent)
    (h : s.add p = .ok t) : t.Consistent ∧ t.mask.length = s.mask.length := by
  by_cases hp : p < s.nvars_possible
  · obtain ⟨u, hu, hc, hm⟩ := Selector.add_spec s p hs hp
    rw [hu] at h
    injection h with h
    subst h
    exact ⟨hc, by rw [hm, List.length_set]⟩
  · unfold Selector.add Selector.check_size_gt at h
    simp only [hp, if_false] at h
    cases h

theorem Selector_size_consistent (p : Nat) (all : Bool) : (Selector_size p all).Consistent := by
  unfold Selector_size
  refine Selector.reset_spec ⟨List.replicate p all, [], all⟩ all ?_
  intro h b hb
  rw [List.eq_of_mem_replicate hb]
  exact h

theorem Selector_bools_consistent (v : List Bool) : (Selector_bools v).Consistent := by
  unfold Selector_bools
  exact Selector.reset_consistent ⟨v, [], false⟩

theorem filter_mask_full (m : List Bool)
    (h : ((List.range m.length).filter (fun i => m.getD i false)).length = m.length) :
    ∀ b ∈ m, b = true := by
  have h1 : ((List.range m.length).filter (fun i => m.getD i false)).length
      = (List.range m.length).length := by rw [h, List.length_range]
  have h2 := List.filter_length_eq_length.mp h1
  intro b hb
  obtain ⟨i, hi, rfl⟩ := List.mem_iff_getElem.mp hb
  have := h2 i (List.mem_range.mpr hi)
  rwa [List.getD_eq_getElem _ _ hi] at this

theorem Selector_string_consistent (str : String) (s : Selector)
    (h : Selector_string str = .ok s) : s.Consistent := by
  unfold Selector_string at h
  cases hm : to_vector_bool str with
  | error e => rw [hm] at h; cases h
  | ok m =>
    rw [hm] at h
    simp only at h
    split at h
    · rename_i hfull
      injection h with h
      subst h
      refine Selector.reset_spec ⟨m, [], false⟩ true ?_
      intro _
      exact filter_mask_full m hfull
    · injection h with h
      subst h
      exact Selector.reset_consistent ⟨m, [], false⟩

theorem Selector_positions_loop_consistent (pos : List Nat) :
    ∀ s t : Selector, s.Consistent → Selector_positions_loop pos s = .ok t → t.Consistent := by
  induction pos with
  | nil =>
    intro s t hs h
    simp only [Selector_positions_loop] at h
    injection h with h
    subst h
    exact hs
  | cons p rest ih =>
    intro s t hs h
    simp only [Selector_positions_loop] at h
    cases ha : s.add p with
    | error e => rw [ha] at h; cases h
    | ok s1 =>
      rw [ha] at h
      exact ih s1 t (Selector.add_ok_consistent s s1 p hs ha).1 h

theorem Selector_positions_consistent (pos : List Nat) (n : Nat) (s : Selector)
    (h : Selector_positions pos n = .ok s) : s.Consistent := by
  unfold Selector_positions at h
  refine Selector_positions_loop_consistent pos _ s ?_ h
  refine ⟨List.Pairwise.nil, ?_, ?_, ?_⟩
  · intro i hi; cases hi
  · intro i hi hm
    simp only [List.getElem?_replicate] at hm
    split at hm <;> cases hm
  · intro h; cases h

/-- Every selector that a constructor produces is consistent. -/
theorem BuiltByConstructor.consistent (s : Selector) (h : BuiltByConstructor s) :
    s.Consistent := by
  rcases h with ⟨p, all, rfl⟩ | ⟨str, h⟩ | ⟨v, rfl⟩ | ⟨pos, n, h⟩
  · exact Selector_size_consistent p all
  · exact Selector_string_consistent str s h
  · exact Selector_bools_consistent v
  · exact Selector_positions_consistent pos n s h

/-! ## The flag `include_all_` along sequences of mutator calls -/

theorem filter_range_length_count (m : List Bool) :
    ((List.range m.length).filter (fun i => m.getD i false)).length = m.count true := by
  induction m using List.reverseRecOn with
  | nil => rfl
  | append_singleton m b ih =>
    rw [List.length_append, List.length_singleton, List.range_succ, List.filter_append,
      List.length_append, List.count_append]
    have h1 : (List.range m.length).filter (fun i => (m ++ [b]).getD i false)
        = (List.range m.length).filter (fun i => m.getD i false) := by
      apply List.filter_congr
      intro i hi
      have hi1 : i < m.length := List.mem_range.mp hi
      simp [List.getElem?_append_left hi1]
    rw [h1, ih]
    cases b <;> simp

theorem count_eraseIdx_add (l : List Bool) (k : Nat) (h : k < l.length) :
    (l.eraseIdx k).count true + (if l[k] = true then 1 else 0) = l.count true := by
  have h1 : l = l.take k ++ l[k] :: l.drop (k + 1) := by
    rw [← List.drop_eq_getElem_cons h, List.take_append_drop]
  rw [List.eraseIdx_eq_take_drop_succ]
  conv => rhs; rw [h1]
  rw [List.count_append, List.count_append, List.count_cons]
  cases l[k]
  · simp
  · simp; omega

theorem vector_insert_length (xs : List Nat) (it p : Nat) :
    (vector_insert xs it p).length = xs.length + 1 := by
  unfold vector_insert
  rw [List.length_append, List.length_cons, List.length_take, List.length_drop]
  omega

theorem Selector.add_flagSound (s t : Selector) (p : Nat) (hs : s.FlagSound)
    (h : s.add p = .ok t) : t.FlagSound := by
  obtain ⟨h1, h2⟩ := hs
  unfold Selector.add Selector.check_size_gt at h
  by_cases hp : p < s.nvars_possible
  · have hp1 : p < s.mask.length := hp
    simp only [hp, if_true] at h
    by_cases ha : s.include_all_ = true
    · simp only [ha, if_true] at h
      injection h with h; subst h
      exact ⟨h1, h2⟩
    · have hf : s.include_all_ = false := by simpa using ha
      simp only [ha] at h
      unfold Selector.inc at h
      rw [List.getElem?_eq_getElem hp1] at h
      cases hb : s.mask[p] with
      | true =>
        rw [hb] at h
        injection h with h; subst h
        exact ⟨h1, h2⟩
      | false =>
        rw [hb] at h
        injection h with h; subst h
        refine ⟨fun hc => (by cases hc), fun _ => ?_⟩
        show (vector_insert _ _ _).length = (s.mask.set p true).count true
        rw [vector_insert_length, List.count_set _ _ _ _ hp1, h2 hf, hb]
        simp
  · simp only [hp, if_false] at h
    cases h

theorem Selector.drop_flagSound (s t : Selector) (p : Nat) (hs : s.FlagSound)
    (h : s.drop p = .ok t) : t.FlagSound := by
  unfold Selector.drop Selector.check_size_gt at h
  by_cases hp : p < s.nvars_possible
  · have hp1 : p < s.mask.length := hp
    simp only [hp, if_true] at h
    generalize hs1 : (if s.include_all_ = true then
      ({ s.reset_included_positions with include_all_ := false } : Selector) else s) = s1 at h
    have hm1 : s1.mask = s.mask := by
      subst hs1
      split <;> rfl
    have hf1 : s1.include_all_ = false := by
      subst hs1
      split
      · rfl
      · rename_i hh; simpa using hh
    have hl1 : s1.included_positions_.length = s1.mask.count true := by
      subst hs1
      split
      · exact filter_range_length_count s.mask
      · rename_i hh
        exact hs.2 (by simpa using hh)
    have hp2 : p < s1.mask.length := by rw [hm1]; exact hp1
    unfold Selector.inc at h
    rw [List.getElem?_eq_getElem hp2] at h
    cases hb : s1.mask[p] with
    | false =>
      rw [hb] at h
      injection h with h; subst h
      exact ⟨fun hc => (by rw [hf1] at hc; cases hc), fun _ => hl1⟩
    | true =>
      rw [hb] at h
      simp only at h
      split at h
      · rename_i hlt
        injection h with h; subst h
        refine ⟨fun hc => ?_, fun _ => ?_⟩
        · have hc1 : s1.include_all_ = true := hc
          rw [hf1] at hc1; cases hc1
        · show (s1.included_positions_.eraseIdx _).length = (s1.mask.set p false).count true
          rw [List.length_eraseIdx, if_pos hlt, List.count_set _ _ _ _ hp2, hl1, hb]
          simp
      · cases h
  · simp only [hp, if_false] at h
    cases h

theorem Selector.flip_flagSound (s t : Selector) (p : Nat) (hs : s.FlagSound)
    (h : s.flip p = .ok t) : t.FlagSound := by
  unfold Selector.flip at h
  cases hi : s.inc p with
  | error e => rw [hi] at h; cases h
  | ok b =>
    rw [hi] at h
    cases b with
    | true => exact Selector.drop_flagSound s t p hs h
    | false => exact Selector.add_flagSound s t p hs h

theorem Selector.erase_flagSound (s t : Selector) (k : Nat) (hs : s.FlagSound)
    (h : s.erase k = .ok t) : t.FlagSound := by
  obtain ⟨h1, h2⟩ := hs
  unfold Selector.erase Selector.inc at h
  by_cases hk : k < s.mask.length
  · rw [List.getElem?_eq_getElem hk] at h
    have hcount := count_eraseIdx_add s.mask k hk
    cases hb : s.mask[k] with
    | true =>
      rw [hb] at h hcount
      simp only [if_true] at h hcount
      cases hv : s.included_positions_[lower_bound s.included_positions_ k]? with
      | none => rw [hv] at h; cases h
      | some v =>
        rw [hv] at h
        simp only at h
        split at h
        · cases h
        · injection h with h; subst h
          obtain ⟨hlt, _⟩ := List.getElem?_eq_some_iff.mp hv
          refine ⟨fun hc => ?_, fun hc => ?_⟩
          · intro b hb1
            exact h1 hc b ((List.eraseIdx_sublist _ _).subset hb1)
          · show (s.included_positions_.eraseIdx _).length = (s.mask.eraseIdx k).count true
            rw [List.length_eraseIdx, if_pos hlt, h2 hc]
            omega
    | false =>
      rw [hb] at h hcount
      have hf : s.include_all_ = false := by
        cases hia : s.include_all_ with
        | false => rfl
        | true =>
          have := h1 hia _ (List.getElem_mem hk)
          rw [hb] at this
          cases this
      simp only [Bool.false_eq_true, if_false, Selector.nvars, Selector.nvars_possible, hf]
        at h hcount
      split at h
      · rename_i hfull
        injection h with h; subst h
        refine ⟨fun _ => ?_, fun hc => (by cases hc)⟩
        have hce : (s.mask.eraseIdx k).count true = (s.mask.eraseIdx k).length := by
          rw [← hfull, h2 hf]
          omega
        intro b hb1
        exact (List.count_eq_length.mp hce b hb1).symm
      · injection h with h; subst h
        refine ⟨fun hc => ?_, fun _ => ?_⟩
        · cases hc
        · show s.included_positions_.length = (s.mask.eraseIdx k).count true
          rw [h2 hf]
          omega
  · rw [List.getElem?_eq_none (by omega)] at h
    cases h

theorem Selector.add_all_flagSound (seq : Nat → Nat → List Nat) (s : Selector) :
    (s.add_all seq).FlagSound := by
  refine ⟨fun _ b hb => ?_, fun hc => (by cases hc)⟩
  exact List.eq_of_mem_replicate hb

theorem Selector.drop_all_flagSound (s : Selector) : s.drop_all.FlagSound := by
  refine ⟨fun hc => (by cases hc), fun _ => ?_⟩
  show ([] : List Nat).length = (List.replicate s.mask.length false).count true
  rw [List.count_replicate]
  rfl

theorem run_mutations_flagSound (seq : Nat → Nat → List Nat) (ms : List Mutation) :
    ∀ s t : Selector, (∀ m ∈ ms, m.is_append = false) → s.FlagSound →
      run_mutations seq ms s = .ok t → t.FlagSound := by
  induction ms with
  | nil =>
    intro s t _ hs h
    simp only [run_mutations] at h
    injection h with h; subst h
    exact hs
  | cons m rest ih =>
    intro s t hno hs h
    simp only [run_mutations] at h
    cases hm : m.apply seq s with
    | error e => rw [hm] at h; cases h
    | ok s1 =>
      rw [hm] at h
      have hrest : ∀ m1 ∈ rest, m1.is_append = false :=
        fun m1 hm1 => hno m1 (List.mem_cons_of_mem _ hm1)
      have hm0 := hno m (List.mem_cons_self _ _)
      refine ih s1 t hrest ?_ h
      cases m with
      | add p => exact Selector.add_flagSound s s1 p hs hm
      | drop p => exact Selector.drop_flagSound s s1 p hs hm
      | flip p => exact Selector.flip_flagSound s s1 p hs hm
      | append_bool b => cases hm0
      | append rhs => cases hm0
      | erase k => exact Selector.erase_flagSound s s1 k hs hm
      | add_all =>
        simp only [Mutation.apply] at hm
        injection hm with hm; subst hm
        exact Selector.add_all_flagSound seq s
      | drop_all =>
        simp only [Mutation.apply] at hm
        injection hm with hm; subst hm
        exact Selector.drop_all_flagSound s

/-- The index list of a consistent selector is the one that
`reset_included_positions` computes from the mask. -/
theorem Selector.Consistent.positions_eq (s : Selector) (hs : s.Consistent) :
    s.included_positions_ = (List.range s.mask.length).filter (fun i => s.mask.getD i false) := by
  obtain ⟨h1, h2, h3, _⟩ := hs
  have hr := Selector.reset_consistent s
  obtain ⟨r1, r2, r3, _⟩ := hr
  have r1a : ((List.range s.mask.length).filter (fun i => s.mask.getD i false)).Pairwise
      (fun a b => a < b) := r1
  apply List.eq_of_perm_of_sorted (r := fun a b : Nat => a < b) _ h1 r1a
  apply (List.perm_ext_iff_of_nodup (h1.imp (fun h => Nat.ne_of_lt h))
    (r1a.imp (fun h => Nat.ne_of_lt h))).mpr
  intro a
  constructor
  · intro ha
    have hm := h2 a ha
    obtain ⟨hlt, _⟩ := List.getElem?_eq_some_iff.mp hm
    exact r3 a hlt hm
  · intro ha
    have hm := r2 a ha
    obtain ⟨hlt, _⟩ := List.getElem?_eq_some_iff.mp hm
    exact h3 a hlt hm

theorem Selector.Consistent.flagSound (s : Selector) (hs : s.Consistent) : s.FlagSound := by
  refine ⟨hs.2.2.2, fun _ => ?_⟩
  rw [Selector.Consistent.positions_eq s hs]
  exact filter_range_length_count s.mask

theorem Selector.add_all_consistent (seq : Nat → Nat → List Nat)
    (hseq : ∀ n, 0 < n → seq 0 (n - 1) = List.range n) (s : Selector)
    (h0 : 0 < s.nvars_possible) (hn : s.nvars_possible < 4294967296) :
    (s.add_all seq).Consistent := by
  have hmod : (s.nvars_possible + 4294967295) % 4294967296 = s.nvars_possible - 1 := by omega
  unfold Selector.add_all
  simp only [hmod, hseq _ h0]
  refine ⟨List.pairwise_lt_range _, ?_, ?_, ?_⟩
  · intro i hi
    simp [List.getElem?_replicate, List.mem_range.mp hi]
  · intro i hi _
    simpa using hi
  · intro _ b hb
    exact List.eq_of_mem_replicate hb

theorem Selector.drop_all_consistent (s : Selector) : s.drop_all.Consistent := by
  refine ⟨List.Pairwise.nil, ?_, ?_, ?_⟩
  · intro i hi; cases hi
  · intro i hi hm
    simp only [Selector.drop_all, List.getElem?_replicate] at hm
    split at hm <;> cases hm
  · intro h; cases h

theorem Mutation.apply_keeps (seq : Nat → Nat → List Nat)
    (hseq : ∀ n, 0 < n → seq 0 (n - 1) = List.range n) (s : Selector) (n : Nat) (m : Mutation)
    (hlen : s.mask.length = n) (hn : n < 4294967296) (hc : 0 < n → s.Consistent)
    (hk : m.keeps_size = true) (hr : m.in_range n = true) :
    ∃ t, m.apply seq s = .ok t ∧ t.mask.length = n ∧ (0 < n → t.Consistent) := by
  cases m with
  | add p =>
    have hp : p < n := by simpa [Mutation.in_range] using hr
    obtain ⟨t, ht, hct, hmt⟩ := Selector.add_spec s p (hc (by omega)) (by rw [← hlen] at hp; exact hp)
    exact ⟨t, ht, by rw [hmt, List.length_set, hlen], fun _ => hct⟩
  | drop p =>
    have hp : p < n := by simpa [Mutation.in_range] using hr
    obtain ⟨t, ht, hct, hmt⟩ := Selector.drop_spec s p (hc (by omega)) (by rw [← hlen] at hp; exact hp)
    exact ⟨t, ht, by rw [hmt, List.length_set, hlen], fun _ => hct⟩
  | flip p =>
    have hp : p < n := by simpa [Mutation.in_range] using hr
    obtain ⟨t, ht, hct, hmt⟩ := Selector.flip_spec s p (hc (by omega)) (by rw [← hlen] at hp; exact hp)
    exact ⟨t, ht, by rw [hmt, List.length_set, hlen], fun _ => hct⟩
  | append_bool b => cases hk
  | append rhs => cases hk
  | erase k => cases hk
  | add_all =>
    refine ⟨s.add_all seq, rfl, ?_, fun h0 => ?_⟩
    · simp [Selector.add_all, Selector.nvars_possible, hlen]
    · exact Selector.add_all_consistent seq hseq s (by rw [← hlen] at h0; exact h0)
        (by rw [← hlen] at hn; exact hn)
  | drop_all =>
    refine ⟨s.drop_all, rfl, ?_, fun _ => Selector.drop_all_consistent s⟩
    simp [Selector.drop_all, hlen]

theorem run_mutations_total (seq : Nat → Nat → List Nat)
    (hseq : ∀ n, 0 < n → seq 0 (n - 1) = List.range n) (n : Nat) (hn : n < 4294967296)
    (ms : List Mutation) :
    ∀ s : Selector, s.mask.length = n → (0 < n → s.Consistent) →
      (∀ m ∈ ms, m.keeps_size = true ∧ m.in_range n = true) →
      ∃ t, run_mutations seq ms s = .ok t := by
  induction ms with
  | nil => intro s _ _ _; exact ⟨s, rfl⟩
  | cons m rest ih =>
    intro s hlen hc hms
    obtain ⟨hk, hr⟩ := hms m (List.mem_cons_self _ _)
    obtain ⟨s1, h1, hlen1, hc1⟩ := Mutation.apply_keeps seq hseq s n m hlen hn hc hk hr
    obtain ⟨t, ht⟩ := ih s1 hlen1 hc1 (fun m1 hm1 => hms m1 (List.mem_cons_of_mem _ hm1))
    refine ⟨t, ?_⟩
    simp only [run_mutations, h1]
    exact ht

theorem seq_up_range (n : Nat) (h : 0 < n) : seq_up 0 (n - 1) = List.range n := by
  unfold seq_up
  rw [List.range_eq_range']
  congr 1
  omega

/-- C2 (as amended): for every Selector produced by a constructor and every
sequence of add, drop, flip, erase, add_all and drop_all calls that all
return, include_all_ true implies that every position of the mask is included
in the resulting Selector; and a sequence of add, drop, flip, add_all and
drop_all calls with in-range arguments always returns. -/
theorem include_all_implies_all_included (seq : Nat → Nat → List Nat) (s : Selector)
    (hb : BuiltByConstructor s) (ms : List Mutation)
    (hno : ∀ m ∈ ms, m.is_append = false) :
    (∀ t, run_mutations seq ms s = .ok t → t.include_all_ = true → ∀ b ∈ t.mask, b = true) ∧
    ((∀ n, 0 < n → seq 0 (n - 1) = List.range n) → s.nvars_possible < 4294967296 →
      (∀ m ∈ ms, m.keeps_size = true ∧ m.in_range s.nvars_possible = true) →
      ∃ t, run_mutations seq ms s = .ok t) := by
  have hc := BuiltByConstructor.consistent s hb
  refine ⟨fun t ht => ?_, fun hseq hn hms => ?_⟩
  · exact (run_mutations_flagSound seq ms s t hno (Selector.Consistent.flagSound s hc) ht).1
  · exact run_mutations_total seq hseq s.nvars_possible hn ms s rfl (fun _ => hc) hms

theorem include_all_implies_all_included_witness :
    BuiltByConstructor (Selector_bools [true, false, true]) ∧
    (∀ m ∈ [Mutation.flip 1, Mutation.drop 0, Mutation.erase 0], m.is_append = false) ∧
    run_mutations seq_up [Mutation.flip 1, Mutation.drop 0, Mutation.erase 0]
      (Selector_bools [true, false, true]) = .ok (Selector.mk [true, true] [1, 2] true) ∧
    ((Selector.mk [true, true] [1, 2] true).include_all_ = true →
      ∀ b ∈ (Selector.mk [true, true] [1, 2] true).mask, b = true) ∧
    (∃ t, run_mutations seq_up [Mutation.flip 1, Mutation.add_all, Mutation.drop 0]
      (Selector_bools [true, false, true]) = .ok t) :=
  ⟨Or.inr (Or.inr (Or.inl ⟨[true, false, true], rfl⟩)), by decide, rfl,
    (include_all_implies_all_included seq_up (Selector_bools [true, false, true])
        (Or.inr (Or.inr (Or.inl ⟨[true, false, true], rfl⟩)))
        [Mutation.flip 1, Mutation.drop 0, Mutation.erase 0]
        (by decide)).1 (Selector.mk [true, true] [1, 2] true) rfl,
    (include_all_implies_all_included seq_up (Selector_bools [true, false, true])
        (Or.inr (Or.inr (Or.inl ⟨[true, false, true], rfl⟩)))
        [Mutation.flip 1, Mutation.add_all, Mutation.drop 0]
        (by decide)).2 seq_up_range (by decide) (by decide)⟩

/-- C2 (as stated) fails: the constructor from a boolean sequence leaves
include_all_ false on the all-true mask; appending an all-included Selector to
an all-included one leaves include_all_ true on a mask with a false bit; and
append(true) followed by erase sets include_all_ on a mask with a false bit. -/
theorem include_all_iff_counterexample :
    (BuiltByConstructor (Selector_bools [true]) ∧
      run_mutations seq_up [] (Selector_bools [true]) = .ok ⟨[true], [0], false⟩) ∧
    (BuiltByConstructor (Selector_size 1 true) ∧
      run_mutations seq_up [Mutation.append (Selector_size 1 true)] (Selector_size 1 true)
        = .ok ⟨[true, false], [0], true⟩) ∧
    (BuiltByConstructor (Selector_size 2 false) ∧
      run_mutations seq_up [Mutation.append_bool true, Mutation.erase 0] (Selector_size 2 false)
        = .ok ⟨[false, true], [2, 2], true⟩) :=
  ⟨⟨Or.inr (Or.inr (Or.inl ⟨[true], rfl⟩)), rfl⟩,
   ⟨Or.inl ⟨1, true, rfl⟩, rfl⟩,
   ⟨Or.inl ⟨2, false, rfl⟩, rfl⟩⟩

/-! ## `erase` and the two overloads of `append` at concrete inputs -/

/-- C3 (fails on the code): erasing position 0 of the Selector built from the
string 101 shortens the mask to (false, true) but leaves the stored position 2
unshifted, so included_positions_ is no longer the list of the true positions
of the mask, and indx(0) names a position past the end of the new mask. -/
theorem erase_leaves_positions_unshifted :
    Selector_string "101" = .ok (Selector.mk [true, false, true] [0, 2] false) ∧
    (Selector.mk [true, false, true] [0, 2] false).Consistent ∧
    (Selector.mk [true, false, true] [0, 2] false).erase 0
      = .ok (Selector.mk [false, true] [2] false) ∧
    ¬ (Selector.mk [false, true] [2] false).Consistent ∧
    (Selector.mk [false, true] [2] false).indx 0 = .ok 2 ∧
    (Selector.mk [false, true] [2] false).nvars_possible = 2 :=
  ⟨rfl, by decide, rfl, by decide, rfl, rfl⟩

/-- C4 (fails on the code): append(true) on the Selector built from the string
0 stores the new last index twice, since both push_back and append push it:
included_positions_ becomes (1, 1) and nvars() grows from 0 to 2. -/
theorem append_bool_pushes_index_twice :
    Selector_string "0" = .ok (Selector.mk [false] [] false) ∧
    (Selector.mk [false] [] false).Consistent ∧
    (Selector.mk [false] [] false).nvars = 0 ∧
    (Selector.mk [false] [] false).append_bool true = Selector.mk [false, true] [1, 1] false ∧
    (Selector.mk [false, true] [1, 1] false).nvars = 2 ∧
    ¬ (Selector.mk [false, true] [1, 1] false).Consistent :=
  ⟨rfl, by decide, rfl, rfl, rfl, by decide⟩

/-- C5 (fails on the code): appending the all-included Selector of size 1 to
the all-included Selector of size 1 leaves the new bit false, since add returns
at once while include_all_ is set: the mask becomes (true, false) with
include_all_ still true, and inc(1) is false although the appended Selector
includes its position 0. -/
theorem append_to_all_included_drops_bits :
    (Selector_size 1 true).Consistent ∧
    (Selector_size 1 true).inc 0 = .ok true ∧
    (Selector_size 1 true).append (Selector_size 1 true)
      = .ok (Selector.mk [true, false] [0] true) ∧
    (Selector.mk [true, false] [0] true).inc 1 = .ok false ∧
    ¬ (Selector.mk [true, false] [0] true).Consistent :=
  ⟨by decide, rfl, rfl, rfl, by decide⟩

/-! ## `select`, `expand` and `to_Vector` -/

/-- C6: the Selector constructed from the string 10110 has nvars_possible() 5,
nvars() 3, indx(0) = 0, indx(1) = 2, indx(2) = 3, and select maps a vector
(x1, x2, x3, x4, x5) to (x1, x3, x4), in particular (1, 2, 3, 4, 5) to
(1, 3, 4). -/
theorem selector_10110 :
    ∃ s, Selector_string "10110" = .ok s ∧
      s.nvars_possible = 5 ∧ s.nvars = 3 ∧
      s.indx 0 = .ok 0 ∧ s.indx 1 = .ok 2 ∧ s.indx 2 = .ok 3 ∧
      s.select [(1 : Int), 2, 3, 4, 5] = .ok [1, 3, 4] ∧
      ∀ (α : Type) (x1 x2 x3 x4 x5 : α), s.select [x1, x2, x3, x4, x5] = .ok [x1, x3, x4] :=
  ⟨Selector.mk [true, false, true, true, false] [0, 2, 3] false,
    rfl, rfl, rfl, rfl, rfl, rfl, rfl, fun _ _ _ _ _ _ => rfl⟩

theorem sorted_getElem?_inj (xs : List Nat) (h : xs.Pairwise (fun a b => a < b))
    (i j I : Nat) (hi : xs[i]? = some I) (hj : xs[j]? = some I) : i = j := by
  obtain ⟨hi1, hi2⟩ := List.getElem?_eq_some_iff.mp hi
  obtain ⟨hj1, hj2⟩ := List.getElem?_eq_some_iff.mp hj
  exact sorted_getElem_inj xs h i j hi1 hj1 (hi2.trans hj2.symm)

/-- The scatter loop of `inc_expand` over distinct indices `i`, for a selector
with a strictly increasing index list and `include_all_` false: it returns,
keeps the length, writes `x[i]` at position `indx(i)` and leaves every other
position as it was. -/
theorem inc_expand_loop_spec {α : Type} (x : List α) (s : Selector)
    (hf : s.include_all_ = false)
    (hsorted : s.included_positions_.Pairwise (fun a b => a < b)) (l : List Nat) :
    ∀ ans : List α, l.Nodup →
      (∀ i ∈ l, i < x.length ∧ ∃ I, s.included_positions_[i]? = some I ∧ I < ans.length) →
      ∃ z, inc_expand_loop x s l ans = .ok z ∧ z.length = ans.length ∧
        (∀ i ∈ l, ∀ I, s.included_positions_[i]? = some I → z[I]? = x[i]?) ∧
        (∀ p, (∀ i ∈ l, s.included_positions_[i]? ≠ some p) → z[p]? = ans[p]?) := by
  induction l with
  | nil =>
    intro ans _ _
    exact ⟨ans, rfl, rfl, fun i hi => (by cases hi), fun p _ => rfl⟩
  | cons i rest ih =>
    intro ans hnd hin
    obtain ⟨hix, I, hI, hIlt⟩ := hin i (List.mem_cons_self _ _)
    have hnd1 := List.nodup_cons.mp hnd
    have hrest : ∀ j ∈ rest, j < x.length ∧
        ∃ J, s.included_positions_[j]? = some J ∧ J < (ans.set I x[i]).length := by
      intro j hj
      obtain ⟨hjx, J, hJ, hJlt⟩ := hin j (List.mem_cons_of_mem _ hj)
      exact ⟨hjx, J, hJ, by rw [List.length_set]; exact hJlt⟩
    obtain ⟨z, hz, hzlen, hzhit, hzmiss⟩ := ih (ans.set I x[i]) hnd1.2 hrest
    refine ⟨z, ?_, ?_, ?_, ?_⟩
    · simp only [inc_expand_loop, Selector.indx, hf, hI, List.getElem?_eq_getElem hix, hIlt,
        if_true, Bool.false_eq_true, if_false]
      exact hz
    · rw [hzlen, List.length_set]
    · intro j hj J hJ
      rcases List.mem_cons.mp hj with rfl | hj
      · have hJI : J = I := by rw [hI] at hJ; injection hJ with hJ; exact hJ.symm
        subst hJI
        have hmiss : ∀ k ∈ rest, s.included_positions_[k]? ≠ some J := by
          intro k hk hkJ
          have := sorted_getElem?_inj _ hsorted k j J hkJ hI
          subst this
          exact hnd1.1 hk
        rw [hzmiss J hmiss, List.getElem?_set_self hIlt, List.getElem?_eq_getElem hix]
      · exact hzhit j hj J hJ
    · intro p hp
      have hpI : I ≠ p := by
        intro he
        subst he
        exact hp i (List.mem_cons_self _ _) hI
      rw [hzmiss p (fun k hk => hp k (List.mem_cons_of_mem _ hk)), List.getElem?_set_ne hpI]

theorem Selector.Consistent.positions_lt (s : Selector) (hs : s.Consistent) (i I : Nat)
    (h : s.included_positions_[i]? = some I) : I < s.mask.length := by
  have hm := hs.2.1 I (List.getElem?_mem h)
  exact (List.getElem?_eq_some_iff.mp hm).1

theorem Selector.nvars_of_not_all (s : Selector) (hf : s.include_all_ = false) :
    s.nvars = s.included_positions_.length := by
  simp [Selector.nvars, hf]

theorem Selector.not_all_of_nvars_ne (s : Selector) (h : s.nvars ≠ s.nvars_possible) :
    s.include_all_ = false := by
  cases hf : s.include_all_ with
  | false => rfl
  | true => exact absurd (by simp [Selector.nvars, hf]) h

/-- A consistent selector that includes as many positions as it has is the
identity selection: every bit is true and `indx(i)` is `i`. -/
theorem Selector.Consistent.full (s : Selector) (hs : s.Consistent)
    (h : s.nvars = s.nvars_possible) :
    (∀ b ∈ s.mask, b = true) ∧ (∀ i, i < s.nvars_possible → s.indx i = .ok i) := by
  cases hf : s.include_all_ with
  | true =>
    refine ⟨hs.2.2.2 hf, fun i _ => ?_⟩
    simp [Selector.indx, hf]
  | false =>
    have hpos := Selector.Consistent.positions_eq s hs
    have hlen : ((List.range s.mask.length).filter (fun i => s.mask.getD i false)).length
        = s.mask.length := by
      rw [← hpos, ← Selector.nvars_of_not_all s hf]
      exact h
    have hall := filter_mask_full s.mask hlen
    refine ⟨hall, fun i hi => ?_⟩
    have hi1 : i < s.mask.length := hi
    have hrange : s.included_positions_ = List.range s.mask.length := by
      rw [hpos]
      apply List.filter_eq_self.mpr
      intro a ha
      have ha1 : a < s.mask.length := List.mem_range.mp ha
      rw [List.getD_eq_getElem _ _ ha1]
      exact hall _ (List.getElem_mem _)
    simp [Selector.indx, hf, hrange, hi1]

/-- The scatter branch of `expand`, for a consistent selector that does not
include every position. -/
theorem Selector.expand_sparse {α : Type} [Zero α] (s : Selector) (hs : s.Consistent)
    (y : List α) (hy : y.length = s.nvars) (hne : s.nvars ≠ s.nvars_possible) :
    ∃ z, s.expand y = .ok z ∧ z.length = s.nvars_possible ∧
      (∀ i I : Nat, s.included_positions_[i]? = some I → z[I]? = y[i]?) ∧
      (∀ p, p ∉ s.included_positions_ →
        z[p]? = (List.replicate s.nvars_possible (0 : α))[p]?) := by
  have hf := Selector.not_all_of_nvars_ne s hne
  have hn := Selector.nvars_of_not_all s hf
  have hin : ∀ i ∈ List.range s.nvars, i < y.length ∧
      ∃ I, s.included_positions_[i]? = some I ∧
        I < (List.replicate s.nvars_possible (0 : α)).length := by
    intro i hi
    have hi1 : i < s.nvars := List.mem_range.mp hi
    have hi2 : i < s.included_positions_.length := by rw [← hn]; exact hi1
    refine ⟨by rw [hy]; exact hi1, s.included_positions_[i], List.getElem?_eq_getElem hi2, ?_⟩
    rw [List.length_replicate]
    exact Selector.Consistent.positions_lt s hs i _ (List.getElem?_eq_getElem hi2)
  obtain ⟨z, hz, hzlen, hzhit, hzmiss⟩ := inc_expand_loop_spec y s hf hs.1 (List.range s.nvars)
    (List.replicate s.nvars_possible (0 : α)) (List.nodup_range _) hin
  refine ⟨z, ?_, ?_, ?_, ?_⟩
  · unfold Selector.expand inc_expand
    simp only [hy, hne, ne_eq, not_true_eq_false, if_false]
    exact hz
  · rw [hzlen, List.length_replicate]
  · intro i I hI
    have hi2 : i < s.included_positions_.length := (List.getElem?_eq_some_iff.mp hI).1
    exact hzhit i (List.mem_range.mpr (by rw [hn]; exact hi2)) I hI
  · intro p hp
    apply hzmiss
    intro i _ hI
    exact hp (List.getElem?_mem hI)

/-- C10: for every consistent Selector s and every vector y with
y.size() == s.nvars(), expand(y) returns a vector of length nvars_possible()
with expand(y)[indx(i)] == y[i] for every i below nvars(), and 0 at every
position p with inc(p) false. -/
theorem Selector.expand_scatters {α : Type} [Zero α] (s : Selector) (hs : s.Consistent)
    (y : List α) (hy : y.length = s.nvars) :
    ∃ z, s.expand y = .ok z ∧ z.length = s.nvars_possible ∧
      (∀ i, i < s.nvars → ∃ I, s.indx i = .ok I ∧ z[I]? = y[i]?) ∧
      (∀ p, s.inc p = .ok false → z[p]? = some 0) := by
  by_cases hfull : s.nvars = s.nvars_possible
  · obtain ⟨hall, hindx⟩ := Selector.Consistent.full s hs hfull
    refine ⟨y, ?_, by rw [hy, hfull], ?_, ?_⟩
    · unfold Selector.expand inc_expand
      simp [hy, hfull]
    · intro i hi
      exact ⟨i, hindx i (by rw [← hfull]; exact hi), rfl⟩
    · intro p hp
      unfold Selector.inc at hp
      cases hm : s.mask[p]? with
      | none => rw [hm] at hp; cases hp
      | some b =>
        rw [hm] at hp
        injection hp with hp
        subst hp
        have := hall false (List.getElem?_mem hm)
        cases this
  · have hf := Selector.not_all_of_nvars_ne s hfull
    have hn := Selector.nvars_of_not_all s hf
    obtain ⟨z, hz, hzlen, hzhit, hzmiss⟩ := Selector.expand_sparse s hs y hy hfull
    refine ⟨z, hz, hzlen, ?_, ?_⟩
    · intro i hi
      have hi2 : i < s.included_positions_.length := by rw [← hn]; exact hi
      have hI : s.included_positions_[i]? = some s.included_positions_[i] :=
        List.getElem?_eq_getElem hi2
      refine ⟨s.included_positions_[i], ?_, hzhit i _ hI⟩
      simp [Selector.indx, hf, hI]
    · intro p hp
      unfold Selector.inc at hp
      cases hm : s.mask[p]? with
      | none => rw [hm] at hp; cases hp
      | some b =>
        rw [hm] at hp
        injection hp with hp
        subst hp
        have hplt : p < s.mask.length := (List.getElem?_eq_some_iff.mp hm).1
        have hnot : p ∉ s.included_positions_ := by
          intro hin
          have := hs.2.1 p hin
          rw [hm] at this
          cases this
        rw [hzmiss p hnot, List.getElem?_replicate]
        simp [Selector.nvars_possible, hplt]

theorem Selector.expand_scatters_witness :
    (Selector.mk [false, true, false, true] [1, 3] false).Consistent ∧
    [(7 : Int), 9].length = (Selector.mk [false, true, false, true] [1, 3] false).nvars ∧
    (∃ z, (Selector.mk [false, true, false, true] [1, 3] false).expand [(7 : Int), 9] = .ok z ∧
      z.length = (Selector.mk [false, true, false, true] [1, 3] false).nvars_possible ∧
      (∀ i, i < (Selector.mk [false, true, false, true] [1, 3] false).nvars →
        ∃ I, (Selector.mk [false, true, false, true] [1, 3] false).indx i = .ok I ∧
          z[I]? = [(7 : Int), 9][i]?) ∧
      (∀ p, (Selector.mk [false, true, false, true] [1, 3] false).inc p = .ok false →
        z[p]? = some 0)) :=
  ⟨by decide, rfl,
    Selector.expand_scatters (Selector.mk [false, true, false, true] [1, 3] false)
      (by decide) [(7 : Int), 9] rfl⟩

/-- The loop of `to_Vector` is the scatter loop of `inc_expand` applied to a
vector of ones. -/
theorem Selector.to_Vector_loop_eq {α : Type} [One α] (s : Selector) (k : Nat) (l : List Nat) :
    ∀ ans : List α, (∀ i ∈ l, i < k) →
      s.to_Vector_loop l ans = inc_expand_loop (List.replicate k (1 : α)) s l ans := by
  induction l with
  | nil => intro ans _; rfl
  | cons i rest ih =>
    intro ans hl
    have hi : i < k := hl i (List.mem_cons_self _ _)
    have hx : (List.replicate k (1 : α))[i]? = some 1 := by
      rw [List.getElem?_replicate, if_pos hi]
    simp only [Selector.to_Vector_loop, inc_expand_loop, hx]
    cases s.indx i with
    | error e => rfl
    | ok I =>
      simp only
      split
      · exact ih _ (fun j hj => hl j (List.mem_cons_of_mem _ hj))
      · rfl

/-- C9: for every boolean sequence m, Selector(m).to_Vector() returns a vector
of length m.size() whose i-th entry is 1 when m[i] is true and 0 when m[i] is
false. -/
theorem to_Vector_of_bools {α : Type} [Zero α] [One α] (m : List Bool) :
    (Selector_bools m).to_Vector = .ok (m.map (fun b => if b = true then (1 : α) else 0)) := by
  have hs := Selector_bools_consistent m
  have hf : (Selector_bools m).include_all_ = false := rfl
  have hmask : (Selector_bools m).mask = m := rfl
  have hn := Selector.nvars_of_not_all _ hf
  have hin : ∀ i ∈ List.range (Selector_bools m).nvars,
      i < (List.replicate (Selector_bools m).nvars (1 : α)).length ∧
      ∃ I, (Selector_bools m).included_positions_[i]? = some I ∧
        I < (List.replicate (Selector_bools m).nvars_possible (0 : α)).length := by
    intro i hi
    have hi1 : i < (Selector_bools m).nvars := List.mem_range.mp hi
    have hi2 : i < (Selector_bools m).included_positions_.length := by rw [← hn]; exact hi1
    refine ⟨by rw [List.length_replicate]; exact hi1, _, List.getElem?_eq_getElem hi2, ?_⟩
    rw [List.length_replicate]
    exact Selector.Consistent.positions_lt _ hs i _ (List.getElem?_eq_getElem hi2)
  obtain ⟨z, hz, hzlen, hzhit, hzmiss⟩ := inc_expand_loop_spec
    (List.replicate (Selector_bools m).nvars (1 : α)) (Selector_bools m) hf hs.1
    (List.range (Selector_bools m).nvars)
    (List.replicate (Selector_bools m).nvars_possible (0 : α)) (List.nodup_range _) hin
  unfold Selector.to_Vector
  rw [Selector.to_Vector_loop_eq _ (Selector_bools m).nvars _ _
    (fun i hi => List.mem_range.mp hi), hz]
  congr 1
  apply List.ext_getElem?
  intro p
  rw [List.getElem?_map]
  by_cases hp : p < m.length
  · rw [List.getElem?_eq_getElem hp, Option.map_some']
    cases hb : m[p] with
    | true =>
      have hmp : (Selector_bools m).mask[p]? = some true := by
        rw [hmask, List.getElem?_eq_getElem hp, hb]
      have hpin := hs.2.2.1 p (by rw [hmask]; exact hp) hmp
      obtain ⟨i, hi, hip⟩ := List.mem_iff_getElem.mp hpin
      have hI : (Selector_bools m).included_positions_[i]? = some p := by
        rw [List.getElem?_eq_getElem hi, hip]
      rw [hzhit i (List.mem_range.mpr (by rw [hn]; exact hi)) p hI, List.getElem?_replicate,
        if_pos (by rw [hn]; exact hi)]
      rfl
    | false =>
      have hnot : ∀ i ∈ List.range (Selector_bools m).nvars,
          (Selector_bools m).included_positions_[i]? ≠ some p := by
        intro i _ hI
        have := hs.2.1 p (List.getElem?_mem hI)
        rw [hmask, List.getElem?_eq_getElem hp, hb] at this
        cases this
      rw [hzmiss p hnot, List.getElem?_replicate]
      simp [Selector.nvars_possible, hmask, hp]
  · have hlen : z.length ≤ p := by
      rw [hzlen, List.length_replicate]
      exact Nat.le_of_not_lt hp
    rw [List.getElem?_eq_none hlen, List.getElem?_eq_none (Nat.le_of_not_lt hp)]
    rfl

/-- The gather loop of `inc_select`, for a selector with `include_all_` false
whose stored positions are positions of `x`: it returns, and its k-th result is
the entry of `x` at the k-th stored position visited. -/
theorem inc_select_loop_spec {α : Type} (x : List α) (s : Selector)
    (hf : s.include_all_ = false) (l : List Nat)
    (h : ∀ i ∈ l, ∃ I, s.included_positions_[i]? = some I ∧ I < x.length) :
    ∃ y, inc_select_loop x s l = .ok y ∧
      y.map some = l.map (fun i => (s.included_positions_[i]?).bind (fun I => x[I]?)) := by
  induction l with
  | nil => exact ⟨[], rfl, rfl⟩
  | cons i rest ih =>
    obtain ⟨I, hI, hIlt⟩ := h i (List.mem_cons_self _ _)
    obtain ⟨y, hy, hymap⟩ := ih (fun j hj => h j (List.mem_cons_of_mem _ hj))
    refine ⟨x[I] :: y, ?_, ?_⟩
    · simp only [inc_select_loop, Selector.indx, hf, hI, List.getElem?_eq_getElem hIlt, hy,
        Bool.false_eq_true, if_false]
    · simp only [List.map_cons, hymap, hI, Option.some_bind, List.getElem?_eq_getElem hIlt]

theorem getElem?_of_map_some_eq {α : Type} (y : List α) (n : Nat) (g : Nat → Option α)
    (h : y.map some = (List.range n).map g) (i : Nat) (hi : i < n) : y[i]? = g i := by
  have h1 : (y.map some)[i]? = ((List.range n).map g)[i]? := by rw [h]
  rw [List.getElem?_map, List.getElem?_map, List.getElem?_range hi] at h1
  cases hy : y[i]? with
  | none => rw [hy] at h1; cases h1
  | some v =>
    rw [hy] at h1
    simp only [Option.map_some'] at h1
    injection h1

/-- C7: for every Selector s built by a constructor and every vector x with
x.size() == s.nvars_possible(), the three calls return and
s.select(s.expand(s.select(x))) == s.select(x), element for element. -/
theorem select_expand_select {α : Type} [Zero α] (s : Selector) (hb : BuiltByConstructor s)
    (x : List α) (hx : x.length = s.nvars_possible) :
    ∃ y z, s.select x = .ok y ∧ s.expand y = .ok z ∧ s.select z = .ok y := by
  have hs := BuiltByConstructor.consistent s hb
  by_cases hfull : s.nvars = s.nvars_possible
  · refine ⟨x, x, ?_, ?_, ?_⟩
    · unfold Selector.select inc_select
      simp [hx, hfull]
    · unfold Selector.expand inc_expand
      simp [hx, hfull]
    · unfold Selector.select inc_select
      simp [hx, hfull]
  · have hf := Selector.not_all_of_nvars_ne s hfull
    have hn := Selector.nvars_of_not_all s hf
    have hpos : ∀ (w : List α), w.length = s.nvars_possible →
        ∀ i ∈ List.range s.nvars, ∃ I, s.included_positions_[i]? = some I ∧ I < w.length := by
      intro w hw i hi
      have hi2 : i < s.included_positions_.length := by
        rw [← hn]; exact List.mem_range.mp hi
      refine ⟨_, List.getElem?_eq_getElem hi2, ?_⟩
      rw [hw]
      exact Selector.Consistent.positions_lt s hs i _ (List.getElem?_eq_getElem hi2)
    obtain ⟨y, hy, hymap⟩ := inc_select_loop_spec x s hf (List.range s.nvars) (hpos x hx)
    have hylen : y.length = s.nvars := by
      have := congrArg List.length hymap
      simpa using this
    obtain ⟨z, hz, hzlen, hzhit, _⟩ := Selector.expand_sparse s hs y hylen hfull
    obtain ⟨y1, hy1, hy1map⟩ := inc_select_loop_spec z s hf (List.range s.nvars) (hpos z hzlen)
    have hsame : y1 = y := by
      apply List.map_injective_iff.mpr (Option.some_injective α)
      show y1.map some = y.map some
      rw [hy1map, hymap]
      apply List.map_congr_left
      intro i hi
      have hi1 : i < s.nvars := List.mem_range.mp hi
      have hi2 : i < s.included_positions_.length := by rw [← hn]; exact hi1
      have hI : s.included_positions_[i]? = some s.included_positions_[i] :=
        List.getElem?_eq_getElem hi2
      have h1 := getElem?_of_map_some_eq y s.nvars _ hymap i hi1
      have h2 := hzhit i _ hI
      simp only [hI, Option.some_bind] at h1 ⊢
      rw [h2, h1]
    refine ⟨y, z, ?_, hz, ?_⟩
    · unfold Selector.select inc_select
      simp only [hx, hfull, ne_eq, not_true_eq_false, if_false]
      exact hy
    · unfold Selector.select inc_select
      simp only [hzlen, hfull, ne_eq, not_true_eq_false, if_false]
      rw [hy1, hsame]

theorem select_expand_select_witness :
    BuiltByConstructor (Selector_bools [true, false, true, true, false]) ∧
    [(1 : Int), 2, 3, 4, 5].length
      = (Selector_bools [true, false, true, true, false]).nvars_possible ∧
    (∃ y z, (Selector_bools [true, false, true, true, false]).select [(1 : Int), 2, 3, 4, 5]
        = .ok y ∧
      (Selector_bools [true, false, true, true, false]).expand y = .ok z ∧
      (Selector_bools [true, false, true, true, false]).select z = .ok y) :=
  ⟨Or.inr (Or.inr (Or.inl ⟨[true, false, true, true, false], rfl⟩)), rfl,
    select_expand_select (Selector_bools [true, false, true, true, false])
      (Or.inr (Or.inr (Or.inl ⟨[true, false, true, true, false], rfl⟩)))
      [(1 : Int), 2, 3, 4, 5] rfl⟩

/-! ## `complement` -/

/-- The loop of `complement` over distinct in-range positions, started on a
consistent selector: it returns a consistent selector whose mask is negated at
exactly the positions visited. -/
theorem Selector.complement_loop_spec (n : Nat) (l : List Nat) :
    ∀ ans : Selector, l.Nodup → (∀ i ∈ l, i < n) → ans.Consistent → ans.mask.length = n →
      ∃ t, Selector.complement_loop l ans = .ok t ∧ t.Consistent ∧ t.mask.length = n ∧
        ∀ p, t.mask[p]? = if p ∈ l then (ans.mask[p]?).map not else ans.mask[p]? := by
  induction l with
  | nil =>
    intro ans _ _ hc hlen
    exact ⟨ans, rfl, hc, hlen, fun p => by simp⟩
  | cons i rest ih =>
    intro ans hnd hl hc hlen
    have hi : i < ans.mask.length := by rw [hlen]; exact hl i (List.mem_cons_self _ _)
    have hnd1 := List.nodup_cons.mp hnd
    obtain ⟨t1, ht1, hc1, hm1⟩ := Selector.flip_spec ans i hc hi
    have hlen1 : t1.mask.length = n := by rw [hm1, List.length_set, hlen]
    obtain ⟨t, ht, hct, hlent, hmt⟩ := ih t1 hnd1.2
      (fun j hj => hl j (List.mem_cons_of_mem _ hj)) hc1 hlen1
    refine ⟨t, ?_, hct, hlent, ?_⟩
    · simp only [Selector.complement_loop, ht1]
      exact ht
    · intro p
      rw [hmt p, hm1]
      by_cases hp : p = i
      · subst hp
        simp only [hnd1.1, if_false, List.mem_cons_self, if_true]
        rw [List.getElem?_set_self hi, List.getD_eq_getElem _ _ hi, List.getElem?_eq_getElem hi]
        rfl
      · have hne : i ≠ p := fun h => hp h.symm
        simp only [List.mem_cons, hp, false_or]
        rw [List.getElem?_set_ne hne]

theorem Selector.complement_spec (s : Selector) (hs : s.Consistent) :
    ∃ c, s.complement = .ok c ∧ c.Consistent ∧ c.mask = s.mask.map not := by
  obtain ⟨c, hc, hcc, _, hcm⟩ := Selector.complement_loop_spec s.mask.length
    (List.range s.nvars_possible) s (List.nodup_range _)
    (fun i hi => List.mem_range.mp hi) hs rfl
  refine ⟨c, hc, hcc, ?_⟩
  apply List.ext_getElem?
  intro p
  rw [hcm p, List.getElem?_map]
  by_cases hp : p < s.mask.length
  · have hin : p ∈ List.range s.nvars_possible := List.mem_range.mpr hp
    rw [if_pos hin]
  · have hnone : s.mask[p]? = none := List.getElem?_eq_none (Nat.le_of_not_lt hp)
    have hout : p ∉ List.range s.nvars_possible := fun h => hp (List.mem_range.mp h)
    rw [if_neg hout, hnone]
    rfl

/-- C8: for every Selector s built by a constructor, complement() returns a
Selector c that includes position i exactly when s excludes it, and
c.complement() returns a Selector equal to s under operator==. -/
theorem complement_complement (s : Selector) (hb : BuiltByConstructor s) :
    ∃ c cc, s.complement = .ok c ∧
      c.mask = s.mask.map not ∧
      (∀ i b, s.inc i = .ok b → c.inc i = .ok (!b)) ∧
      c.complement = .ok cc ∧ cc.eq s = true := by
  have hs := BuiltByConstructor.consistent s hb
  obtain ⟨c, hc, hcc, hcm⟩ := Selector.complement_spec s hs
  obtain ⟨cc, hcc1, _, hccm⟩ := Selector.complement_spec c hcc
  refine ⟨c, cc, hc, hcm, ?_, hcc1, ?_⟩
  · intro i b hi
    unfold Selector.inc at hi ⊢
    rw [hcm, List.getElem?_map]
    cases hm : s.mask[i]? with
    | none => rw [hm] at hi; cases hi
    | some b1 =>
      rw [hm] at hi
      injection hi with hi
      subst hi
      rfl
  · unfold Selector.eq
    rw [hccm, hcm, List.map_map]
    have hid : (not ∘ not) = (id : Bool → Bool) := by
      funext b
      cases b <;> rfl
    rw [hid, List.map_id]
    exact decide_eq_true rfl

theorem complement_complement_witness :
    BuiltByConstructor (Selector_size 3 true) ∧
    (∃ c cc, (Selector_size 3 true).complement = .ok c ∧
      c.mask = (Selector_size 3 true).mask.map not ∧
      (∀ i b, (Selector_size 3 true).inc i = .ok b → c.inc i = .ok (!b)) ∧
      c.complement = .ok cc ∧ cc.eq (Selector_size 3 true) = true) :=
  ⟨Or.inl ⟨3, true, rfl⟩, complement_complement (Selector_size 3 true) (Or.inl ⟨3, true, rfl⟩)⟩

/-! ## The string constructor -/

theorem to_vector_bool_loop_ok (cs : List Char) (h : ∀ c ∈ cs, c = '0' ∨ c = '1') :
    to_vector_bool_loop cs = .ok (cs.map (fun c => decide (c = '1'))) := by
  induction cs with
  | nil => rfl
  | cons c rest ih =>
    have hrest := ih (fun d hd => h d (List.mem_cons_of_mem _ hd))
    rcases h c (List.mem_cons_self _ _) with hc | hc
    · subst hc
      simp only [to_vector_bool_loop, hrest]
      rfl
    · subst hc
      simp only [to_vector_bool_loop, hrest]
      rfl

theorem to_vector_bool_loop_error (cs : List Char) (h : ∃ c ∈ cs, c ≠ '0' ∧ c ≠ '1') :
    ∃ msg, to_vector_bool_loop cs = .error (.reported msg) := by
  induction cs with
  | nil =>
    obtain ⟨c, hc, _⟩ := h
    cases hc
  | cons c rest ih =>
    by_cases h1 : c = '1'
    · have hrest : ∃ d ∈ rest, d ≠ '0' ∧ d ≠ '1' := by
        obtain ⟨d, hd, hd0, hd1⟩ := h
        rcases List.mem_cons.mp hd with rfl | hd
        · exact absurd h1 hd1
        · exact ⟨d, hd, hd0, hd1⟩
      obtain ⟨msg, hmsg⟩ := ih hrest
      exact ⟨msg, by simp only [to_vector_bool_loop, h1, if_true, hmsg]⟩
    · by_cases h0 : c = '0'
      · have hrest : ∃ d ∈ rest, d ≠ '0' ∧ d ≠ '1' := by
          obtain ⟨d, hd, hd0, hd1⟩ := h
          rcases List.mem_cons.mp hd with rfl | hd
          · exact absurd h0 hd0
          · exact ⟨d, hd, hd0, hd1⟩
        obtain ⟨msg, hmsg⟩ := ih hrest
        exact ⟨msg, by simp only [to_vector_bool_loop, h0, hmsg, if_true, ite_self]⟩
      · exact ⟨_, by simp only [to_vector_bool_loop, h1, h0, if_false]; rfl⟩

theorem Selector_string_mask (str : String) (m : List Bool) (h : to_vector_bool str = .ok m) :
    ∃ s, Selector_string str = .ok s ∧ s.mask = m := by
  unfold Selector_string
  rw [h]
  simp only
  split
  · exact ⟨_, rfl, rfl⟩
  · exact ⟨_, rfl, rfl⟩

/-- C14: constructing a Selector from a string reports an error if and only if
the string contains a character other than 0 and 1; when it does not, the
constructor returns a Selector with nvars_possible() == s.size() and
inc(i) == (s[i] == 1) for every i. -/
theorem Selector_string_error_iff (str : String) :
    ((∃ msg, Selector_string str = .error (.reported msg)) ↔
      ∃ c ∈ str.toList, c ≠ '0' ∧ c ≠ '1') ∧
    ((∀ c ∈ str.toList, c = '0' ∨ c = '1') →
      ∃ s, Selector_string str = .ok s ∧ s.nvars_possible = str.length ∧
        ∀ i (hi : i < str.toList.length), s.inc i = .ok (decide (str.toList[i] = '1'))) := by
  have hok : (∀ c ∈ str.toList, c = '0' ∨ c = '1') →
      ∃ s, Selector_string str = .ok s ∧ s.nvars_possible = str.length ∧
        ∀ i (hi : i < str.toList.length), s.inc i = .ok (decide (str.toList[i] = '1')) := by
    intro hall
    have hm : to_vector_bool str = .ok (str.toList.map (fun c => decide (c = '1'))) :=
      to_vector_bool_loop_ok str.toList hall
    obtain ⟨s, hs, hmask⟩ := Selector_string_mask str _ hm
    refine ⟨s, hs, ?_, ?_⟩
    · unfold Selector.nvars_possible
      rw [hmask, List.length_map]
      rfl
    · intro i hi
      unfold Selector.inc
      rw [hmask, List.getElem?_map, List.getElem?_eq_getElem hi]
      rfl
  refine ⟨⟨?_, ?_⟩, hok⟩
  · rintro ⟨msg, hmsg⟩
    by_contra hnone
    have hall : ∀ c ∈ str.toList, c = '0' ∨ c = '1' := by
      intro c hc
      by_contra hcc
      exact hnone ⟨c, hc, fun h => hcc (Or.inl h), fun h => hcc (Or.inr h)⟩
    obtain ⟨s, hs, _⟩ := hok hall
    rw [hs] at hmsg
    cases hmsg
  · intro hbad
    obtain ⟨msg, hmsg⟩ := to_vector_bool_loop_error str.toList hbad
    refine ⟨msg, ?_⟩
    unfold Selector_string to_vector_bool
    rw [hmsg]

theorem Selector_string_error_iff_witness :
    (∀ c ∈ "10110".toList, c = '0' ∨ c = '1') ∧
    (∃ s, Selector_string "10110" = .ok s ∧ s.nvars_possible = "10110".length ∧
      ∀ i (hi : i < "10110".toList.length),
        s.inc i = .ok (decide ("10110".toList[i] = '1'))) ∧
    (∃ c ∈ "1x0".toList, c ≠ '0' ∧ c ≠ '1') ∧
    (∃ msg, Selector_string "1x0" = .error (.reported msg)) :=
  ⟨by decide, (Selector_string_error_iff "10110").2 (by decide), by decide,
    (Selector_string_error_iff "1x0").1.mpr (by decide)⟩

/-! ## Random positions, exclusive or and the sparse dot product at concrete inputs -/

theorem random_int_mt_ge (raw : Nat) (lo hi : Int) (h : lo ≤ hi) :
    lo ≤ random_int_mt raw lo hi ∧ random_int_mt raw lo hi ≤ hi := by
  unfold random_int_mt
  have hpos : 0 < hi - lo + 1 := by omega
  have h1 := Int.emod_nonneg (raw : Int) (Int.ne_of_gt hpos)
  have h2 := Int.emod_lt_of_pos (raw : Int) hpos
  omega

/-- The rejection loop draws from 1, ..., N - 1 and so never returns
position 0. -/
theorem Selector.rejection_loop_ne_zero (s : Selector) (N : Int) (hN : 2 ≤ N)
    (raws : List Nat) : s.rejection_loop N raws ≠ some (.ok 0) := by
  induction raws with
  | nil => intro h; cases h
  | cons raw rest ih =>
    have hj := (random_int_mt_ge raw 1 (N - 1) (by omega)).1
    simp only [Selector.rejection_loop]
    cases hinc : s.inc (random_int_mt raw 1 (N - 1)).toNat with
    | error e => intro h; cases h
    | ok b =>
      cases b with
      | true => exact ih
      | false =>
        intro h
        injection h with h
        injection h with h
        omega

/-- C12 (fails on the code): the Selector built from the string 001 excludes
positions 0 and 1 and takes the rejection branch, which draws from 1, ..., N - 1
only: whatever the outcomes of the generator, position 0 is never returned
(an outcome that yields the draw 1 returns 1, one that yields 2 is rejected). -/
theorem random_excluded_position_never_zero :
    Selector_string "001" = .ok (Selector.mk [false, false, true] [2] false) ∧
    (Selector.mk [false, false, true] [2] false).Consistent ∧
    (Selector.mk [false, false, true] [2] false).inc 0 = .ok false ∧
    (Selector.mk [false, false, true] [2] false).random_excluded_position [0] = some (.ok 1) ∧
    (Selector.mk [false, false, true] [2] false).random_excluded_position [1] = none ∧
    ∀ raws : List Nat,
      (Selector.mk [false, false, true] [2] false).random_excluded_position raws
        ≠ some (.ok 0) := by
  refine ⟨rfl, by decide, rfl, rfl, rfl, ?_⟩
  intro raws
  have h := Selector.rejection_loop_ne_zero (Selector.mk [false, false, true] [2] false) 3
    (by decide) raws
  exact h

/-- C13 (fails on the code): exclusive_or of the Selectors built from the
strings 10 and 00 returns a Selector whose mask is (true, false), so inc is
right, but whose included_positions_ is empty: nvars() is 0 although one
position differs, and indx(0) reads past the end of the index list. -/
theorem exclusive_or_leaves_positions_empty :
    Selector_string "10" = .ok (Selector.mk [true, false] [0] false) ∧
    Selector_string "00" = .ok (Selector.mk [false, false] [] false) ∧
    (Selector.mk [true, false] [0] false).exclusive_or (Selector.mk [false, false] [] false)
      = .ok (Selector.mk [true, false] [] false) ∧
    (Selector.mk [true, false] [] false).inc 0 = .ok true ∧
    (Selector.mk [true, false] [] false).nvars = 0 ∧
    (Selector.mk [true, false] [] false).indx 0 = .error .out_of_range :=
  ⟨rfl, rfl, rfl, rfl, rfl, rfl⟩

/-- C15 (fails on the code): with the Selector built from the string 110
(nvars() == 2) and full = (1, 2, 3), a sparse vector of size 1 passes the size
test and the loop reads sparse[1] past its end, and a sparse vector of size 3
passes the size test and its last element is ignored; no error is reported in
either case. -/
theorem sparse_dot_product_size_test_too_weak :
    Selector_string "110" = .ok (Selector.mk [true, true, false] [0, 1] false) ∧
    (Selector.mk [true, true, false] [0, 1] false).nvars = 2 ∧
    (Selector.mk [true, true, false] [0, 1] false).sparse_dot_product [(1 : Int), 2, 3] [5]
      = .error .out_of_range ∧
    (Selector.mk [true, true, false] [0, 1] false).sparse_dot_product [(1 : Int), 2, 3] [5, 6, 7]
      = .ok 17 ∧
    (Selector.mk [true, true, false] [0, 1] false).sparse_dot_product [(1 : Int), 2, 3] [5, 6]
      = .ok 17 :=
  ⟨rfl, rfl, rfl, rfl, rfl⟩

/-! ## The column-major index map and the windows of `SubMatrix` -/

theorem colmajor_lt (nr nc i j : Nat) (hi : i < nr) (hj : j < nc) : j * nr + i < nr * nc := by
  have h1 : (j + 1) * nr ≤ nc * nr := Nat.mul_le_mul_right nr hj
  have h2 : (j + 1) * nr = j * nr + nr := by rw [Nat.add_mul, Nat.one_mul]
  have h3 : nc * nr = nr * nc := Nat.mul_comm nc nr
  omega

theorem colmajor_inj (nr i j i2 j2 : Nat) (hi : i < nr) (hi2 : i2 < nr)
    (h : j * nr + i = j2 * nr + i2) : i = i2 ∧ j = j2 := by
  have hpos : 0 < nr := by omega
  have hm : (j * nr + i) % nr = (j2 * nr + i2) % nr := by rw [h]
  rw [Nat.mul_add_mod_of_lt hi, Nat.mul_add_mod_of_lt hi2] at hm
  subst hm
  have hd : j * nr = j2 * nr := by omega
  exact ⟨rfl, Nat.eq_of_mul_eq_mul_right hpos hd⟩

/-- C17: for every Matrix shape (nr, nc) whose product fits the unsigned index
type, INDX(i, j) = j*nr + i sends each in-range pair to an offset below nr*nc,
is injective on in-range pairs, and reaches every offset below nr*nc. -/
theorem Matrix_INDX_bijective {α : Type} (m : Matrix α)
    (hfit : m.nr_ * m.nc_ < 4294967296) :
    (∀ i j, m.inrange i j = true → m.INDX i j = j * m.nr_ + i ∧ m.INDX i j < m.nr_ * m.nc_) ∧
    (∀ i j i2 j2, m.inrange i j = true → m.inrange i2 j2 = true →
      m.INDX i j = m.INDX i2 j2 → i = i2 ∧ j = j2) ∧
    (∀ k, k < m.nr_ * m.nc_ → ∃ i j, m.inrange i j = true ∧ m.INDX i j = k) := by
  have hval : ∀ i j, m.inrange i j = true →
      m.INDX i j = j * m.nr_ + i ∧ m.INDX i j < m.nr_ * m.nc_ := by
    intro i j hin
    simp only [Matrix.inrange, Bool.and_eq_true, decide_eq_true_eq] at hin
    have hlt := colmajor_lt m.nr_ m.nc_ i j hin.1 hin.2
    have he : m.INDX i j = j * m.nr_ + i := by
      unfold Matrix.INDX
      exact Nat.mod_eq_of_lt (by omega)
    exact ⟨he, by rw [he]; exact hlt⟩
  refine ⟨hval, ?_, ?_⟩
  · intro i j i2 j2 h1 h2 he
    rw [(hval i j h1).1, (hval i2 j2 h2).1] at he
    simp only [Matrix.inrange, Bool.and_eq_true, decide_eq_true_eq] at h1 h2
    exact colmajor_inj m.nr_ i j i2 j2 h1.1 h2.1 he
  · intro k hk
    have hpos : 0 < m.nr_ := by
      rcases Nat.eq_zero_or_pos m.nr_ with h0 | h0
      · rw [h0, Nat.zero_mul] at hk; cases hk
      · exact h0
    have hi : k % m.nr_ < m.nr_ := Nat.mod_lt _ hpos
    have hj : k / m.nr_ < m.nc_ := Nat.div_lt_of_lt_mul hk
    have hin : m.inrange (k % m.nr_) (k / m.nr_) = true := by
      simp [Matrix.inrange, hi, hj]
    refine ⟨k % m.nr_, k / m.nr_, hin, ?_⟩
    rw [(hval _ _ hin).1, Nat.mul_comm]
    exact Nat.div_add_mod k m.nr_

theorem Matrix_INDX_bijective_witness :
    (Matrix.mk [(1 : Int), 2, 3, 4, 5, 6] 2 3).nr_ * (Matrix.mk [(1 : Int), 2, 3, 4, 5, 6] 2 3).nc_
      < 4294967296 ∧
    ((∀ i j, (Matrix.mk [(1 : Int), 2, 3, 4, 5, 6] 2 3).inrange i j = true →
        (Matrix.mk [(1 : Int), 2, 3, 4, 5, 6] 2 3).INDX i j = j * 2 + i ∧
        (Matrix.mk [(1 : Int), 2, 3, 4, 5, 6] 2 3).INDX i j < 2 * 3) ∧
     (∀ i j i2 j2, (Matrix.mk [(1 : Int), 2, 3, 4, 5, 6] 2 3).inrange i j = true →
        (Matrix.mk [(1 : Int), 2, 3, 4, 5, 6] 2 3).inrange i2 j2 = true →
        (Matrix.mk [(1 : Int), 2, 3, 4, 5, 6] 2 3).INDX i j
          = (Matrix.mk [(1 : Int), 2, 3, 4, 5, 6] 2 3).INDX i2 j2 → i = i2 ∧ j = j2) ∧
     (∀ k, k < 2 * 3 → ∃ i j, (Matrix.mk [(1 : Int), 2, 3, 4, 5, 6] 2 3).inrange i j = true ∧
        (Matrix.mk [(1 : Int), 2, 3, 4, 5, 6] 2 3).INDX i j = k)) :=
  ⟨by decide, Matrix_INDX_bijective (Matrix.mk [(1 : Int), 2, 3, 4, 5, 6] 2 3) (by decide)⟩

theorem uint_span (lo hi bound : Nat) (h : lo ≤ hi) (hb : hi < bound) (hu : bound < 4294967296) :
    (hi + 4294967296 - lo + 1) % 4294967296 = hi - lo + 1 := by
  omega

/-- The address computed by `cols(j)[i]` in a window that starts `rlo` rows and
`clo` columns into a column-major layout with `stride` cells per column. -/
theorem window_offset (stride width clo j : Nat) (hj : clo + j < width)
    (hfit : width * stride < 4294967296) :
    (clo * stride) % 4294967296 + (j * stride) % 4294967296
      = ((clo + j) * stride) % 4294967296 ∧
    ((clo + j) * stride) % 4294967296 = (clo + j) * stride := by
  have h1 : (clo + j) * stride ≤ width * stride := Nat.mul_le_mul_right stride (Nat.le_of_lt hj)
  have h2 : (clo + j) * stride = clo * stride + j * stride := Nat.add_mul clo j stride
  have h3 : (clo + j) * stride < 4294967296 := by omega
  have h4 : clo * stride < 4294967296 := by omega
  have h5 : j * stride < 4294967296 := by omega
  rw [Nat.mod_eq_of_lt h3, Nat.mod_eq_of_lt h4, Nat.mod_eq_of_lt h5]
  exact ⟨h2.symm, rfl⟩

/-- C16: the SubMatrix and the ConstSubMatrix built from (m, rlo, rhi, clo, chi)
with rlo <= rhi < m.nrow() and clo <= chi < m.ncol() have nrow() == rhi-rlo+1,
ncol() == chi-clo+1, stride m.nrow(), and their element (i, j) is the storage
cell INDX(rlo+i, clo+j) of m; a SubMatrix built from a parent SubMatrix p keeps
the stride of p and its element (i, j) is the element (plo+i, qlo+j) of p. -/
theorem SubMatrix_window_cells {α : Type} (m : Matrix α) (rlo rhi clo chi : Nat)
    (p : SubMatrix) (plo phi qlo qhi : Nat)
    (hfit : m.nr_ * m.nc_ < 4294967296)
    (hr : rlo ≤ rhi) (hrh : rhi < m.nrow) (hc : clo ≤ chi) (hch : chi < m.ncol)
    (hpr : p.nr_ < 4294967296) (hpc : p.nc_ < 4294967296)
    (hpfit : p.nc_ * p.stride < 4294967296)
    (hp : plo ≤ phi) (hph : phi < p.nrow) (hq : qlo ≤ qhi) (hqh : qhi < p.ncol) :
    ((SubMatrix_of_Matrix m rlo rhi clo chi).nrow = rhi - rlo + 1 ∧
      (SubMatrix_of_Matrix m rlo rhi clo chi).ncol = chi - clo + 1 ∧
      (SubMatrix_of_Matrix m rlo rhi clo chi).stride = m.nrow ∧
      ∀ i j, i < rhi - rlo + 1 → j < chi - clo + 1 →
        (SubMatrix_of_Matrix m rlo rhi clo chi).cell i j = .ok (m.INDX (rlo + i) (clo + j))) ∧
    ((ConstSubMatrix_of_Matrix m rlo rhi clo chi).nrow = rhi - rlo + 1 ∧
      (ConstSubMatrix_of_Matrix m rlo rhi clo chi).ncol = chi - clo + 1 ∧
      (ConstSubMatrix_of_Matrix m rlo rhi clo chi).stride = m.nrow ∧
      ∀ i j, i < rhi - rlo + 1 → j < chi - clo + 1 →
        (ConstSubMatrix_of_Matrix m rlo rhi clo chi).cell i j
          = .ok (m.INDX (rlo + i) (clo + j))) ∧
    ((SubMatrix_of_SubMatrix p plo phi qlo qhi).nrow = phi - plo + 1 ∧
      (SubMatrix_of_SubMatrix p plo phi qlo qhi).ncol = qhi - qlo + 1 ∧
      (SubMatrix_of_SubMatrix p plo phi qlo qhi).stride = p.stride ∧
      ∀ i j, i < phi - plo + 1 → j < qhi - qlo + 1 →
        (SubMatrix_of_SubMatrix p plo phi qlo qhi).cell i j = p.cell (plo + i) (qlo + j)) := by
  have hrh1 : rhi < m.nr_ := hrh
  have hch1 : chi < m.nc_ := hch
  have hph1 : phi < p.nr_ := hph
  have hqh1 : qhi < p.nc_ := hqh
  have hnr : m.nr_ < 4294967296 := by
    have : m.nr_ * 1 ≤ m.nr_ * m.nc_ := Nat.mul_le_mul_left _ (by omega)
    omega
  have hnc : m.nc_ < 4294967296 := by
    have : 1 * m.nc_ ≤ m.nr_ * m.nc_ := Nat.mul_le_mul_right _ (by omega)
    omega
  have hfit1 : m.nc_ * m.nr_ < 4294967296 := by rw [Nat.mul_comm]; exact hfit
  have hrows := uint_span rlo rhi m.nr_ hr hrh1 hnr
  have hcols := uint_span clo chi m.nc_ hc hch1 hnc
  have hprows := uint_span plo phi p.nr_ hp hph1 hpr
  have hpcols := uint_span qlo qhi p.nc_ hq hqh1 hpc
  have hcell : ∀ i j, i < rhi - rlo + 1 → j < chi - clo + 1 →
      m.INDX (rlo + i) (clo + j) = (clo + j) * m.nr_ + (rlo + i) := by
    intro i j hi hj
    have hin : m.inrange (rlo + i) (clo + j) = true := by
      simp only [Matrix.inrange, Bool.and_eq_true, decide_eq_true_eq]
      omega
    have hlt := colmajor_lt m.nr_ m.nc_ (rlo + i) (clo + j) (by omega) (by omega)
    unfold Matrix.INDX
    exact Nat.mod_eq_of_lt (by omega)
  refine ⟨⟨hrows, hcols, rfl, ?_⟩, ⟨hrows, hcols, rfl, ?_⟩, ⟨hprows, hpcols, rfl, ?_⟩⟩
  · intro i j hi hj
    obtain ⟨h1, h2⟩ := window_offset m.nr_ m.nc_ clo j (by omega) hfit1
    simp only [SubMatrix.cell, SubMatrix.cols, SubMatrix_of_Matrix, Matrix.nrow, hrows, hcols,
      hi, hj, and_self, if_true, hcell i j hi hj]
    congr 1
    omega
  · intro i j hi hj
    obtain ⟨h1, h2⟩ := window_offset m.nr_ m.nc_ clo j (by omega) hfit1
    simp only [ConstSubMatrix.cell, ConstSubMatrix.cols, ConstSubMatrix_of_Matrix, Matrix.nrow,
      hrows, hcols, hi, hj, and_self, if_true, hcell i j hi hj]
    congr 1
    omega
  · intro i j hi hj
    obtain ⟨h1, h2⟩ := window_offset p.stride p.nc_ qlo j (by omega) hpfit
    have hin : plo + i < p.nr_ ∧ qlo + j < p.nc_ := by omega
    simp only [SubMatrix.cell, SubMatrix.cols, SubMatrix_of_SubMatrix, hprows, hpcols,
      hi, hj, and_self, if_true, hin]
    congr 1
    omega

theorem SubMatrix_window_cells_witness :
    (Matrix.mk [(0 : Int), 1, 2, 3, 4, 5, 6, 7, 8, 9, 10, 11] 3 4).nr_ *
      (Matrix.mk [(0 : Int), 1, 2, 3, 4, 5, 6, 7, 8, 9, 10, 11] 3 4).nc_ < 4294967296 ∧
    (SubMatrix_of_Matrix (Matrix.mk [(0 : Int), 1, 2, 3, 4, 5, 6, 7, 8, 9, 10, 11] 3 4)
      1 2 1 3).cell 1 2 = .ok 11 ∧
    (ConstSubMatrix_of_Matrix (Matrix.mk [(0 : Int), 1, 2, 3, 4, 5, 6, 7, 8, 9, 10, 11] 3 4)
      1 2 1 3).cell 0 1 = .ok 7 ∧
    (SubMatrix_of_SubMatrix (SubMatrix.mk 3 3 3 3) 1 2 1 2).cell 1 1
      = (SubMatrix.mk 3 3 3 3).cell 2 2 :=
  ⟨by decide,
    (SubMatrix_window_cells (Matrix.mk [(0 : Int), 1, 2, 3, 4, 5, 6, 7, 8, 9, 10, 11] 3 4)
      1 2 1 3 (SubMatrix.mk 3 3 3 3) 1 2 1 2 (by decide) (by decide) (by decide) (by decide)
      (by decide) (by decide) (by decide) (by decide) (by decide) (by decide) (by decide)
      (by decide)).1.2.2.2 1 2 (by decide) (by decide),
    (SubMatrix_window_cells (Matrix.mk [(0 : Int), 1, 2, 3, 4, 5, 6, 7, 8, 9, 10, 11] 3 4)
      1 2 1 3 (SubMatrix.mk 3 3 3 3) 1 2 1 2 (by decide) (by decide) (by decide) (by decide)
      (by decide) (by decide) (by decide) (by decide) (by decide) (by decide) (by decide)
      (by decide)).2.1.2.2.2 0 1 (by decide) (by decide),
    (SubMatrix_window_cells (Matrix.mk [(0 : Int), 1, 2, 3, 4, 5, 6, 7, 8, 9, 10, 11] 3 4)
      1 2 1 3 (SubMatrix.mk 3 3 3 3) 1 2 1 2 (by decide) (by decide) (by decide) (by decide)
      (by decide) (by decide) (by decide) (by decide) (by decide) (by decide) (by decide)
      (by decide)).2.2.2.2.2 1 1 (by decide) (by decide)⟩

/-! ## The sampler `TIM` -/

theorem TIM.check_proposal_flags {α : Type} [Zero α] [One α] (t : TIM α) (dim : Nat) :
    (t.check_proposal dim).mode_has_been_found_ = t.mode_has_been_found_ ∧
    (t.check_proposal dim).mode_is_fixed_ = t.mode_is_fixed_ ∧
    (t.check_proposal dim).prop_.isSome = true := by
  unfold TIM.check_proposal
  cases h : t.prop_ with
  | none => exact ⟨rfl, rfl, rfl⟩
  | some p => exact ⟨rfl, rfl, by rw [h]; rfl⟩

theorem TIM.check_proposal_of_some {α : Type} [Zero α] [One α] (t : TIM α) (dim : Nat)
    (h : t.prop_.isSome = true) : t.check_proposal dim = t := by
  unfold TIM.check_proposal
  cases hp : t.prop_ with
  | none => rw [hp] at h; cases h
  | some p => rfl

/-- A mode search that fails clears `mode_has_been_found_` and leaves the
proposal and `mode_is_fixed_` alone. -/
theorem TIM.locate_mode_failed {α : Type} [Ring α] (env : TIMEnv α) (t : TIM α) (old : List α)
    (h : (env.max_nd2_careful old).ok = false) :
    (t.locate_mode env old).2 = false ∧
    (t.locate_mode env old).1.mode_has_been_found_ = false ∧
    (t.locate_mode env old).1.mode_is_fixed_ = t.mode_is_fixed_ ∧
    (t.locate_mode env old).1.prop_ = t.prop_ := by
  simp [TIM.locate_mode, h]

/-- A mode search that succeeds sets `mode_has_been_found_` and installs the
located mode and the negated Hessian in the proposal. -/
theorem TIM.locate_mode_succeeded {α : Type} [Ring α] (env : TIMEnv α) (t : TIM α)
    (old : List α) (h : (env.max_nd2_careful old).ok = true) :
    (t.locate_mode env old).2 = true ∧
    (t.locate_mode env old).1.mode_has_been_found_ = true ∧
    (t.locate_mode env old).1.mode_is_fixed_ = t.mode_is_fixed_ ∧
    ∃ p, (t.locate_mode env old).1.prop_ = some p ∧
      p.mu = (env.max_nd2_careful old).cand ∧
      p.ivar = (env.max_nd2_careful old).H.scale (-1) := by
  obtain ⟨prop, nu, cand, g, H, fixed, found⟩ := t
  cases prop with
  | none =>
    have e : TIM.locate_mode env ⟨none, nu, cand, g, H, fixed, found⟩ old
        = (⟨some ⟨(env.max_nd2_careful old).cand, (env.max_nd2_careful old).H.scale (-1), nu⟩,
            nu, (env.max_nd2_careful old).cand, (env.max_nd2_careful old).g,
            (env.max_nd2_careful old).H.scale (-1), fixed, true⟩, true) := by
      simp only [TIM.locate_mode, h]
      rfl
    rw [e]
    exact ⟨rfl, rfl, rfl, _, rfl, rfl, rfl⟩
  | some p =>
    have e : TIM.locate_mode env ⟨some p, nu, cand, g, H, fixed, found⟩ old
        = (⟨some ⟨(env.max_nd2_careful old).cand, (env.max_nd2_careful old).H.scale (-1),
              p.nu⟩,
            nu, (env.max_nd2_careful old).cand, (env.max_nd2_careful old).g,
            (env.max_nd2_careful old).H.scale (-1), fixed, true⟩, true) := by
      simp only [TIM.locate_mode, h]
      rfl
    rw [e]
    exact ⟨rfl, rfl, rfl, _, rfl, rfl, rfl⟩

/-- A draw made while the mode is found and fixed makes the
Metropolis-Hastings step with the proposal as it stands and no mode search. -/
theorem TIM.draw_pinned {α : Type} [Ring α] (env : TIMEnv α) (t : TIM α) (old : List α)
    (hfound : t.mode_has_been_found_ = true) (hfixed : t.mode_is_fixed_ = true) :
    (t.draw env old).calls.any TIMCall.is_search = false ∧
    (t.draw env old).tim = t.check_proposal old.length ∧
    ∃ v, (t.draw env old).result = .ok v := by
  obtain ⟨hf1, hf2, hsome⟩ := TIM.check_proposal_flags t old.length
  unfold TIM.draw
  simp only [hf1, hf2, hfound, hfixed, Bool.not_true, Bool.or_self, Bool.false_eq_true,
    if_false]
  cases hp : (t.check_proposal old.length).prop_ with
  | none => rw [hp] at hsome; cases hsome
  | some p => exact ⟨rfl, rfl, _, rfl⟩

/-- A draw made while the mode is not found or not fixed runs the mode search;
when the search fails the draw reports an error after the search alone, and
when it succeeds the Metropolis-Hastings step is made with the proposal that
the search installed. -/
theorem TIM.draw_unpinned {α : Type} [Ring α] (env : TIMEnv α) (t : TIM α) (old : List α)
    (h : t.mode_has_been_found_ = false ∨ t.mode_is_fixed_ = false) :
    ((env.max_nd2_careful old).ok = false →
      (∃ msg, (t.draw env old).result = .error (.reported msg)) ∧
      (t.draw env old).calls = [.max_nd2_careful old] ∧
      (t.draw env old).tim.mode_has_been_found_ = false ∧
      (t.draw env old).tim.mode_is_fixed_ = t.mode_is_fixed_) ∧
    ((env.max_nd2_careful old).ok = true →
      ∃ p, (t.draw env old).tim.prop_ = some p ∧
        p.mu = (env.max_nd2_careful old).cand ∧
        p.ivar = (env.max_nd2_careful old).H.scale (-1) ∧
        (t.draw env old).calls = [.max_nd2_careful old, .mh_draw p old] ∧
        (t.draw env old).result = .ok (env.mh_draw p old) ∧
        (t.draw env old).tim.mode_has_been_found_ = true ∧
        (t.draw env old).tim.mode_is_fixed_ = t.mode_is_fixed_) := by
  obtain ⟨hf1, hf2, _⟩ := TIM.check_proposal_flags t old.length
  have hcond : (!(t.check_proposal old.length).mode_has_been_found_ ||
      !(t.check_proposal old.length).mode_is_fixed_) = true := by
    rw [hf1, hf2]
    rcases h with h | h <;> simp [h]
  constructor
  · intro hfail
    obtain ⟨l1, l2, l3, _⟩ := TIM.locate_mode_failed env (t.check_proposal old.length) old hfail
    have e : t.draw env old
        = ⟨(((t.check_proposal old.length).locate_mode env old).1.report_failure env old).1,
            [.max_nd2_careful old],
            .error (((t.check_proposal old.length).locate_mode env old).1.report_failure
              env old).2⟩ := by
      unfold TIM.draw
      simp only [hcond, if_true, l1, Bool.not_false]
    rw [e]
    exact ⟨⟨_, rfl⟩, rfl, l2, l3.trans hf2⟩
  · intro hok
    obtain ⟨l1, l2, l3, p, l4, l5, l6⟩ :=
      TIM.locate_mode_succeeded env (t.check_proposal old.length) old hok
    refine ⟨p, ?_, l5, l6, ?_, ?_, ?_, ?_⟩ <;> unfold TIM.draw <;>
      simp only [hcond, if_true, l1, Bool.not_true, Bool.false_eq_true, if_false, l4]
    · exact l2
    · exact l3.trans hf2

/-- While the mode is found and fixed and the proposal exists, a sequence of
calls that neither unpins the mode nor fails a direct mode search runs to its
end, keeps that state, and none of its draws invokes the mode search. -/
theorem TIM.run_pinned {α : Type} [Ring α] (env : TIMEnv α) (es : List (TIMEvent α)) :
    ∀ t : TIM α, t.mode_has_been_found_ = true → t.mode_is_fixed_ = true →
      t.prop_.isSome = true → (∀ e ∈ es, e.keeps_mode env = true) →
      ∃ t1 flags, TIM.run env t es = .ok (t1, flags) ∧ (∀ f ∈ flags, f = false) ∧
        t1.mode_has_been_found_ = true ∧ t1.mode_is_fixed_ = true := by
  induction es with
  | nil =>
    intro t hfound hfixed _ _
    exact ⟨t, [], rfl, fun f hf => (by cases hf), hfound, hfixed⟩
  | cons e rest ih =>
    intro t hfound hfixed hsome hkeep
    have hrest : ∀ e1 ∈ rest, e1.keeps_mode env = true :=
      fun e1 h1 => hkeep e1 (List.mem_cons_of_mem _ h1)
    have he := hkeep e (List.mem_cons_self _ _)
    have hstep : ∃ t1 flag, t.step env e = .ok (t1, flag) ∧ (∀ f ∈ flag.toList, f = false) ∧
        t1.mode_has_been_found_ = true ∧ t1.mode_is_fixed_ = true ∧ t1.prop_.isSome = true := by
      cases e with
      | draw old =>
        obtain ⟨d1, d2, v, d3⟩ := TIM.draw_pinned env t old hfound hfixed
        rw [TIM.check_proposal_of_some t old.length hsome] at d2
        refine ⟨t, some false, ?_, ?_, hfound, hfixed, hsome⟩
        · simp only [TIM.step, d3, d1, d2]
        · intro f hf
          simpa using hf
      | fix_mode yn =>
        have hyn : yn = true := he
        subst hyn
        exact ⟨t.fix_mode true, none, rfl, fun f hf => (by cases hf), hfound, rfl, hsome⟩
      | set_mode mode_location precision =>
        cases hp : t.prop_ with
        | none => rw [hp] at hsome; cases hsome
        | some p =>
          refine ⟨{ t with prop_ := some { p with mu := mode_location, ivar := precision },
                           mode_has_been_found_ := true, mode_is_fixed_ := true },
            none, ?_, fun f hf => (by cases hf), rfl, rfl, rfl⟩
          simp only [TIM.step, TIM.set_mode, hp]
      | locate_mode old =>
        have hok : (env.max_nd2_careful old).ok = true := he
        obtain ⟨_, l2, l3, p, l4, _⟩ := TIM.locate_mode_succeeded env t old hok
        refine ⟨(t.locate_mode env old).1, none, rfl, fun f hf => (by cases hf), l2,
          l3.trans hfixed, ?_⟩
        rw [l4]
        rfl
    obtain ⟨t1, flag, hs, hflag, h1, h2, h3⟩ := hstep
    obtain ⟨t2, flags, hr, hflags, h4, h5⟩ := ih t1 h1 h2 h3 hrest
    refine ⟨t2, flag.toList ++ flags, ?_, ?_, h4, h5⟩
    · simp only [TIM.run, hs, hr]
    · intro f hf
      rcases List.mem_append.mp hf with hf | hf
      · exact hflag f hf
      · exact hflags f hf

/-- C18 (as amended): a call draw(old) invokes the mode search if and only if
the mode has not been found or is not fixed at the time of the call;
consequently, once mode_has_been_found_ and mode_is_fixed_ are both true (as
they are after set_mode, and after fix_mode(true) when the latest mode search
succeeded), no later draw invokes the mode search for as long as
fix_mode(false) is not called and no direct call of locate_mode fails. -/
theorem TIM_search_iff_unpinned {α : Type} [Ring α] (env : TIMEnv α) (t : TIM α)
    (old : List α) (es : List (TIMEvent α)) :
    ((t.draw env old).calls.any TIMCall.is_search = true ↔
      (t.mode_has_been_found_ = false ∨ t.mode_is_fixed_ = false)) ∧
    (t.mode_has_been_found_ = true → t.mode_is_fixed_ = true → t.prop_.isSome = true →
      (∀ e ∈ es, e.keeps_mode env = true) →
      ∃ t1 flags, TIM.run env t es = .ok (t1, flags) ∧ (∀ f ∈ flags, f = false) ∧
        t1.mode_has_been_found_ = true ∧ t1.mode_is_fixed_ = true) ∧
    (∀ mode_location precision t1, t.set_mode mode_location precision = .ok t1 →
      t1.mode_has_been_found_ = true ∧ t1.mode_is_fixed_ = true ∧ t1.prop_.isSome = true) ∧
    (t.mode_has_been_found_ = true →
      (t.fix_mode true).mode_has_been_found_ = true ∧ (t.fix_mode true).mode_is_fixed_ = true) ∧
    ((env.max_nd2_careful old).ok = true →
      (t.draw env old).tim.mode_has_been_found_ = true ∧
      (t.draw env old).tim.mode_is_fixed_ = t.mode_is_fixed_ ∧
      (t.draw env old).tim.prop_.isSome = true) := by
  refine ⟨⟨?_, ?_⟩, ?_, ?_, ?_, ?_⟩
  · intro hs
    by_contra hcon
    have hfound : t.mode_has_been_found_ = true := by
      cases hb : t.mode_has_been_found_ with
      | true => rfl
      | false => exact absurd (Or.inl hb) hcon
    have hfixed : t.mode_is_fixed_ = true := by
      cases hb : t.mode_is_fixed_ with
      | true => rfl
      | false => exact absurd (Or.inr hb) hcon
    rw [(TIM.draw_pinned env t old hfound hfixed).1] at hs
    cases hs
  · intro h
    obtain ⟨hfail, hok⟩ := TIM.draw_unpinned env t old h
    cases hr : (env.max_nd2_careful old).ok with
    | false =>
      rw [(hfail hr).2.1]
      rfl
    | true =>
      obtain ⟨p, _, _, _, hcalls, _⟩ := hok hr
      rw [hcalls]
      rfl
  · exact TIM.run_pinned env es t
  · intro mode_location precision t1 h1
    unfold TIM.set_mode at h1
    cases hp : t.prop_ with
    | none => rw [hp] at h1; cases h1
    | some p =>
      rw [hp] at h1
      injection h1 with h1
      subst h1
      exact ⟨rfl, rfl, rfl⟩
  · intro hfound
    exact ⟨hfound, rfl⟩
  · intro hok
    by_cases h : t.mode_has_been_found_ = false ∨ t.mode_is_fixed_ = false
    · obtain ⟨p, hp, _, _, _, _, hf, hx⟩ := (TIM.draw_unpinned env t old h).2 hok
      exact ⟨hf, hx, by rw [hp]; rfl⟩
    · have hfound : t.mode_has_been_found_ = true := by
        cases hb : t.mode_has_been_found_ with
        | true => rfl
        | false => exact absurd (Or.inl hb) h
      have hfixed : t.mode_is_fixed_ = true := by
        cases hb : t.mode_is_fixed_ with
        | true => rfl
        | false => exact absurd (Or.inr hb) h
      obtain ⟨_, d2, _⟩ := TIM.draw_pinned env t old hfound hfixed
      obtain ⟨c1, c2, c3⟩ := TIM.check_proposal_flags t old.length
      rw [d2]
      exact ⟨c1.trans hfound, c2, c3⟩

theorem TIM_search_iff_unpinned_witness :
    (TIM.mk (some ⟨[7], ⟨[2], 1, 1⟩, 3⟩) 3 [7] [0] ⟨[2], 1, 1⟩ true true :
      TIM Int).mode_has_been_found_ = true ∧
    (∀ e ∈ [TIMEvent.draw [1], TIMEvent.fix_mode true, TIMEvent.locate_mode [0],
        TIMEvent.set_mode [4] ⟨[1], 1, 1⟩, TIMEvent.draw [5]],
      e.keeps_mode TIM_test_env = true) ∧
    (∃ t1 flags, TIM.run TIM_test_env
        (TIM.mk (some ⟨[7], ⟨[2], 1, 1⟩, 3⟩) 3 [7] [0] ⟨[2], 1, 1⟩ true true)
        [TIMEvent.draw [1], TIMEvent.fix_mode true, TIMEvent.locate_mode [0],
          TIMEvent.set_mode [4] ⟨[1], 1, 1⟩, TIMEvent.draw [5]] = .ok (t1, flags) ∧
      (∀ f ∈ flags, f = false) ∧
      t1.mode_has_been_found_ = true ∧ t1.mode_is_fixed_ = true) ∧
    ((TIM_test_env.max_nd2_careful [0]).ok = true ∧
      ((TIM_new 3).draw TIM_test_env [0]).tim.mode_has_been_found_ = true) :=
  ⟨rfl, by decide,
    (TIM_search_iff_unpinned TIM_test_env
      (TIM.mk (some ⟨[7], ⟨[2], 1, 1⟩, 3⟩) 3 [7] [0] ⟨[2], 1, 1⟩ true true) [0]
      [TIMEvent.draw [1], TIMEvent.fix_mode true, TIMEvent.locate_mode [0],
        TIMEvent.set_mode [4] ⟨[1], 1, 1⟩, TIMEvent.draw [5]]).2.1 rfl rfl rfl (by decide),
    rfl,
    ((TIM_search_iff_unpinned TIM_test_env (TIM_new 3) [0] []).2.2.2.2 rfl).1⟩

/-- C18 (as stated) fails.  In the first run the search of the first draw
succeeds, the search of the second draw fails, fix_mode(true) is called, and
the third draw invokes the mode search again.  In the second run set_mode is
called, a direct call of locate_mode fails, and the next draw invokes the mode
search; fix_mode(false) is called in neither run. -/
theorem TIM_pinned_once_found_counterexample :
    (TIM_test_env.max_nd2_careful [0]).ok = true ∧
    (TIM_test_env.max_nd2_careful [1]).ok = false ∧
    (∃ t, TIM.run TIM_test_env (TIM_new 3)
      [TIMEvent.draw [0], TIMEvent.draw [1], TIMEvent.fix_mode true, TIMEvent.draw [0]]
        = .ok (t, [true, true, true])) ∧
    (∃ t, TIM.run TIM_test_env (TIM_new 3)
      [TIMEvent.draw [0], TIMEvent.set_mode [4] ⟨[1], 1, 1⟩, TIMEvent.locate_mode [1],
        TIMEvent.draw [0]] = .ok (t, [true, true])) :=
  ⟨rfl, rfl, ⟨_, rfl⟩, ⟨_, rfl⟩⟩

/-- C19: whenever draw(old) runs the mode search, the search is the first call
it makes and its outcome decides the step.  If the search fails, draw reports
an error, makes no Metropolis-Hastings step and leaves mode_has_been_found_
false.  If it succeeds, the Metropolis-Hastings step is made with a proposal
whose location is the located mode and whose precision is the Hessian with
every entry negated. -/
theorem TIM_draw_search_decides {α : Type} [Ring α] (env : TIMEnv α) (t : TIM α)
    (old : List α) (h : t.mode_has_been_found_ = false ∨ t.mode_is_fixed_ = false) :
    (t.draw env old).calls.head? = some (.max_nd2_careful old) ∧
    ((env.max_nd2_careful old).ok = false →
      (∃ msg, (t.draw env old).result = .error (.reported msg)) ∧
      (∀ c ∈ (t.draw env old).calls, c.is_search = true) ∧
      (t.draw env old).tim.mode_has_been_found_ = false) ∧
    ((env.max_nd2_careful old).ok = true →
      ∃ p, (t.draw env old).tim.prop_ = some p ∧
        p.mu = (env.max_nd2_careful old).cand ∧
        p.ivar.V = (env.max_nd2_careful old).H.V.map (fun x => -x) ∧
        p.ivar.nr_ = (env.max_nd2_careful old).H.nr_ ∧
        p.ivar.nc_ = (env.max_nd2_careful old).H.nc_ ∧
        (t.draw env old).calls = [.max_nd2_careful old, .mh_draw p old] ∧
        (t.draw env old).result = .ok (env.mh_draw p old)) := by
  obtain ⟨hfail, hok⟩ := TIM.draw_unpinned env t old h
  refine ⟨?_, ?_, ?_⟩
  · cases hr : (env.max_nd2_careful old).ok with
    | false =>
      rw [(hfail hr).2.1]
      rfl
    | true =>
      obtain ⟨p, _, _, _, hcalls, _⟩ := hok hr
      rw [hcalls]
      rfl
  · intro hr
    obtain ⟨hmsg, hcalls, hfound, _⟩ := hfail hr
    refine ⟨hmsg, ?_, hfound⟩
    intro c hc
    rw [hcalls] at hc
    rcases List.mem_singleton.mp hc with rfl
    rfl
  · intro hr
    obtain ⟨p, hp, hmu, hivar, hcalls, hres, _, _⟩ := hok hr
    refine ⟨p, hp, hmu, ?_, ?_, ?_, hcalls, hres⟩
    · rw [hivar]
      show (env.max_nd2_careful old).H.V.map (fun v => v * (-1)) = _
      apply List.map_congr_left
      intro x _
      exact mul_neg_one x
    · rw [hivar]; rfl
    · rw [hivar]; rfl

theorem TIM_draw_search_decides_witness :
    ((TIM_new 3 : TIM Int).mode_has_been_found_ = false ∨
      (TIM_new 3 : TIM Int).mode_is_fixed_ = false) ∧
    (TIM_test_env.max_nd2_careful [1]).ok = false ∧
    (∃ msg, ((TIM_new 3).draw TIM_test_env [1]).result = .error (.reported msg)) ∧
    (TIM_test_env.max_nd2_careful [0]).ok = true ∧
    (∃ p, ((TIM_new 3).draw TIM_test_env [0]).tim.prop_ = some p ∧
      p.mu = (TIM_test_env.max_nd2_careful [0]).cand ∧
      p.ivar.V = (TIM_test_env.max_nd2_careful [0]).H.V.map (fun x => -x) ∧
      p.ivar.nr_ = (TIM_test_env.max_nd2_careful [0]).H.nr_ ∧
      p.ivar.nc_ = (TIM_test_env.max_nd2_careful [0]).H.nc_ ∧
      ((TIM_new 3).draw TIM_test_env [0]).calls
        = [.max_nd2_careful [0], .mh_draw p [0]] ∧
      ((TIM_new 3).draw TIM_test_env [0]).result = .ok (TIM_test_env.mh_draw p [0])) :=
  ⟨Or.inl rfl, rfl,
    ((TIM_draw_search_decides TIM_test_env (TIM_new 3) [1] (Or.inl rfl)).2.1 rfl).1,
    rfl,
    (TIM_draw_search_decides TIM_test_env (TIM_new 3) [0] (Or.inl rfl)).2.2 rfl⟩

/-! ## Columns of a matrix, `select_cols` and `sparse_multiply` -/

theorem getElem?_window {α : Type} (V : List α) (a n r : Nat) :
    ((V.drop a).take n)[r]? = if r < n then (V[a + r]?) else none := by
  rw [List.getElem?_take, List.getElem?_drop]

theorem getElem?_splice {α : Type} (V cells : List α) (a k : Nat) (ha : a + cells.length ≤ V.length) :
    (V.take a ++ cells ++ V.drop (a + cells.length))[k]?
      = if a ≤ k ∧ k < a + cells.length then (cells[k - a]?) else (V[k]?) := by
  have hlen : (V.take a).length = a := by rw [List.length_take]; omega
  by_cases h1 : k < a
  · rw [List.append_assoc, List.getElem?_append_left (by rw [hlen]; exact h1),
      List.getElem?_take_of_lt h1, if_neg (by omega)]
  · by_cases h2 : k < a + cells.length
    · rw [List.append_assoc, List.getElem?_append_right (by rw [hlen]; omega), hlen,
        List.getElem?_append_left (by omega), if_pos (by omega)]
    · rw [List.getElem?_append_right (by rw [List.length_append, hlen]; omega),
        List.length_append, hlen, List.getElem?_drop, if_neg (by omega)]
      congr 1
      omega

theorem Matrix.INDX_col {α : Type} (m : Matrix α) (hm : m.WellFormed) (j : Nat)
    (hj : j < m.nc_) : m.INDX 0 j = j * m.nr_ ∧ j * m.nr_ + m.nr_ ≤ m.V.length := by
  have h1 : (j + 1) * m.nr_ ≤ m.nc_ * m.nr_ := Nat.mul_le_mul_right _ hj
  have h2 : (j + 1) * m.nr_ = j * m.nr_ + m.nr_ := by rw [Nat.add_mul, Nat.one_mul]
  have h3 : m.nc_ * m.nr_ = m.nr_ * m.nc_ := Nat.mul_comm _ _
  obtain ⟨hlen, hfit⟩ := hm
  refine ⟨?_, by omega⟩
  unfold Matrix.INDX
  rw [Nat.add_zero]
  exact Nat.mod_eq_of_lt (by omega)

/-- Column `j` of a well-formed matrix: the call returns `nrow()` cells, and
cell `r` is the entry stored at `j * nrow() + r`. -/
theorem Matrix.col_spec {α : Type} (m : Matrix α) (hm : m.WellFormed) (j : Nat)
    (hj : j < m.nc_) :
    m.col j = .ok ((m.V.drop (j * m.nr_)).take m.nr_) ∧
    ((m.V.drop (j * m.nr_)).take m.nr_).length = m.nr_ := by
  obtain ⟨h1, h2⟩ := Matrix.INDX_col m hm j hj
  refine ⟨?_, ?_⟩
  · simp only [Matrix.col, hj, if_true, h1]
  · rw [List.length_take, List.length_drop]
    omega

theorem columns_disjoint (nr i j r : Nat) (hne : j ≠ i) (hr : r < nr) :
    ¬ (i * nr ≤ j * nr + r ∧ j * nr + r < i * nr + nr) := by
  rcases Nat.lt_or_gt_of_ne hne with h | h
  · have h1 : (j + 1) * nr ≤ i * nr := Nat.mul_le_mul_right _ h
    have h2 : (j + 1) * nr = j * nr + nr := by rw [Nat.add_mul, Nat.one_mul]
    omega
  · have h1 : (i + 1) * nr ≤ j * nr := Nat.mul_le_mul_right _ h
    have h2 : (i + 1) * nr = i * nr + nr := by rw [Nat.add_mul, Nat.one_mul]
    omega

/-- Copying a column over column `i` of a well-formed matrix keeps the shape,
makes column `i` the copied cells and leaves every other column as it was. -/
theorem Matrix.copy_to_col_spec {α : Type} (ans : Matrix α) (hans : ans.WellFormed) (i : Nat)
    (cells : List α) (hi : i < ans.nc_) (hc : cells.length = ans.nr_) :
    ∃ ans1, ans.copy_to_col i cells = .ok ans1 ∧ ans1.WellFormed ∧
      ans1.nr_ = ans.nr_ ∧ ans1.nc_ = ans.nc_ ∧
      ans1.col i = .ok cells ∧ ∀ j, j ≠ i → j < ans.nc_ → ans1.col j = ans.col j := by
  obtain ⟨h1, h2⟩ := Matrix.INDX_col ans hans i hi
  have hsplice : ∀ k,
      (ans.V.take (i * ans.nr_) ++ cells ++ ans.V.drop (i * ans.nr_ + ans.nr_))[k]?
        = if i * ans.nr_ ≤ k ∧ k < i * ans.nr_ + ans.nr_ then (cells[k - i * ans.nr_]?)
          else (ans.V[k]?) := by
    intro k
    have h := getElem?_splice ans.V cells (i * ans.nr_) k (by rw [hc]; exact h2)
    rw [hc] at h
    exact h
  have hlen : (ans.V.take (i * ans.nr_) ++ cells ++ ans.V.drop (i * ans.nr_ + ans.nr_)).length
      = ans.V.length := by
    rw [List.length_append, List.length_append, List.length_take, List.length_drop, hc]
    omega
  have hwf : Matrix.WellFormed
      { ans with V := ans.V.take (i * ans.nr_) ++ cells ++ ans.V.drop (i * ans.nr_ + ans.nr_) } :=
    ⟨hlen.trans hans.1, hans.2⟩
  refine ⟨{ ans with V := ans.V.take (i * ans.nr_) ++ cells ++ ans.V.drop (i * ans.nr_ + ans.nr_) },
    ?_, hwf, rfl, rfl, ?_, ?_⟩
  · simp only [Matrix.copy_to_col, hi, hc, and_self, if_true, h1]
  · rw [(Matrix.col_spec _ hwf i hi).1]
    congr 1
    apply List.ext_getElem?
    intro r
    rw [getElem?_window]
    show (if r < ans.nr_ then
      ((ans.V.take (i * ans.nr_) ++ cells ++ ans.V.drop (i * ans.nr_ + ans.nr_))[i * ans.nr_ + r]?)
      else none) = cells[r]?
    by_cases hr : r < ans.nr_
    · rw [if_pos hr, hsplice, if_pos (by omega)]
      congr 1
      omega
    · rw [if_neg hr, List.getElem?_eq_none (by omega)]
  · intro j hne hj
    rw [(Matrix.col_spec _ hwf j hj).1, (Matrix.col_spec ans hans j hj).1]
    congr 1
    apply List.ext_getElem?
    intro r
    rw [getElem?_window, getElem?_window]
    show (if r < ans.nr_ then
      ((ans.V.take (i * ans.nr_) ++ cells ++ ans.V.drop (i * ans.nr_ + ans.nr_))[j * ans.nr_ + r]?)
      else none) = if r < ans.nr_ then (ans.V[j * ans.nr_ + r]?) else none
    by_cases hr : r < ans.nr_
    · have hdis := columns_disjoint ans.nr_ i j r hne hr
      rw [if_pos hr, if_pos hr, hsplice, if_neg hdis]
    · rw [if_neg hr, if_neg hr]

/-- A consistent selector in which every bit is true stores the positions
0, 1, ..., N - 1. -/
theorem Selector.Consistent.positions_of_all (s : Selector) (hs : s.Consistent)
    (hall : ∀ b ∈ s.mask, b = true) : s.included_positions_ = List.range s.mask.length := by
  rw [Selector.Consistent.positions_eq s hs]
  apply List.filter_eq_self.mpr
  intro a ha
  have ha1 : a < s.mask.length := List.mem_range.mp ha
  rw [List.getD_eq_getElem _ _ ha1]
  exact hall _ (List.getElem_mem _)

theorem Selector.Consistent.nvars_eq_length (s : Selector) (hs : s.Consistent) :
    s.nvars = s.included_positions_.length := by
  cases hf : s.include_all_ with
  | false => exact Selector.nvars_of_not_all s hf
  | true =>
    rw [Selector.Consistent.positions_of_all s hs (hs.2.2.2 hf), List.length_range]
    simp [Selector.nvars, Selector.nvars_possible, hf]

theorem Selector.Consistent.nvars_le (s : Selector) (hs : s.Consistent) :
    s.nvars ≤ s.nvars_possible := by
  rw [Selector.Consistent.nvars_eq_length s hs, Selector.Consistent.positions_eq s hs]
  have := List.length_filter_le (fun i => s.mask.getD i false) (List.range s.mask.length)
  rw [List.length_range] at this
  exact this

/-- In a consistent selector that includes every position, the i-th stored
position is i. -/
theorem Selector.Consistent.position_of_full (s : Selector) (hs : s.Consistent)
    (h : s.nvars = s.nvars_possible) (i I : Nat) (hI : s.included_positions_[i]? = some I) :
    I = i := by
  have hall := (Selector.Consistent.full s hs h).1
  rw [Selector.Consistent.positions_of_all s hs hall] at hI
  obtain ⟨hlt, hv⟩ := List.getElem?_eq_some_iff.mp hI
  rw [List.getElem_range] at hv
  exact hv.symm

/-- The loop of `select_cols` over distinct columns `i` of a well-formed
target: it returns, keeps the shape, makes column `i` of the target column
`indx(i)` of the source and leaves the other columns as they were. -/
theorem Selector.select_cols_loop_spec {α : Type} (s : Selector)
    (hf : s.include_all_ = false) (m : Matrix α) (hm : m.WellFormed) (l : List Nat) :
    ∀ ans : Matrix α, ans.WellFormed → ans.nr_ = m.nr_ → l.Nodup →
      (∀ i ∈ l, i < ans.nc_ ∧ ∃ I, s.included_positions_[i]? = some I ∧ I < m.nc_) →
      ∃ out, s.select_cols_loop m l ans = .ok out ∧ out.WellFormed ∧
        out.nr_ = ans.nr_ ∧ out.nc_ = ans.nc_ ∧
        (∀ i ∈ l, ∀ I, s.included_positions_[i]? = some I → out.col i = m.col I) ∧
        (∀ j, j ∉ l → j < ans.nc_ → out.col j = ans.col j) := by
  induction l with
  | nil =>
    intro ans hans _ _ _
    exact ⟨ans, rfl, hans, rfl, rfl, fun i hi => (by cases hi), fun j _ _ => rfl⟩
  | cons i rest ih =>
    intro ans hans hnr hnd hin
    obtain ⟨hi, I, hI, hIlt⟩ := hin i (List.mem_cons_self _ _)
    have hnd1 := List.nodup_cons.mp hnd
    obtain ⟨hcol, hcollen⟩ := Matrix.col_spec m hm I hIlt
    obtain ⟨ans1, hcopy, hwf1, hnr1, hnc1, hcoli, hcolj⟩ :=
      Matrix.copy_to_col_spec ans hans i _ hi (hcollen.trans hnr.symm)
    have hrest : ∀ j ∈ rest,
        j < ans1.nc_ ∧ ∃ J, s.included_positions_[j]? = some J ∧ J < m.nc_ := by
      intro j hj
      obtain ⟨hj1, J, hJ, hJlt⟩ := hin j (List.mem_cons_of_mem _ hj)
      exact ⟨by rw [hnc1]; exact hj1, J, hJ, hJlt⟩
    obtain ⟨out, hout, hwf, honr, honc, hhit, hmiss⟩ :=
      ih ans1 hwf1 (hnr1.trans hnr) hnd1.2 hrest
    refine ⟨out, ?_, hwf, honr.trans hnr1, honc.trans hnc1, ?_, ?_⟩
    · simp only [Selector.select_cols_loop, Selector.indx, hf, hI, hcol, hcopy,
        Bool.false_eq_true, if_false]
      exact hout
    · intro j hj J hJ
      rcases List.mem_cons.mp hj with rfl | hj
      · have hJI : J = I := by rw [hI] at hJ; injection hJ with hJ; exact hJ.symm
        subst hJI
        rw [hmiss j hnd1.1 (by rw [hnc1]; exact hi), hcoli, hcol]
      · exact hhit j hj J hJ
    · intro j hj hjlt
      have hji : j ≠ i := fun h => hj (h ▸ List.mem_cons_self _ _)
      have hjr : j ∉ rest := fun h => hj (List.mem_cons_of_mem _ h)
      rw [hmiss j hjr (by rw [hnc1]; exact hjlt), hcolj j hji hjlt]

/-- On a consistent selector and a well-formed matrix with one column per
position, `select_cols` returns a well-formed matrix with `nvars()` columns
whose column `i` is column `indx(i)` of the argument. -/
theorem Selector.select_cols_spec {α : Type} [Zero α] (s : Selector) (hs : s.Consistent)
    (m : Matrix α) (hm : m.WellFormed) (hN : m.nc_ = s.nvars_possible) :
    ∃ ms, s.select_cols m = .ok ms ∧ ms.WellFormed ∧ ms.nr_ = m.nr_ ∧ ms.nc_ = s.nvars ∧
      ∀ i I, s.included_positions_[i]? = some I → ms.col i = m.col I := by
  cases hf : s.include_all_ with
  | true =>
    have hfull : s.nvars = s.nvars_possible := by simp [Selector.nvars, hf]
    refine ⟨m, by simp [Selector.select_cols, hf], hm, rfl, hN.trans hfull.symm, ?_⟩
    intro i I hI
    rw [Selector.Consistent.position_of_full s hs hfull i I hI]
  | false =>
    have hn := Selector.nvars_of_not_all s hf
    have hle := Selector.Consistent.nvars_le s hs
    have hwf0 : Matrix.WellFormed
        ({ V := List.replicate (m.nrow * s.nvars) 0, nr_ := m.nrow, nc_ := s.nvars } :
          Matrix α) := by
      refine ⟨List.length_replicate _ _, ?_⟩
      have h1 : m.nr_ * s.nvars ≤ m.nr_ * m.nc_ := Nat.mul_le_mul_left _ (by rw [hN]; exact hle)
      exact Nat.lt_of_le_of_lt h1 hm.2
    have hin : ∀ i ∈ List.range s.nvars,
        i < s.nvars ∧ ∃ I, s.included_positions_[i]? = some I ∧ I < m.nc_ := by
      intro i hi
      have hi1 : i < s.nvars := List.mem_range.mp hi
      have hi2 : i < s.included_positions_.length := by rw [← hn]; exact hi1
      refine ⟨hi1, _, List.getElem?_eq_getElem hi2, ?_⟩
      rw [hN]
      exact Selector.Consistent.positions_lt s hs i _ (List.getElem?_eq_getElem hi2)
    obtain ⟨out, hout, hwf, honr, honc, hhit, _⟩ :=
      Selector.select_cols_loop_spec s hf m hm (List.range s.nvars) _ hwf0 rfl
        (List.nodup_range _) hin
    refine ⟨out, ?_, hwf, honr, honc, ?_⟩
    · simp only [Selector.select_cols, hf, Bool.false_eq_true, if_false]
      exact hout
    · intro i I hI
      have hi2 : i < s.included_positions_.length := (List.getElem?_eq_some_iff.mp hI).1
      exact hhit i (List.mem_range.mpr (by rw [hn]; exact hi2)) I hI

/-- The loop of `sparse_multiply`, when at step `i` the column read is `C i`
and the weight read is `w i`: it returns the vector obtained by adding
`w i * C i` to the accumulator, step after step. -/
theorem Selector.sparse_multiply_loop_spec {α : Type} [Add α] [Mul α] (s : Selector)
    (m : Matrix α) (v : List α) (fm fv : Bool) (C : Nat → List α) (w : Nat → α) (nr : Nat)
    (l : List Nat) :
    ∀ ans : List α, ans.length = nr →
      (∀ i ∈ l, ∃ I, s.included_positions_[i]? = some I ∧
        m.col (if fm = true then i else I) = .ok (C i) ∧
        v[if fv = true then i else I]? = some (w i) ∧ (C i).length = nr) →
      s.sparse_multiply_loop m v fm fv l ans
        = .ok (l.foldl (fun acc i => List.zipWith (fun x y => x + w i * y) acc (C i)) ans) := by
  induction l with
  | nil => intro ans _ _; rfl
  | cons i rest ih =>
    intro ans hlen hin
    obtain ⟨I, hI, hcol, hw, hC⟩ := hin i (List.mem_cons_self _ _)
    have hax : VectorView_axpy ans (C i) (w i)
        = .ok (List.zipWith (fun x y => x + w i * y) ans (C i)) := by
      simp [VectorView_axpy, hlen, hC]
    have hlen1 : (List.zipWith (fun x y => x + w i * y) ans (C i)).length = nr := by
      rw [List.length_zipWith, hlen, hC, Nat.min_self]
    simp only [Selector.sparse_multiply_loop, hI, hcol, hw, hax, List.foldl_cons]
    exact ih _ hlen1 (fun j hj => hin j (List.mem_cons_of_mem _ hj))

theorem map_getD_range {α : Type} (l : List α) (d : α) :
    (List.range l.length).map (fun r => l.getD r d) = l := by
  apply List.ext_getElem?
  intro r
  rw [List.getElem?_map]
  by_cases hr : r < l.length
  · rw [List.getElem?_range hr, Option.map_some', List.getD_eq_getElem _ _ hr,
      List.getElem?_eq_getElem hr]
  · rw [List.getElem?_eq_none (by rw [List.length_range]; omega),
      List.getElem?_eq_none (by omega)]
    rfl

theorem map_range_getD {α β : Type} (l : List α) (d : α) (g : α → β) :
    (List.range l.length).map (fun i => g (l.getD i d)) = l.map g := by
  have h := congrArg (List.map g) (map_getD_range l d)
  rw [List.map_map] at h
  exact h

theorem zipWith_getD {α : Type} [Zero α] (f : α → α → α) (x y : List α) (nr r : Nat)
    (hx : x.length = nr) (hy : y.length = nr) (hr : r < nr) :
    (List.zipWith f x y).getD r 0 = f (x.getD r 0) (y.getD r 0) := by
  have hxr : r < x.length := by rw [hx]; exact hr
  have hyr : r < y.length := by rw [hy]; exact hr
  rw [List.getD_eq_getElem?_getD, List.getElem?_zipWith, List.getElem?_eq_getElem hxr,
    List.getElem?_eq_getElem hyr, List.getD_eq_getElem _ _ hxr, List.getD_eq_getElem _ _ hyr]
  rfl

/-- Adding `w i * C i` to an accumulator step after step gives, in row `r`,
the accumulator plus the sum of `w i * C i [r]` over the steps. -/
theorem foldl_axpy_sum {α : Type} [Semiring α] (C : Nat → List α) (w : Nat → α) (nr : Nat)
    (l : List Nat) :
    ∀ acc : List α, acc.length = nr → (∀ i ∈ l, (C i).length = nr) →
      l.foldl (fun acc i => List.zipWith (fun x y => x + w i * y) acc (C i)) acc
        = (List.range nr).map
            (fun r => acc.getD r 0 + (l.map (fun i => w i * (C i).getD r 0)).sum) := by
  induction l with
  | nil =>
    intro acc hlen _
    simp only [List.foldl_nil, List.map_nil, List.sum_nil, add_zero]
    rw [← hlen]
    exact (map_getD_range acc 0).symm
  | cons i rest ih =>
    intro acc hlen hC
    have hCi := hC i (List.mem_cons_self _ _)
    have hlen1 : (List.zipWith (fun x y => x + w i * y) acc (C i)).length = nr := by
      rw [List.length_zipWith, hlen, hCi, Nat.min_self]
    rw [List.foldl_cons, ih _ hlen1 (fun j hj => hC j (List.mem_cons_of_mem _ hj))]
    apply List.map_congr_left
    intro r hr
    have hr1 : r < nr := List.mem_range.mp hr
    rw [zipWith_getD _ acc (C i) nr r hlen hCi hr1, List.map_cons, List.sum_cons, add_assoc]

theorem window_getD {α : Type} [Zero α] (V : List α) (a n r : Nat) (hr : r < n) :
    ((V.drop a).take n).getD r 0 = V.getD (a + r) 0 := by
  rw [List.getD_eq_getElem?_getD, List.getD_eq_getElem?_getD, getElem?_window, if_pos hr]

/-- A call of `sparse_multiply` whose matrix argument presents column
`indx(i)` of `M` (either as its own column `indx(i)`, or as its column `i` when
it has `nvars()` columns) and whose vector argument presents `v[indx(i)]` in
the same way returns the product that the spec ascribes to `M` and `v`. -/
theorem Selector.sparse_multiply_call {α : Type} [Semiring α] (s : Selector)
    (hs : s.Consistent) (M : Matrix α) (hM : M.WellFormed) (hN : M.nc_ = s.nvars_possible)
    (v : List α) (hv : v.length = s.nvars_possible) (m1 : Matrix α) (v1 : List α)
    (hm1r : m1.nr_ = M.nr_)
    (hm1c : m1.nc_ = s.nvars ∨ m1.nc_ = s.nvars_possible)
    (hm1 : ∀ i I : Nat, s.included_positions_[i]? = some I →
      m1.col (if decide (m1.ncol = s.nvars) = true then i else I) = M.col I)
    (hv1c : v1.length = s.nvars ∨ v1.length = s.nvars_possible)
    (hv1 : ∀ i I : Nat, s.included_positions_[i]? = some I →
      v1[if decide (v1.length = s.nvars) = true then i else I]? = v[I]?) :
    s.sparse_multiply m1 v1 = .ok (s.sparse_multiply_spec M v) := by
  have hcheck1 : (if decide (m1.ncol = s.nvars) = true then (Except.ok () : Except Fault Unit)
      else s.check_size_eq m1.ncol "sparse_multiply") = .ok () := by
    by_cases h : m1.ncol = s.nvars
    · simp [h]
    · have h2 : m1.ncol = s.nvars_possible := by
        rcases hm1c with h1 | h1
        · exact absurd h1 h
        · exact h1
      simp [h, Selector.check_size_eq, h2]
  have hcheck2 : (if decide (v1.length = s.nvars) = true then (Except.ok () : Except Fault Unit)
      else s.check_size_eq v1.length "sparse_multiply") = .ok () := by
    by_cases h : v1.length = s.nvars
    · simp [h]
    · have h2 : v1.length = s.nvars_possible := by
        rcases hv1c with h1 | h1
        · exact absurd h1 h
        · exact h1
      simp [h, Selector.check_size_eq, h2]
  have hin : ∀ i ∈ List.range s.included_positions_.length,
      ∃ I, s.included_positions_[i]? = some I ∧
        m1.col (if decide (m1.ncol = s.nvars) = true then i else I)
          = .ok ((M.V.drop (s.included_positions_.getD i 0 * M.nr_)).take M.nr_) ∧
        v1[if decide (v1.length = s.nvars) = true then i else I]?
          = some (v.getD (s.included_positions_.getD i 0) 0) ∧
        ((M.V.drop (s.included_positions_.getD i 0 * M.nr_)).take M.nr_).length = M.nr_ := by
    intro i hi
    have hi1 : i < s.included_positions_.length := List.mem_range.mp hi
    have hI : s.included_positions_[i]? = some s.included_positions_[i] :=
      List.getElem?_eq_getElem hi1
    have hIlt : s.included_positions_[i] < M.nc_ := by
      rw [hN]
      exact Selector.Consistent.positions_lt s hs i _ hI
    obtain ⟨hcol, hcollen⟩ := Matrix.col_spec M hM _ hIlt
    have hget : s.included_positions_.getD i 0 = s.included_positions_[i] :=
      List.getD_eq_getElem _ _ hi1
    refine ⟨_, hI, ?_, ?_, ?_⟩
    · rw [hm1 i _ hI, hcol, hget]
    · rw [hv1 i _ hI, hget, List.getD_eq_getElem _ _ (by rw [hv, ← hN]; exact hIlt),
        List.getElem?_eq_getElem (by rw [hv, ← hN]; exact hIlt)]
    · rw [hget]; exact hcollen
  unfold Selector.sparse_multiply
  simp only [hcheck1, hcheck2]
  rw [Selector.sparse_multiply_loop_spec s m1 v1 _ _ _ _ M.nr_ _ _
    (by rw [List.length_replicate]; exact hm1r) hin]
  congr 1
  rw [foldl_axpy_sum _ _ M.nr_ _ _ (by rw [List.length_replicate]; exact hm1r)
    (fun i hi => (hin i hi).choose_spec.2.2.2)]
  unfold Selector.sparse_multiply_spec
  apply List.map_congr_left
  intro r hr
  have hr1 : r < M.nr_ := List.mem_range.mp hr
  have hzero : (List.replicate m1.nrow (0 : α)).getD r 0 = 0 := by
    rw [List.getD_eq_getElem?_getD, List.getElem?_replicate]
    split <;> rfl
  have hpos : (List.range s.nvars_possible).filter (fun I => s.mask.getD I false)
      = s.included_positions_ := (Selector.Consistent.positions_eq s hs).symm
  rw [hzero, zero_add,
    map_range_getD s.included_positions_ 0
      (fun I => v.getD I 0 * ((M.V.drop (I * M.nr_)).take M.nr_).getD r 0), hpos]
  congr 1
  apply List.map_congr_left
  intro I _
  rw [window_getD _ _ _ _ hr1]

/-- On a consistent selector and a vector with one entry per position,
`select` returns `nvars()` entries, the i-th being the entry at `indx(i)`. -/
theorem Selector.select_spec {α : Type} (s : Selector) (hs : s.Consistent) (v : List α)
    (hv : v.length = s.nvars_possible) :
    ∃ vs, s.select v = .ok vs ∧ vs.length = s.nvars ∧
      ∀ i I : Nat, s.included_positions_[i]? = some I → vs[i]? = v[I]? := by
  by_cases hfull : s.nvars = s.nvars_possible
  · refine ⟨v, ?_, hv.trans hfull.symm, ?_⟩
    · unfold Selector.select inc_select
      simp [hv, hfull]
    · intro i I hI
      rw [Selector.Consistent.position_of_full s hs hfull i I hI]
  · have hf := Selector.not_all_of_nvars_ne s hfull
    have hn := Selector.nvars_of_not_all s hf
    have hpos : ∀ i ∈ List.range s.nvars,
        ∃ I, s.included_positions_[i]? = some I ∧ I < v.length := by
      intro i hi
      have hi2 : i < s.included_positions_.length := by
        rw [← hn]; exact List.mem_range.mp hi
      refine ⟨_, List.getElem?_eq_getElem hi2, ?_⟩
      rw [hv]
      exact Selector.Consistent.positions_lt s hs i _ (List.getElem?_eq_getElem hi2)
    obtain ⟨y, hy, hymap⟩ := inc_select_loop_spec v s hf (List.range s.nvars) hpos
    have hylen : y.length = s.nvars := by
      have := congrArg List.length hymap
      simpa using this
    refine ⟨y, ?_, hylen, ?_⟩
    · unfold Selector.select inc_select
      simp only [hv, hfull, ne_eq, not_true_eq_false, if_false]
      exact hy
    · intro i I hI
      have hi2 : i < s.included_positions_.length := (List.getElem?_eq_some_iff.mp hI).1
      have h1 := getElem?_of_map_some_eq y s.nvars _ hymap i (by rw [hn]; exact hi2)
      simp only [hI, Option.some_bind] at h1
      exact h1

/-- C11: for every consistent Selector s with N = nvars_possible(), every
matrix M with N columns and every vector v of length N, with exact arithmetic,
the calls sparse_multiply(M, v), sparse_multiply(select_cols(M), v),
sparse_multiply(M, select(v)) and sparse_multiply(select_cols(M), select(v))
all return the vector whose entry r is the sum over the included positions I
of v[I] times the entry of row r in column I of M. -/
theorem sparse_multiply_forms_agree {α : Type} [Semiring α] (s : Selector)
    (hs : s.Consistent) (M : Matrix α) (hM : M.WellFormed) (hN : M.nc_ = s.nvars_possible)
    (v : List α) (hv : v.length = s.nvars_possible) :
    ∃ Ms vs, s.select_cols M = .ok Ms ∧ s.select v = .ok vs ∧
      s.sparse_multiply M v = .ok (s.sparse_multiply_spec M v) ∧
      s.sparse_multiply Ms v = .ok (s.sparse_multiply_spec M v) ∧
      s.sparse_multiply M vs = .ok (s.sparse_multiply_spec M v) ∧
      s.sparse_multiply Ms vs = .ok (s.sparse_multiply_spec M v) := by
  obtain ⟨Ms, hMs, _, hMsr, hMsc, hMscol⟩ := Selector.select_cols_spec s hs M hM hN
  obtain ⟨vs, hvs, hvslen, hvsget⟩ := Selector.select_spec s hs v hv
  have hfullM : ∀ i I : Nat, s.included_positions_[i]? = some I →
      M.col (if decide (M.ncol = s.nvars) = true then i else I) = M.col I := by
    intro i I hI
    by_cases h : M.ncol = s.nvars
    · have hfull : s.nvars = s.nvars_possible := h.symm.trans hN
      simp only [h, decide_True, if_true]
      rw [Selector.Consistent.position_of_full s hs hfull i I hI]
    · simp only [h, decide_False, Bool.false_eq_true, if_false]
  have hsparseM : ∀ i I : Nat, s.included_positions_[i]? = some I →
      Ms.col (if decide (Ms.ncol = s.nvars) = true then i else I) = M.col I := by
    intro i I hI
    have h : Ms.ncol = s.nvars := hMsc
    simp only [h, decide_True, if_true]
    exact hMscol i I hI
  have hfullv : ∀ i I : Nat, s.included_positions_[i]? = some I →
      v[if decide (v.length = s.nvars) = true then i else I]? = v[I]? := by
    intro i I hI
    by_cases h : v.length = s.nvars
    · have hfull : s.nvars = s.nvars_possible := h.symm.trans hv
      simp only [h, decide_True, if_true]
      rw [Selector.Consistent.position_of_full s hs hfull i I hI]
    · simp only [h, decide_False, Bool.false_eq_true, if_false]
  have hsparsev : ∀ i I : Nat, s.included_positions_[i]? = some I →
      vs[if decide (vs.length = s.nvars) = true then i else I]? = v[I]? := by
    intro i I hI
    simp only [hvslen, decide_True, if_true]
    exact hvsget i I hI
  exact ⟨Ms, vs, hMs, hvs,
    Selector.sparse_multiply_call s hs M hM hN v hv M v rfl (Or.inr hN) hfullM (Or.inr hv)
      hfullv,
    Selector.sparse_multiply_call s hs M hM hN v hv Ms v hMsr (Or.inl hMsc) hsparseM
      (Or.inr hv) hfullv,
    Selector.sparse_multiply_call s hs M hM hN v hv M vs rfl (Or.inr hN) hfullM
      (Or.inl hvslen) hsparsev,
    Selector.sparse_multiply_call s hs M hM hN v hv Ms vs hMsr (Or.inl hMsc) hsparseM
      (Or.inl hvslen) hsparsev⟩

theorem sparse_multiply_forms_agree_witness :
    (Selector.mk [true, false, true] [0, 2] false).Consistent ∧
    (Matrix.mk [(1 : Int), 2, 3, 4, 5, 6] 2 3).WellFormed ∧
    (Selector.mk [true, false, true] [0, 2] false).sparse_multiply_spec
      (Matrix.mk [(1 : Int), 2, 3, 4, 5, 6] 2 3) [10, 20, 30] = [160, 200] ∧
    (∃ Ms vs,
      (Selector.mk [true, false, true] [0, 2] false).select_cols
        (Matrix.mk [(1 : Int), 2, 3, 4, 5, 6] 2 3) = .ok Ms ∧
      (Selector.mk [true, false, true] [0, 2] false).select [(10 : Int), 20, 30] = .ok vs ∧
      (Selector.mk [true, false, true] [0, 2] false).sparse_multiply
        (Matrix.mk [(1 : Int), 2, 3, 4, 5, 6] 2 3) [10, 20, 30]
        = .ok ((Selector.mk [true, false, true] [0, 2] false).sparse_multiply_spec
            (Matrix.mk [(1 : Int), 2, 3, 4, 5, 6] 2 3) [10, 20, 30]) ∧
      (Selector.mk [true, false, true] [0, 2] false).sparse_multiply Ms [10, 20, 30]
        = .ok ((Selector.mk [true, false, true] [0, 2] false).sparse_multiply_spec
            (Matrix.mk [(1 : Int), 2, 3, 4, 5, 6] 2 3) [10, 20, 30]) ∧
      (Selector.mk [true, false, true] [0, 2] false).sparse_multiply
        (Matrix.mk [(1 : Int), 2, 3, 4, 5, 6] 2 3) vs
        = .ok ((Selector.mk [true, false, true] [0, 2] false).sparse_multiply_spec
            (Matrix.mk [(1 : Int), 2, 3, 4, 5, 6] 2 3) [10, 20, 30]) ∧
      (Selector.mk [true, false, true] [0, 2] false).sparse_multiply Ms vs
        = .ok ((Selector.mk [true, false, true] [0, 2] false).sparse_multiply_spec
            (Matrix.mk [(1 : Int), 2, 3, 4, 5, 6] 2 3) [10, 20, 30])) :=
  ⟨by decide, by decide, by decide,
    sparse_multiply_forms_agree (Selector.mk [true, false, true] [0, 2] false) (by decide)
      (Matrix.mk [(1 : Int), 2, 3, 4, 5, 6] 2 3) (by decide) rfl [10, 20, 30] rfl⟩

theorem SpdMatrix.reflect_getElem? {α : Type} (m : SpdMatrix α) (k : Nat) :
    (SpdMatrix.reflect m).V[k]? =
      (m.V[k]?).map (fun a =>
        if k / m.nr_ < k % m.nr_ then (m.V[(k % m.nr_) * m.nr_ + k / m.nr_]?).getD a else a) := by
  unfold SpdMatrix.reflect
  simp only [List.getElem?_zipWith]
  by_cases hk : k < m.V.length
  · rw [List.getElem?_range hk, List.getElem?_eq_getElem hk]
    rfl
  · rw [List.getElem?_eq_none (Nat.le_of_not_lt hk)]
    cases (List.range m.V.length)[k]? <;> rfl

theorem divmod_colmajor (p i j : Nat) (hi : i < p) :
    (j * p + i) / p = j ∧ (j * p + i) % p = i := by
  have hp : 0 < p := by omega
  constructor
  · rw [Nat.mul_comm, Nat.mul_add_div hp, Nat.div_eq_of_lt hi, Nat.add_zero]
  · rw [Nat.mul_comm, Nat.mul_add_mod, Nat.mod_eq_of_lt hi]

/-- The cells on and above the diagonal are not changed by `reflect`. -/
theorem SpdMatrix.reflect_upper {α : Type} (m : SpdMatrix α) (i j : Nat) (hij : i ≤ j)
    (hj : j < m.nr_) :
    (SpdMatrix.reflect m).V[j * m.nr_ + i]? = m.V[j * m.nr_ + i]? := by
  rw [SpdMatrix.reflect_getElem?]
  obtain ⟨h1, h2⟩ := divmod_colmajor m.nr_ i j (by omega)
  rw [h1, h2]
  have hlt : ¬ j < i := by omega
  simp only [hlt, if_false]
  cases m.V[j * m.nr_ + i]? <;> rfl

/-- The result of `reflect` depends on the cells on and above the diagonal
only. -/
theorem SpdMatrix.reflect_congr {α : Type} (p : Nat) (m1 m2 : SpdMatrix α)
    (h1r : m1.nr_ = p) (h2r : m2.nr_ = p) (hc : m1.nc_ = m2.nc_)
    (h1l : m1.V.length = p * p) (h2l : m2.V.length = p * p)
    (hup : ∀ i j : Nat, i ≤ j → j < p → m1.V[j * p + i]? = m2.V[j * p + i]?) :
    SpdMatrix.reflect m1 = SpdMatrix.reflect m2 := by
  have hV : (SpdMatrix.reflect m1).V = (SpdMatrix.reflect m2).V := by
    apply List.ext_getElem?
    intro k
    rw [SpdMatrix.reflect_getElem?, SpdMatrix.reflect_getElem?, h1r, h2r]
    by_cases hk : k < p * p
    · have hp : 0 < p := by
        rcases Nat.eq_zero_or_pos p with h | h
        · subst h; omega
        · exact h
      have hdiv : k / p < p := Nat.div_lt_of_lt_mul hk
      have hmod : k % p < p := Nat.mod_lt k hp
      have hk1 : k < m1.V.length := by rw [h1l]; exact hk
      have hk2 : k < m2.V.length := by rw [h2l]; exact hk
      rw [List.getElem?_eq_getElem hk1, List.getElem?_eq_getElem hk2]
      simp only [Option.map_some']
      by_cases hlow : k / p < k % p
      · simp only [hlow, if_true]
        have hidx : k % p * p + k / p < p * p := colmajor_lt p p (k / p) (k % p) hdiv hmod
        have e := hup (k / p) (k % p) (Nat.le_of_lt hlow) hmod
        have hi1 : k % p * p + k / p < m1.V.length := by rw [h1l]; exact hidx
        have hi2 : k % p * p + k / p < m2.V.length := by rw [h2l]; exact hidx
        rw [List.getElem?_eq_getElem hi1, List.getElem?_eq_getElem hi2] at e
        rw [List.getElem?_eq_getElem hi1, List.getElem?_eq_getElem hi2]
        simp only [Option.getD_some]
        exact e
      · simp only [hlow, if_false]
        have e := hup (k % p) (k / p) (Nat.le_of_not_lt hlow) hdiv
        have hkk : k / p * p + k % p = k := Nat.div_add_mod' k p
        rw [hkk, List.getElem?_eq_getElem hk1, List.getElem?_eq_getElem hk2] at e
        exact e
    · have e1 : m1.V[k]? = none := List.getElem?_eq_none (by rw [h1l]; omega)
      have e2 : m2.V[k]? = none := List.getElem?_eq_none (by rw [h2l]; omega)
      rw [e1, e2]
      rfl
  have hnr : (SpdMatrix.reflect m1).nr_ = (SpdMatrix.reflect m2).nr_ := by
    show m1.nr_ = m2.nr_
    rw [h1r, h2r]
  have hnc : (SpdMatrix.reflect m1).nc_ = (SpdMatrix.reflect m2).nc_ := hc
  revert hV hnr hnc
  cases SpdMatrix.reflect m1
  cases SpdMatrix.reflect m2
  intro hV hnr hnc
  simp only at hV hnr hnc
  subst hV hnr hnc
  rfl

theorem SpdMatrix.reflect_length {α : Type} (m : SpdMatrix α) :
    (SpdMatrix.reflect m).V.length = m.V.length := by
  unfold SpdMatrix.reflect
  simp

/-- A second `reflect()` changes nothing. -/
theorem SpdMatrix.reflect_reflect {α : Type} (p : Nat) (m : SpdMatrix α) (hr : m.nr_ = p)
    (hl : m.V.length = p * p) :
    SpdMatrix.reflect (SpdMatrix.reflect m) = SpdMatrix.reflect m := by
  have hr2 : (SpdMatrix.reflect m).nr_ = p := hr
  have hl2 : (SpdMatrix.reflect m).V.length = p * p := by rw [SpdMatrix.reflect_length, hl]
  refine SpdMatrix.reflect_congr p (SpdMatrix.reflect m) m hr2 hr rfl hl2 hl ?_
  intro i j hij hj
  have := SpdMatrix.reflect_upper m i j hij (by rw [hr]; exact hj)
  rw [hr] at this
  exact this

/-- The loop of `SpdMatrix::unvectorize` over the minimal form of `X`: it reads
exactly the cells that `vectorize` wrote and puts them in the upper triangle. -/
theorem SpdMatrix.unvectorize_loop_spec {α : Type} (p : Nat) (X : SpdMatrix α)
    (hXl : X.V.length = p * p) :
    ∀ (cols : List Nat) (m : SpdMatrix α) (rest : List α), (∀ i ∈ cols, i < p) →
      m.nr_ = p → m.V.length = p * p →
      ∃ m1, SpdMatrix.unvectorize_loop true cols m
              (cols.flatMap (fun i => (X.V.drop (i * p)).take (i + 1)) ++ rest)
              = .ok (m1, rest) ∧
        m1.nr_ = p ∧ m1.nc_ = m.nc_ ∧ m1.V.length = p * p ∧
        (∀ i ∈ cols, ∀ r : Nat, r ≤ i → m1.V[i * p + r]? = X.V[i * p + r]?) ∧
        (∀ k : Nat, (∀ i ∈ cols, ¬ (i * p ≤ k ∧ k < i * p + (i + 1))) → m1.V[k]? = m.V[k]?) := by
  intro cols
  induction cols with
  | nil =>
    intro m rest _ hr hl
    exact ⟨m, rfl, hr, rfl, hl, fun i hi => absurd hi (List.not_mem_nil i), fun k _ => rfl⟩
  | cons i cols ih =>
    intro m rest hlt hr hl
    have hi : i < p := hlt i (List.mem_cons_self i cols)
    have hbound : i * p + (i + 1) ≤ p * p := by
      have := colmajor_lt p p i i hi hi
      omega
    have hflen : ((X.V.drop (i * p)).take (i + 1)).length = i + 1 := by
      rw [List.length_take, List.length_drop, hXl]
      omega
    have hsplice : ∀ k : Nat,
        (m.V.take (i * p) ++ (X.V.drop (i * p)).take (i + 1) ++ m.V.drop (i * p + (i + 1)))[k]?
          = if i * p ≤ k ∧ k < i * p + (i + 1) then (X.V[k]?) else (m.V[k]?) := by
      intro k
      have h := getElem?_splice m.V ((X.V.drop (i * p)).take (i + 1)) (i * p) k
        (by rw [hflen, hl]; exact hbound)
      rw [hflen] at h
      rw [h]
      by_cases hk : i * p ≤ k ∧ k < i * p + (i + 1)
      · rw [if_pos hk, if_pos hk, getElem?_window, if_pos (by omega)]
        congr 1
        omega
      · rw [if_neg hk, if_neg hk]
    have hlen2 : (m.V.take (i * p) ++ (X.V.drop (i * p)).take (i + 1)
        ++ m.V.drop (i * p + (i + 1))).length = p * p := by
      rw [List.length_append, List.length_append, hflen, List.length_take, List.length_drop, hl]
      omega
    obtain ⟨m1, hrun, h1r, h1c, h1l, ha, hb⟩ :=
      ih { m with V := m.V.take (i * p) ++ (X.V.drop (i * p)).take (i + 1)
                        ++ m.V.drop (i * p + (i + 1)) } rest
        (fun i2 hi2 => hlt i2 (List.mem_cons_of_mem i hi2)) hr hlen2
    refine ⟨m1, ?_, h1r, h1c, h1l, ?_, ?_⟩
    · rw [List.flatMap_cons, List.append_assoc]
      unfold SpdMatrix.unvectorize_loop
      have hcond : ¬ (((X.V.drop (i * p)).take (i + 1)
          ++ (cols.flatMap (fun i => (X.V.drop (i * p)).take (i + 1)) ++ rest)).length
            < (if true = true then i + 1 else m.ncol)
          ∨ m.V.length < i * m.nr_ + (if true = true then i + 1 else m.ncol)) := by
        rw [List.length_append, hflen, hr, hl]
        simp only [if_true]
        omega
      rw [if_neg hcond]
      simp only [if_true, hr]
      rw [List.take_left' hflen, List.drop_left' hflen]
      rw [hr] at hrun
      exact hrun
    · intro i2 hi2 r hr2
      rcases List.mem_cons.mp hi2 with heq | hmem
      · subst heq
        by_cases hin : i2 ∈ cols
        · exact ha i2 hin r hr2
        · rw [hb (i2 * p + r) (fun i3 hi3 => by
            have hne : i2 ≠ i3 := fun h => hin (h ▸ hi3)
            have h3 : i3 < p := hlt i3 (List.mem_cons_of_mem i2 hi3)
            have := columns_disjoint p i3 i2 r hne (by omega)
            omega)]
          show (m.V.take (i2 * p) ++ (X.V.drop (i2 * p)).take (i2 + 1)
            ++ m.V.drop (i2 * p + (i2 + 1)))[i2 * p + r]? = _
          rw [hsplice, if_pos (by omega)]
      · exact ha i2 hmem r hr2
    · intro k hk
      rw [hb k (fun i2 hi2 => hk i2 (List.mem_cons_of_mem i hi2))]
      show (m.V.take (i * p) ++ (X.V.drop (i * p)).take (i + 1)
            ++ m.V.drop (i * p + (i + 1)))[k]? = _
      rw [hsplice, if_neg (hk i (List.mem_cons_self i cols))]

/-- The matrix part of the round trip: `unvectorize` after `vectorize(true)`
gives the reflected matrix and stops at the end of what `vectorize` wrote. -/
theorem SpdMatrix.unvectorize_vectorize {α : Type} (p : Nat) (X Z : SpdMatrix α)
    (hXr : X.nr_ = p) (hXc : X.nc_ = p) (hXl : X.V.length = p * p)
    (hZr : Z.nr_ = p) (hZc : Z.nc_ = p) (hZl : Z.V.length = p * p) (rest : List α) :
    SpdMatrix.unvectorize Z (SpdMatrix.vectorize X true ++ rest) true
      = .ok (SpdMatrix.reflect X, rest) := by
  obtain ⟨m1, hrun, h1r, h1c, h1l, ha, _⟩ :=
    SpdMatrix.unvectorize_loop_spec p X hXl (List.range p) Z rest
      (fun i hi => List.mem_range.mp hi) hZr hZl
  have hvec : SpdMatrix.vectorize X true
      = (List.range p).flatMap (fun i => (X.V.drop (i * p)).take (i + 1)) := by
    unfold SpdMatrix.vectorize Matrix.ncol
    rw [hXc, hXr]
    rfl
  unfold SpdMatrix.unvectorize Matrix.ncol
  rw [hvec, hZc, hrun]
  have hrefl : SpdMatrix.reflect m1 = SpdMatrix.reflect X :=
    SpdMatrix.reflect_congr p m1 X h1r hXr (by rw [h1c, hZc, hXc]) h1l hXl
      (fun i j hij hj => ha j (List.mem_range.mpr hj) i hij)
  simp only [hrefl]

/-- C20: for every WeightedRegSuf x of dimension p and every WeightedRegSuf z
of the same dimension, the call z.unvectorize(x.vectorize(true), true)
returns the end of the vector and leaves z with the cross-product matrix that
x.xtx() returns and with the xty(), n(), yty() and sumlogw() of x; z keeps the
dimension p. -/
theorem WeightedRegSuf_unvectorize_vectorize {α : Type} (p : Nat) (x z : WeightedRegSuf α)
    (hx : x.HasDim p) (hsym : x.SymSound) (hz : z.HasDim p) :
    ∃ z1, z.unvectorize (x.vectorize true) true = .ok (z1, []) ∧
      z1.xtx.1 = x.xtx.1 ∧ z1.xty = x.xty ∧ z1.n = x.n ∧ z1.yty = x.yty ∧
      z1.sumlogw = x.sumlogw ∧ z1.HasDim p := by
  obtain ⟨hxr, hxc, ⟨hxl, hxfit⟩, hxy⟩ := hx
  obtain ⟨hzr, hzc, ⟨hzl, _⟩, hzy⟩ := hz
  rw [hxr, hxc] at hxl hxfit
  rw [hzr, hzc] at hzl
  have hp : p % 4294967296 = p := by
    apply Nat.mod_eq_of_lt
    have := Nat.le_mul_self p
    omega
  have hmat := SpdMatrix.unvectorize_vectorize p x.xtwx_ z.xtwx_ hxr hxc hxl hzr hzc hzl
    (x.xtwy_ ++ ([x.n_] ++ ([x.yt_w_y_] ++ [x.sumlogw_])))
  have hrr := SpdMatrix.reflect_reflect p x.xtwx_ hxr hxl
  have hrun : z.unvectorize (x.vectorize true) true
      = .ok ({ xtwx_ := SpdMatrix.reflect x.xtwx_, xtwy_ := x.xtwy_, n_ := x.n_,
               yt_w_y_ := x.yt_w_y_, sumlogw_ := x.sumlogw_, sym_ := z.sym_ }, []) := by
    unfold WeightedRegSuf.unvectorize WeightedRegSuf.unvectorize_iterator
      WeightedRegSuf.vectorize
    simp only [List.append_assoc]
    rw [hmat]
    simp only [hzy, hp]
    rw [if_neg (by rw [List.length_append, hxy]; omega), List.drop_left' hxy,
      List.take_left' hxy]
    rfl
  refine ⟨_, hrun, ?_, rfl, rfl, rfl, rfl, ?_⟩
  · have hz1 : ∀ (b : Bool),
        (WeightedRegSuf.xtx (WeightedRegSuf.mk (SpdMatrix.reflect x.xtwx_) x.xtwy_ x.n_
          x.yt_w_y_ x.sumlogw_ b)).1 = SpdMatrix.reflect x.xtwx_ := by
      intro b
      unfold WeightedRegSuf.xtx WeightedRegSuf.make_symmetric
      cases b
      · exact hrr
      · rfl
    have hx1 : x.xtx.1 = SpdMatrix.reflect x.xtwx_ := by
      unfold WeightedRegSuf.xtx WeightedRegSuf.make_symmetric
      cases hs : x.sym_
      · rfl
      · have hV := hsym hs
        show x.xtwx_ = SpdMatrix.reflect x.xtwx_
        have hnr : (SpdMatrix.reflect x.xtwx_).nr_ = x.xtwx_.nr_ := rfl
        have hnc : (SpdMatrix.reflect x.xtwx_).nc_ = x.xtwx_.nc_ := rfl
        revert hV hnr hnc
        cases SpdMatrix.reflect x.xtwx_
        cases x.xtwx_
        intro hV hnr hnc
        simp only at hV hnr hnc
        subst hV hnr hnc
        rfl
    rw [hx1]
    exact hz1 z.sym_
  · refine ⟨hxr, hxc, ⟨?_, ?_⟩, hxy⟩
    · show (SpdMatrix.reflect x.xtwx_).V.length = x.xtwx_.nr_ * x.xtwx_.nc_
      rw [SpdMatrix.reflect_length, hxl, hxr, hxc]
    · show x.xtwx_.nr_ * x.xtwx_.nc_ < 4294967296
      rw [hxr, hxc]
      exact hxfit

theorem WeightedRegSuf_unvectorize_vectorize_witness :
    (WeightedRegSuf.mk (Matrix.mk [(2 : Int), 9, 3, 5] 2 2) [7, 8] 2 11 0 false).HasDim 2 ∧
    (WeightedRegSuf.mk (Matrix.mk [(2 : Int), 9, 3, 5] 2 2) [7, 8] 2 11 0 false).SymSound ∧
    (WeightedRegSuf.mk (Matrix.mk [(0 : Int), 0, 0, 0] 2 2) [0, 0] 0 0 0 false).HasDim 2 ∧
    (WeightedRegSuf.mk (Matrix.mk [(2 : Int), 9, 3, 5] 2 2) [7, 8] 2 11 0 false).vectorize true
      = [2, 3, 5, 7, 8, 2, 11, 0] ∧
    (WeightedRegSuf.mk (Matrix.mk [(2 : Int), 9, 3, 5] 2 2) [7, 8] 2 11 0 false).xtx.1
      = Matrix.mk [2, 3, 3, 5] 2 2 ∧
    (∃ z1, (WeightedRegSuf.mk (Matrix.mk [(0 : Int), 0, 0, 0] 2 2) [0, 0] 0 0 0 false).unvectorize
        ((WeightedRegSuf.mk (Matrix.mk [(2 : Int), 9, 3, 5] 2 2) [7, 8] 2 11 0 false).vectorize
          true) true = .ok (z1, []) ∧
      z1.xtx.1 = (WeightedRegSuf.mk (Matrix.mk [(2 : Int), 9, 3, 5] 2 2) [7, 8] 2 11 0 false).xtx.1 ∧
      z1.xty = (WeightedRegSuf.mk (Matrix.mk [(2 : Int), 9, 3, 5] 2 2) [7, 8] 2 11 0 false).xty ∧
      z1.n = (WeightedRegSuf.mk (Matrix.mk [(2 : Int), 9, 3, 5] 2 2) [7, 8] 2 11 0 false).n ∧
      z1.yty = (WeightedRegSuf.mk (Matrix.mk [(2 : Int), 9, 3, 5] 2 2) [7, 8] 2 11 0 false).yty ∧
      z1.sumlogw
        = (WeightedRegSuf.mk (Matrix.mk [(2 : Int), 9, 3, 5] 2 2) [7, 8] 2 11 0 false).sumlogw ∧
      z1.HasDim 2) :=
  ⟨by decide, by decide, by decide, rfl, rfl,
    WeightedRegSuf_unvectorize_vectorize 2
      (WeightedRegSuf.mk (Matrix.mk [(2 : Int), 9, 3, 5] 2 2) [7, 8] 2 11 0 false)
      (WeightedRegSuf.mk (Matrix.mk [(0 : Int), 0, 0, 0] 2 2) [0, 0] 0 0 0 false)
      (by decide) (by decide) (by decide)⟩

/-! ## Calls that do not return, and calls on a sampler without a proposal -/

/-- C23 (fails on the code): intersection enters operator*= and operator*=
enters intersection, on the same operands, so neither call returns however
deep the call stack may grow; the Selectors built from the strings 101 and 110
are an instance. -/
theorem intersection_never_returns :
    Selector_string "101" = .ok (Selector.mk [true, false, true] [0, 2] false) ∧
    Selector_string "110" = .ok (Selector.mk [true, true, false] [0, 1] false) ∧
    (∀ fuel : Nat,
      (Selector.mk [true, false, true] [0, 2] false).intersection fuel
          (Selector.mk [true, true, false] [0, 1] false) = none ∧
      (Selector.mk [true, false, true] [0, 2] false).operator_mul_assign fuel
          (Selector.mk [true, true, false] [0, 1] false) = none) ∧
    (∀ (fuel : Nat) (a b : Selector),
      a.intersection fuel b = none ∧ a.operator_mul_assign fuel b = none) := by
  have h : ∀ (fuel : Nat) (a b : Selector),
      a.intersection fuel b = none ∧ a.operator_mul_assign fuel b = none := by
    intro fuel
    induction fuel with
    | zero =>
      intro a b
      exact ⟨rfl, rfl⟩
    | succ k ih =>
      intro a b
      constructor
      · rw [Selector.intersection]
        exact (ih a b).2
      · rw [Selector.operator_mul_assign]
        exact (ih a b).1
  exact ⟨rfl, rfl, fun fuel => h fuel _ _, h⟩

/-- C24 (fails on the code): the Selector built from the string 01 excludes
position 0 only and takes the rejection branch, whose draw from 1, ..., N - 1
is always 1, an included position: whatever the outcomes of the generator, and
however many of them there are, the call has not returned when they are used
up. -/
theorem random_excluded_position_never_returns :
    Selector_string "01" = .ok (Selector.mk [false, true] [1] false) ∧
    (Selector.mk [false, true] [1] false).Consistent ∧
    (Selector.mk [false, true] [1] false).inc 0 = .ok false ∧
    (∀ raw : Nat, random_int_mt raw 1 (2 - 1) = 1) ∧
    ∀ raws : List Nat,
      (Selector.mk [false, true] [1] false).random_excluded_position raws = none := by
  have hdraw : ∀ raw : Nat, random_int_mt raw 1 (2 - 1) = 1 := by
    intro raw
    unfold random_int_mt
    omega
  refine ⟨rfl, by decide, rfl, hdraw, ?_⟩
  intro raws
  have hloop : ∀ raws : List Nat,
      (Selector.mk [false, true] [1] false).rejection_loop 2 raws = none := by
    intro raws
    induction raws with
    | nil => rfl
    | cons raw rest ih =>
      unfold Selector.rejection_loop
      rw [hdraw raw]
      exact ih
  exact hloop raws

/-- C27 (fails on the code): the constructor leaves prop_ null and set_mode
dereferences it without the call of check_proposal that draw and locate_mode
make first, so set_mode on a newly constructed TIM is a null dereference for
every mode and precision; once check_proposal has run, the same call returns
with the proposal centred at the mode, the given precision, and the mode
marked found and fixed. -/
theorem set_mode_on_new_TIM_dereferences_null :
    (∀ (nu : Int) (mode_location : List Int) (precision : Matrix Int),
      (TIM_new nu).prop_ = none ∧
      (TIM_new nu).set_mode mode_location precision = .error .out_of_range) ∧
    (TIM_new (3 : Int)).set_mode [4] ⟨[1], 1, 1⟩ = .error .out_of_range ∧
    ((TIM_new (3 : Int)).check_proposal 1).set_mode [4] ⟨[1], 1, 1⟩
      = .ok { prop_ := some { mu := [4], ivar := ⟨[1], 1, 1⟩, nu := 3 }, nu_ := 3,
              cand_ := [0], g_ := [0], H_ := ⟨[0], 1, 1⟩,
              mode_is_fixed_ := true, mode_has_been_found_ := true } :=
  ⟨fun _ _ _ => ⟨rfl, rfl⟩, rfl, rfl⟩

/-- C28 (fails on the code): WeightedRegSuf::unvectorize does not pass its
bool on, so the matrix is read in the minimal layout whatever the argument.
Let x be built from the observations (1, 1) and (1, 2) with responses 3 and 1,
and made symmetric by xtx(): it holds the matrix (2, 3; 3, 5), xty (4, 5),
n 2, yty 10 and sumlogw 0, and x.vectorize(false) has 9 elements.  Then
z.unvectorize(x.vectorize(false), false) leaves z with the matrix
(2, 3; 3, 3), xty (5, 4), n 5, yty 2 and sumlogw 10, and stops one element
before the end of the vector; the same call after vectorize(true) restores
x. -/
theorem unvectorize_ignores_minimal :
    WeightedRegSuf_of_X_y (fun _ => 0) ⟨⟨[], 0, 0⟩, [], 9, 9, 9, true⟩
        (Matrix.mk [(1 : Int), 2] 2 1) [3, 1]
      = .ok (WeightedRegSuf.mk (Matrix.mk [2, 0, 3, 5] 2 2) [4, 5] 2 10 0 false) ∧
    (WeightedRegSuf.mk (Matrix.mk [(2 : Int), 0, 3, 5] 2 2) [4, 5] 2 10 0 false).xtx.2
      = WeightedRegSuf.mk (Matrix.mk [2, 3, 3, 5] 2 2) [4, 5] 2 10 0 true ∧
    (WeightedRegSuf.mk (Matrix.mk [(2 : Int), 3, 3, 5] 2 2) [4, 5] 2 10 0 true).HasDim 2 ∧
    (WeightedRegSuf.mk (Matrix.mk [(2 : Int), 3, 3, 5] 2 2) [4, 5] 2 10 0 true).SymSound ∧
    (WeightedRegSuf.mk (Matrix.mk [(0 : Int), 0, 0, 0] 2 2) [0, 0] 0 0 0 false).HasDim 2 ∧
    (WeightedRegSuf.mk (Matrix.mk [(2 : Int), 3, 3, 5] 2 2) [4, 5] 2 10 0 true).vectorize false
      = [2, 3, 3, 5, 4, 5, 2, 10, 0] ∧
    (WeightedRegSuf.mk (Matrix.mk [(0 : Int), 0, 0, 0] 2 2) [0, 0] 0 0 0 false).unvectorize
        [2, 3, 3, 5, 4, 5, 2, 10, 0] false
      = .ok (WeightedRegSuf.mk (Matrix.mk [2, 3, 3, 3] 2 2) [5, 4] 5 2 10 false, [0]) ∧
    (WeightedRegSuf.mk (Matrix.mk [(0 : Int), 0, 0, 0] 2 2) [0, 0] 0 0 0 false).unvectorize
        [2, 3, 3, 5, 4, 5, 2, 10, 0] false
      = (WeightedRegSuf.mk (Matrix.mk [(0 : Int), 0, 0, 0] 2 2) [0, 0] 0 0 0 false).unvectorize
        [2, 3, 3, 5, 4, 5, 2, 10, 0] true ∧
    (WeightedRegSuf.mk (Matrix.mk [(0 : Int), 0, 0, 0] 2 2) [0, 0] 0 0 0 false).unvectorize
        ((WeightedRegSuf.mk (Matrix.mk [(2 : Int), 3, 3, 5] 2 2) [4, 5] 2 10 0 true).vectorize
          true) false
      = .ok (WeightedRegSuf.mk (Matrix.mk [2, 3, 3, 5] 2 2) [4, 5] 2 10 0 false, []) :=
  ⟨rfl, rfl, by decide, by decide, by decide, rfl, rfl, rfl, rfl⟩

/-! ## Views of diagonals and subvectors -/

theorem SubMatrix.superdiag_neg (m : SubMatrix) (k : Nat) :
    m.superdiag (-((k : Int) + 1)) = m.superdiag 1 := by
  rw [SubMatrix.superdiag, if_pos (by omega), SubMatrix.subdiag, if_pos (by omega)]
  rfl

theorem ConstSubMatrix.const_superdiag_neg (m : ConstSubMatrix) (k : Nat) :
    m.superdiag (-((k : Int) + 1)) = m.superdiag 1 := by
  rw [ConstSubMatrix.superdiag, if_pos (by omega), ConstSubMatrix.subdiag, if_pos (by omega)]
  rfl

theorem SubMatrix.subdiag_neg (m : SubMatrix) (k : Nat) :
    m.subdiag (-((k : Int) + 1)) = m.superdiag ((k : Int) + 1) := by
  rw [SubMatrix.subdiag, if_pos (by omega), neg_neg]

theorem ConstSubMatrix.const_subdiag_neg (m : ConstSubMatrix) (k : Nat) :
    m.subdiag (-((k : Int) + 1)) = m.superdiag ((k : Int) + 1) := by
  rw [ConstSubMatrix.subdiag, if_pos (by omega), neg_neg]

/-- C25 (fails on the code): superdiag(i) with a negative i returns
subdiag(-1), which is superdiag(1), whatever i is.  On the window that covers a
3 by 3 matrix, superdiag(-1) and superdiag(-2) are both the view that starts at
cell 3 with 2 elements, while subdiag(1) starts at cell 1 and subdiag(2) starts
at cell 2 with 1 element; the mirror case subdiag(-i) == superdiag(i) holds.
The same is true of ConstSubMatrix. -/
theorem superdiag_negative_ignores_argument :
    SubMatrix_of_Matrix (Matrix.mk [(1 : Int), 2, 3, 4, 5, 6, 7, 8, 9] 3 3) 0 2 0 2
      = ⟨0, 3, 3, 3⟩ ∧
    SubMatrix.subdiag ⟨0, 3, 3, 3⟩ 1 = ⟨1, 2, 4⟩ ∧
    SubMatrix.superdiag ⟨0, 3, 3, 3⟩ (-1) = ⟨3, 2, 4⟩ ∧
    SubMatrix.subdiag ⟨0, 3, 3, 3⟩ 2 = ⟨2, 1, 4⟩ ∧
    SubMatrix.superdiag ⟨0, 3, 3, 3⟩ (-2) = ⟨3, 2, 4⟩ ∧
    SubMatrix.superdiag ⟨0, 3, 3, 3⟩ 1 = ⟨3, 2, 4⟩ ∧
    ConstSubMatrix_of_Matrix (Matrix.mk [(1 : Int), 2, 3, 4, 5, 6, 7, 8, 9] 3 3) 0 2 0 2
      = ⟨0, 3, 3, 3⟩ ∧
    ConstSubMatrix.subdiag ⟨0, 3, 3, 3⟩ 1 = ⟨1, 2, 4⟩ ∧
    ConstSubMatrix.superdiag ⟨0, 3, 3, 3⟩ (-1) = ⟨3, 2, 4⟩ ∧
    ConstSubMatrix.subdiag ⟨0, 3, 3, 3⟩ 2 = ⟨2, 1, 4⟩ ∧
    ConstSubMatrix.superdiag ⟨0, 3, 3, 3⟩ (-2) = ⟨3, 2, 4⟩ ∧
    (∀ (m : SubMatrix) (k : Nat),
      m.superdiag (-((k : Int) + 1)) = m.superdiag 1 ∧
      m.subdiag (-((k : Int) + 1)) = m.superdiag ((k : Int) + 1)) ∧
    (∀ (m : ConstSubMatrix) (k : Nat),
      m.superdiag (-((k : Int) + 1)) = m.superdiag 1 ∧
      m.subdiag (-((k : Int) + 1)) = m.superdiag ((k : Int) + 1)) := by
  have e1 : SubMatrix.superdiag ⟨0, 3, 3, 3⟩ 1 = ⟨3, 2, 4⟩ := by
    rw [SubMatrix.superdiag]; decide
  have e2 : ConstSubMatrix.superdiag ⟨0, 3, 3, 3⟩ 1 = ⟨3, 2, 4⟩ := by
    rw [ConstSubMatrix.superdiag]; decide
  refine ⟨rfl, ?_, ?_, ?_, ?_, e1, rfl, ?_, ?_, ?_, ?_, ?_, ?_⟩
  · rw [SubMatrix.subdiag]; decide
  · rw [← e1]; exact SubMatrix.superdiag_neg _ 0
  · rw [SubMatrix.subdiag]; decide
  · rw [← e1]; exact SubMatrix.superdiag_neg _ 1
  · rw [ConstSubMatrix.subdiag]; decide
  · rw [← e2]; exact ConstSubMatrix.const_superdiag_neg _ 0
  · rw [ConstSubMatrix.subdiag]; decide
  · rw [← e2]; exact ConstSubMatrix.const_superdiag_neg _ 1
  · exact fun m k => ⟨SubMatrix.superdiag_neg m k, SubMatrix.subdiag_neg m k⟩
  · exact fun m k => ⟨ConstSubMatrix.const_superdiag_neg m k, ConstSubMatrix.const_subdiag_neg m k⟩

/-- C26 (fails on the code): subvector starts the new view at data() + start,
not at data() + start*stride().  The row 0 of the window that covers a 2 by 3
matrix is the view v of the cells 0, 2, 4 (stride 2); subvector(v, 1) has the
right size 2 but its elements 0 and 1 are the cells 1 and 3, which belong to
row 1, where v[1] and v[2] are the cells 2 and 4.  The three-argument form and
the forms for ConstVectorView do the same. -/
theorem subvector_ignores_stride :
    SubMatrix_of_Matrix (Matrix.mk [(1 : Int), 2, 3, 4, 5, 6] 2 3) 0 1 0 2 = ⟨0, 2, 3, 2⟩ ∧
    SubMatrix.row ⟨0, 2, 3, 2⟩ 0 = ⟨0, 3, 2⟩ ∧
    SubMatrix.row ⟨0, 2, 3, 2⟩ 1 = ⟨1, 3, 2⟩ ∧
    subvector ⟨0, 3, 2⟩ 1 = .ok ⟨1, 2, 2⟩ ∧
    VectorView.elem ⟨1, 2, 2⟩ 0 = .ok 1 ∧
    VectorView.elem ⟨0, 3, 2⟩ (1 + 0) = .ok 2 ∧
    VectorView.elem ⟨1, 2, 2⟩ 1 = .ok 3 ∧
    VectorView.elem ⟨0, 3, 2⟩ (1 + 1) = .ok 4 ∧
    VectorView.elem ⟨1, 3, 2⟩ 0 = .ok 1 ∧
    subvector_stop ⟨0, 3, 2⟩ 1 2 = .ok ⟨1, 2, 2⟩ ∧
    ConstSubMatrix.row ⟨0, 2, 3, 2⟩ 0 = ⟨0, 3, 2⟩ ∧
    const_subvector ⟨0, 3, 2⟩ 1 = ⟨1, 2, 2⟩ ∧
    const_subvector_stop ⟨0, 3, 2⟩ 1 2 = .ok ⟨1, 2, 2⟩ ∧
    ConstVectorView.elem ⟨1, 2, 2⟩ 0 = .ok 1 ∧
    ConstVectorView.elem ⟨0, 3, 2⟩ (1 + 0) = .ok 2 :=
  ⟨rfl, rfl, rfl, rfl, rfl, rfl, rfl, rfl, rfl, rfl, rfl, rfl, rfl, rfl, rfl⟩

/-! ## Domain errors of the polygamma functions -/

theorem Double.not_ISNAN_of_le_zero (x : Double) (hx : x.le_zero = true) : x.ISNAN = false := by
  cases x with
  | nan => exact absurd hx (by decide)
  | inf neg => rfl
  | finite neg m e => rfl

theorem dpsifn_guard (env : PolygammaEnv) (x : Double) (n kode m : Int)
    (hx : x.le_zero = true) : (dpsifn env x n kode m).ierr = 1 := by
  unfold dpsifn
  simp [hx]

/-- C21 (as amended): for every x <= 0, digamma(x) returns the sentinel
-numeric_limits<double>::max(), the most negative finite double, which is not
a NaN, and sets errno to EDOM; trigamma, tetragamma and pentagamma do the
same. -/
theorem polygamma_domain_error (env : PolygammaEnv) (x : Double) (errno : Int)
    (hx : x.le_zero = true) :
    digamma env x errno = (Double.finite true 9007199254740991 971, EDOM) ∧
    trigamma env x errno = (Double.finite true 9007199254740991 971, EDOM) ∧
    tetragamma env x errno = (Double.finite true 9007199254740991 971, EDOM) ∧
    pentagamma env x errno = (Double.finite true 9007199254740991 971, EDOM) ∧
    (Double.finite true 9007199254740991 971).ISNAN = false := by
  have hnan := Double.not_ISNAN_of_le_zero x hx
  refine ⟨?_, ?_, ?_, ?_, rfl⟩
  · unfold digamma
    rw [hnan, dpsifn_guard env x 0 1 1 hx]
    rfl
  · unfold trigamma
    rw [hnan, dpsifn_guard env x 1 1 1 hx]
    rfl
  · unfold tetragamma
    rw [hnan, dpsifn_guard env x 2 1 1 hx]
    rfl
  · unfold pentagamma
    rw [hnan, dpsifn_guard env x 3 1 1 hx]
    rfl

theorem polygamma_domain_error_witness :
    (Double.finite true 1 0).le_zero = true ∧
    (digamma polygamma_test_env (Double.finite true 1 0) 0
        = (Double.finite true 9007199254740991 971, EDOM) ∧
      trigamma polygamma_test_env (Double.finite true 1 0) 0
        = (Double.finite true 9007199254740991 971, EDOM) ∧
      tetragamma polygamma_test_env (Double.finite true 1 0) 0
        = (Double.finite true 9007199254740991 971, EDOM) ∧
      pentagamma polygamma_test_env (Double.finite true 1 0) 0
        = (Double.finite true 9007199254740991 971, EDOM) ∧
      (Double.finite true 9007199254740991 971).ISNAN = false) :=
  ⟨rfl, polygamma_domain_error polygamma_test_env (Double.finite true 1 0) 0 rfl⟩

/-- C21 (as stated) fails: at x = -1, at x = 0 and at minus infinity, digamma
returns a value that is not a NaN, and so do trigamma, tetragamma and
pentagamma at x = -1; errno is set to EDOM. -/
theorem polygamma_sentinel_counterexample :
    (Double.finite true 1 0).le_zero = true ∧
    (digamma polygamma_test_env (Double.finite true 1 0) 0).1.ISNAN = false ∧
    (digamma polygamma_test_env (Double.finite false 0 0) 0).1.ISNAN = false ∧
    (digamma polygamma_test_env (Double.inf true) 0).1.ISNAN = false ∧
    (trigamma polygamma_test_env (Double.finite true 1 0) 0).1.ISNAN = false ∧
    (tetragamma polygamma_test_env (Double.finite true 1 0) 0).1.ISNAN = false ∧
    (pentagamma polygamma_test_env (Double.finite true 1 0) 0).1.ISNAN = false ∧
    (digamma polygamma_test_env (Double.finite true 1 0) 0).2 = EDOM :=
  ⟨rfl, rfl, rfl, rfl, rfl, rfl, rfl, rfl⟩

/-! ## The limits of `PoissonPrior` -/

/-- C22 (fails on the code): PoissonPrior::logp makes no test of its argument
against the limits.  In exact arithmetic the prior with mean 2 and limits 1
and 3 has the normalizing constant ln(16/3) - 2, and logp is ln(3/16) at 0,
below the lower limit, and ln(1/8) at 4, above the upper limit, where the
claim says minus infinity; at every value k >= 0 it is the logarithm of
(2^k / k!) / (16/3).  Only a negative value gives minus infinity, and
DiscreteUniformPrior::logp, with the same limits, gives it at 0 and at 4. -/
theorem PoissonPrior_logp_ignores_limits :
    PoissonPrior_new exact_env (Exact.scaled 2 0) (Exact.scaled 1 0) (Exact.scaled 3 0)
      = .ok ⟨Exact.scaled 2 0, Exact.scaled 1 0, Exact.scaled 3 0, Exact.logof (16 / 3) (-2)⟩ ∧
    PoissonPrior.logp exact_env
        ⟨Exact.scaled 2 0, Exact.scaled 1 0, Exact.scaled 3 0, Exact.logof (16 / 3) (-2)⟩ 0
      = Exact.logof (3 / 16) 0 ∧
    PoissonPrior.logp exact_env
        ⟨Exact.scaled 2 0, Exact.scaled 1 0, Exact.scaled 3 0, Exact.logof (16 / 3) (-2)⟩ 4
      = Exact.logof (1 / 8) 0 ∧
    PoissonPrior.logp exact_env
        ⟨Exact.scaled 2 0, Exact.scaled 1 0, Exact.scaled 3 0, Exact.logof (16 / 3) (-2)⟩ 2
      = Exact.logof (3 / 8) 0 ∧
    PoissonPrior.logp exact_env
        ⟨Exact.scaled 2 0, Exact.scaled 1 0, Exact.scaled 3 0, Exact.logof (16 / 3) (-2)⟩ (-1)
      = Exact.neg_inf ∧
    (∀ k : Nat,
      PoissonPrior.logp exact_env
          ⟨Exact.scaled 2 0, Exact.scaled 1 0, Exact.scaled 3 0, Exact.logof (16 / 3) (-2)⟩ k
        = Exact.logof (2 ^ k / (Nat.factorial k : ℚ) / (16 / 3)) 0) ∧
    DiscreteUniformPrior_logp Exact.neg_inf 1 3 (Exact.logof (1 / 3) 0) 0 = Exact.neg_inf ∧
    DiscreteUniformPrior_logp Exact.neg_inf 1 3 (Exact.logof (1 / 3) 0) 4 = Exact.neg_inf := by
  have h4 : Int.toNat 4 = 4 := rfl
  have h2 : Int.toNat 2 = 2 := rfl
  refine ⟨?_, ?_, ?_, ?_, ?_, ?_, ?_, ?_⟩
  · norm_num [PoissonPrior_new, exact_env, Exact.le, Exact.lt, Exact.sub, Exact.log,
      Exact.ppois, Exact.poisson_sum, Nat.factorial]
  · norm_num [PoissonPrior.logp, exact_env, Exact.sub, Exact.dpois, Nat.factorial]
  · norm_num [PoissonPrior.logp, exact_env, Exact.sub, Exact.dpois, Nat.factorial, h4]
  · norm_num [PoissonPrior.logp, exact_env, Exact.sub, Exact.dpois, Nat.factorial, h2]
  · norm_num [PoissonPrior.logp, exact_env, Exact.sub, Exact.dpois, Nat.factorial]
  · intro k
    have h : ¬ ((k : Int) < 0) := by omega
    norm_num [PoissonPrior.logp, exact_env, Exact.sub, Exact.dpois, h]
  · decide
  · decide

/-! ## The dimension of a `WeightedRegSuf` built from a design matrix -/

/-- C29 (fails on the code): both constructors pass the number of rows of
add_intercept(X) to setup_mat, so size() is the number of observations, not
the length of a row.  For X with 3 rows and 1 column the rows of
add_intercept(X) have 2 elements and setup_mat makes xtwx_ 3 by 3: the first
add_data is a size mismatch and neither constructor returns.  For X with no
rows and 1 column both constructors return a WeightedRegSuf with size() == 0,
where add_intercept(X) has 2 columns.  With 2 rows and 1 column the two counts
happen to agree and the constructor returns the sums. -/
theorem WeightedRegSuf_size_is_row_count :
    (∀ (raw : WeightedRegSuf Int) (X : Matrix Int),
      (raw.setup_mat (add_intercept X).nrow).size = X.nrow ∧
      (add_intercept X).ncol = X.ncol + 1) ∧
    add_intercept (Matrix.mk [(4 : Int), 5, 6] 3 1) = Matrix.mk [1, 1, 1, 4, 5, 6] 3 2 ∧
    (add_intercept (Matrix.mk [(4 : Int), 5, 6] 3 1)).row 0 = .ok [1, 4] ∧
    (∀ (log : Int → Int) (raw : WeightedRegSuf Int),
      WeightedRegSuf_of_X_y_w log raw (Matrix.mk [(4 : Int), 5, 6] 3 1) [1, 2, 3] [1, 1, 1]
        = .error (.reported "DimensionMismatch") ∧
      WeightedRegSuf_of_X_y log raw (Matrix.mk [(4 : Int), 5, 6] 3 1) [1, 2, 3]
        = .error (.reported "DimensionMismatch")) ∧
    (add_intercept (Matrix.mk ([] : List Int) 0 1)).ncol = 2 ∧
    (∀ (log : Int → Int) (raw : WeightedRegSuf Int),
      WeightedRegSuf_of_X_y_w log raw (Matrix.mk ([] : List Int) 0 1) [] []
        = .ok ⟨⟨[], 0, 0⟩, [], 0, 0, 0, false⟩ ∧
      WeightedRegSuf_of_X_y log raw (Matrix.mk ([] : List Int) 0 1) []
        = .ok ⟨⟨[], 0, 0⟩, [], 0, 0, 0, false⟩ ∧
      (WeightedRegSuf.mk (Matrix.mk ([] : List Int) 0 0) [] 0 0 0 false).size = 0 ∧
      WeightedRegSuf.add_data log ⟨⟨[], 0, 0⟩, [], 0, 0, 0, false⟩ [1, 4] 1 1
        = .error (.reported "DimensionMismatch")) ∧
    WeightedRegSuf_of_X_y_w (fun _ => 0) ⟨⟨[], 0, 0⟩, [], 9, 9, 9, true⟩
        (Matrix.mk [(4 : Int), 5] 2 1) [1, 2] [1, 1]
      = .ok ⟨⟨[2, 0, 9, 41], 2, 2⟩, [3, 14], 2, 5, 0, false⟩ :=
  ⟨fun _ _ => ⟨rfl, rfl⟩, rfl, rfl, fun _ _ => ⟨rfl, rfl⟩, rfl,
    fun _ _ => ⟨rfl, rfl, rfl, rfl⟩, rfl⟩

end BOOM
